import Mathlib

/-!
# Calibration core of the 2.4 GHz transceiver driver (`nxp_xcvr_trim.c`)

A shallow embedding of the DC-offset (DCOC) and I/Q mismatch (IQMC) calibration
routines of `src/drv/nb2p4ghz/nxp_xcvr_trim.c`, with the properties of the
natural-language specification stated and proved over it.

Conventions of the embedding
* `int16_t` values are `Int`s in `-32768 .. 32767`; `uint8_t`, `uint16_t` and
  `uint32_t` values are `Nat`s, reduced modulo `2 ^ w` where the C code wraps.
* A pointer argument is modelled by what the function needs of it: a `Bool` for
  "is not NULL" when the pointee is only written, an `Option` when it is read.
* Values written through output pointers are returned as `Option`s: `none`
  means that the function did not write.
-/

namespace XcvrTrim

/-! ## Machine integers -/

/-- The conversion `(uint16_t)x` of a signed value: reduction modulo `2 ^ 16`. -/
def toUInt16 (x : Int) : Nat := (x % 65536).toNat

/-- The conversion `(int16_t)u` of an unsigned value: the two's complement reading of
the low 16 bits. -/
def toInt16 (u : Nat) : Int :=
  if u % 65536 < 32768 then ((u % 65536 : Nat) : Int) else ((u % 65536 : Nat) : Int) - 65536

/-- The conversion of a signed value to `int16_t` (wrap-around on overflow, as the
compilers of the target do). -/
def wrapInt16 (x : Int) : Int := toInt16 (toUInt16 x)

/-- The range of `int16_t`. -/
def isInt16 (x : Int) : Prop := -32768 ≤ x ∧ x ≤ 32767

instance (x : Int) : Decidable (isInt16 x) := by
  unfold isInt16
  exact inferInstance

/-- The operator `x--` on a `uint8_t`. -/
def uint8_dec (x : Nat) : Nat := (x + 255) % 256

/-- The operator `x++` on a `uint8_t`. -/
def uint8_inc (x : Nat) : Nat := (x + 1) % 256

/-! ## Macros of `nxp_xcvr_trim.c` -/

/-- The macro `ISIGN(x)`, `(((uint16_t)(x) & 0x8000U) == 0U)`: true when the sign bit
is clear. -/
def ISIGN (x : Int) : Bool := (toUInt16 x &&& 0x8000) == 0

/-- The macro `ABS(x)`, `(((x) > 0) ? ((uint16_t)(x)) : ((uint16_t) - (x)))`. -/
def ABS (x : Int) : Nat := if x > 0 then toUInt16 x else toUInt16 (-x)

/-- Modelled from the spec: the macro `MIN` comes from `fsl_common.h`, which is not
part of the sources at hand; it is "the smaller of the two" magnitudes,
`(((a) < (b)) ? (a) : (b))`. -/
def MIN (a b : Nat) : Nat := if a < b then a else b

/-! ## Sign extension of the 12-bit register fields -/

/-- The sign extension of `rx_dc_est_average`:
`temp16 |= (((temp16 & 0x800U) == 0x800U) ? 0xF000U : 0x0U)`. -/
def signExtendEst (temp16 : Nat) : Nat :=
  temp16 ||| (if temp16 &&& 0x800 = 0x800 then 0xF000 else 0x0)

/-- The sign extension of `IQMCRunTrials`:
`temp_phase |= (((temp_phase & 0x0800U) != 0U) ? 0xF800U : 0x0U)`. -/
def signExtendPhase (temp_phase : Nat) : Nat :=
  temp_phase ||| (if temp_phase &&& 0x0800 ≠ 0 then 0xF800 else 0x0)

/-! ## Slope-seek engine: channel state and sweep steps -/

/-- Channel state variables for the slope-seek algorithm (`xcvr_channel_state_t`). -/
structure xcvr_channel_state_t where
  /-- DC measurement value (`int16_t`). -/
  dc_meas : Int
  /-- Previous DC measurement value (`int16_t`). -/
  dc_meas_p : Int
  /-- Current TZA DAC value (`uint8_t`). -/
  curr_tza_dac : Nat
  /-- Current BBA DAC value (`uint8_t`). -/
  curr_bba_dac : Nat
  /-- Prior TZA DAC value (`uint8_t`). -/
  p_tza_dac : Nat
  /-- Prior BBA DAC value (`uint8_t`). -/
  p_bba_dac : Nat
  /-- TZA channel sweep complete flag. -/
  TZA_OK : Bool
  /-- BBA channel sweep complete flag. -/
  BBA_OK : Bool
deriving DecidableEq, Repr, Inhabited

/-- The function `init_chan_state`, for a valid pointer: every field of the state is
overwritten (with a NULL pointer the function does nothing). -/
def init_chan_state (_chan : xcvr_channel_state_t) : xcvr_channel_state_t :=
  { dc_meas := 2000
    dc_meas_p := 2000
    TZA_OK := false
    BBA_OK := false
    curr_bba_dac := 0x20
    curr_tza_dac := 0x80
    p_bba_dac := 0x20
    p_tza_dac := 0x80 }

/-- The function `tza_chan_sweep`: one step of the coarse (TZA) sweep. -/
def tza_chan_sweep (chan : xcvr_channel_state_t) (step_num : Nat) : xcvr_channel_state_t :=
  if (ISIGN chan.dc_meas != ISIGN chan.dc_meas_p) && decide (step_num > 0) then
    let chan1 :=
      if ABS chan.dc_meas ≠ MIN (ABS chan.dc_meas) (ABS chan.dc_meas_p) then
        { chan with curr_tza_dac := chan.p_tza_dac }
      else chan
    { chan1 with TZA_OK := true }
  else
    let chan1 := { chan with p_tza_dac := chan.curr_tza_dac }
    if ISIGN chan1.dc_meas then
      { chan1 with curr_tza_dac := uint8_dec chan1.curr_tza_dac }
    else
      { chan1 with curr_tza_dac := uint8_inc chan1.curr_tza_dac }

/-- The function `bba_chan_sweep`: one step of the fine (BBA) sweep. The argument
`step_num` is not used by the C function either. -/
def bba_chan_sweep (chan : xcvr_channel_state_t) (_step_num : Nat) : xcvr_channel_state_t :=
  if (ISIGN chan.dc_meas != ISIGN chan.dc_meas_p) && decide (chan.curr_bba_dac ≠ 0x20) then
    let chan1 :=
      if ABS chan.dc_meas ≠ MIN (ABS chan.dc_meas) (ABS chan.dc_meas_p) then
        { chan with curr_bba_dac := chan.p_bba_dac }
      else chan
    { chan1 with BBA_OK := true }
  else
    let chan1 := { chan with p_bba_dac := chan.curr_bba_dac }
    if ISIGN chan1.dc_meas then
      { chan1 with curr_bba_dac := uint8_dec chan1.curr_bba_dac }
    else
      { chan1 with curr_bba_dac := uint8_inc chan1.curr_bba_dac }

/-- The function `chan_step_sweep`: the TZA sweep until it is complete, then the BBA
sweep until it is complete, then nothing. -/
def chan_step_sweep (chan : xcvr_channel_state_t) (step_num : Nat) : xcvr_channel_state_t :=
  if !chan.TZA_OK then tza_chan_sweep chan step_num
  else if !chan.BBA_OK then bba_chan_sweep chan step_num
  else chan

/-- The signs of two measurements differ: one has its sign bit set, the other not. -/
def signFlip (dc dc_p : Int) : Prop := ¬ (0 ≤ dc ↔ 0 ≤ dc_p)

instance (dc dc_p : Int) : Decidable (signFlip dc dc_p) := by
  unfold signFlip
  exact inferInstance

/-! ## Slope-seek engine: the loop of `DCOC_DAC_INIT_Cal` -/

/-- The tail of the loop body of `DCOC_DAC_INIT_Cal` for one channel:
`chan.dc_meas_p = chan.dc_meas`, then the DAC values are written to `DCOC_DAC_INIT` and
the channel is measured again (`rx_dc_est_average`). The measurement is a function
`meas` of the coarse and fine trims of the channel: the synthetic DC-vs-trim function
of the specification. -/
def store_and_measure (meas : Nat → Nat → Int) (chan : xcvr_channel_state_t) :
    xcvr_channel_state_t :=
  { chan with
    dc_meas_p := chan.dc_meas
    dc_meas := meas chan.curr_tza_dac chan.curr_bba_dac }

/-- The loop `for (i = 0; i < 0x0FU; i++)` of `DCOC_DAC_INIT_Cal`, with `n` iterations
left and the loop counter at `i`: both channels are stepped, the loop is left when the
four flags are set, otherwise the measurements are stored and taken again. -/
def slope_seek_loop (meas_i meas_q : Nat → Nat → Int) :
    Nat → Nat → xcvr_channel_state_t × xcvr_channel_state_t →
      xcvr_channel_state_t × xcvr_channel_state_t
  | 0, _, st => st
  | n + 1, i, (i_chan, q_chan) =>
    let i_chan1 := chan_step_sweep i_chan i
    let q_chan1 := chan_step_sweep q_chan i
    if i_chan1.TZA_OK && q_chan1.TZA_OK && i_chan1.BBA_OK && q_chan1.BBA_OK then
      (i_chan1, q_chan1)
    else
      slope_seek_loop meas_i meas_q n (i + 1)
        (store_and_measure meas_i i_chan1, store_and_measure meas_q q_chan1)

/-- The slope-seek part of `DCOC_DAC_INIT_Cal`: both channel states are initialised,
the first measurement is taken at the nominal trims (the one that ends the gain
back-off loop), and the loop runs for at most `0x0F` iterations. The arguments `i0` and
`q0` are the uninitialised locals. -/
def DCOC_DAC_INIT_Cal_seek (meas_i meas_q : Nat → Nat → Int)
    (i0 q0 : xcvr_channel_state_t) : xcvr_channel_state_t × xcvr_channel_state_t :=
  let i_chan := init_chan_state i0
  let q_chan := init_chan_state q0
  let i_chan := { i_chan with dc_meas := meas_i i_chan.curr_tza_dac i_chan.curr_bba_dac }
  let q_chan := { q_chan with dc_meas := meas_q q_chan.curr_tza_dac q_chan.curr_bba_dac }
  slope_seek_loop meas_i meas_q 0x0F 0 (i_chan, q_chan)

/-- The trims and flags of a channel state: everything but the two measurements. -/
def chanCore (chan : xcvr_channel_state_t) : Nat × Nat × Nat × Nat × Bool × Bool :=
  (chan.curr_tza_dac, chan.curr_bba_dac, chan.p_tza_dac, chan.p_bba_dac, chan.TZA_OK,
    chan.BBA_OK)

/-- One iteration of the loop seen from one channel, when the loop is not left. -/
def chan_iter (meas : Nat → Nat → Int) (chan : xcvr_channel_state_t) (i : Nat) :
    xcvr_channel_state_t :=
  store_and_measure meas (chan_step_sweep chan i)

/-- The iterations `i, i + 1, ..., i + n - 1` of the loop seen from one channel. -/
def chan_run (meas : Nat → Nat → Int) :
    Nat → Nat → xcvr_channel_state_t → xcvr_channel_state_t
  | 0, _, chan => chan
  | n + 1, i, chan => chan_run meas n (i + 1) (chan_iter meas chan i)

/-- The code reached from `x0` after `j` steps in one direction: down when the
measurement at the start has its sign bit clear, up when it is negative. -/
def walkCode (down : Bool) (x0 j : Nat) : Nat := if down then x0 - j else x0 + j

/-- The coarse code reached after `j` steps of the coarse sweep. -/
def coarseCode (meas : Nat → Nat → Int) (j : Nat) : Nat :=
  walkCode (decide (0 ≤ meas 0x80 0x20)) 0x80 j

/-- The fine code reached after `j` steps of the fine sweep at the coarse code `tc`. -/
def fineCode (meas : Nat → Nat → Int) (tc j : Nat) : Nat :=
  walkCode (decide (0 ≤ meas tc 0x20)) 0x20 j

/-- The code kept when the sign flips between the codes `prev` and `curr` (in the order
of the sweep), whose measurements are `m_prev` and `m_curr`: the prior code when the
new magnitude is the larger one, the current code otherwise. -/
def keptCode (m_prev m_curr : Int) (prev curr : Nat) : Nat :=
  if m_prev.natAbs < m_curr.natAbs then prev else curr

/-- The coarse code kept by the sweep whose sign flip is seen after `a` steps. -/
def coarseKept (meas : Nat → Nat → Int) (a : Nat) : Nat :=
  keptCode (meas (coarseCode meas (a - 1)) 0x20) (meas (coarseCode meas a) 0x20)
    (coarseCode meas (a - 1)) (coarseCode meas a)

/-- The fine code kept by the sweep at the coarse code `tc` whose sign flip is seen
after `c` steps. -/
def fineKept (meas : Nat → Nat → Int) (tc c : Nat) : Nat :=
  keptCode (meas tc (fineCode meas tc (c - 1))) (meas tc (fineCode meas tc c))
    (fineCode meas tc (c - 1)) (fineCode meas tc c)

/-- The channel state at the entry of the loop: `init_chan_state`, then the first
measurement at the nominal trims. -/
def startState (meas : Nat → Nat → Int) : xcvr_channel_state_t :=
  ⟨meas 0x80 0x20, 2000, 0x80, 0x20, 0x80, 0x20, false, false⟩

/-- The channel state after `j >= 1` steps of the coarse sweep without a sign flip. -/
def coarseState (meas : Nat → Nat → Int) (j : Nat) : xcvr_channel_state_t :=
  ⟨meas (coarseCode meas j) 0x20, meas (coarseCode meas (j - 1)) 0x20, coarseCode meas j, 0x20,
    coarseCode meas (j - 1), 0x20, false, false⟩

/-- The channel state after `j` steps of the fine sweep without a sign flip, the coarse
sweep having seen its sign flip after `a` steps; `j = 0` is the state in which the
coarse sweep leaves the channel. -/
def fineState (meas : Nat → Nat → Int) (a j : Nat) : xcvr_channel_state_t :=
  ⟨meas (coarseKept meas a) (fineCode meas (coarseKept meas a) j),
    if j = 0 then meas (coarseCode meas a) 0x20
    else meas (coarseKept meas a) (fineCode meas (coarseKept meas a) (j - 1)),
    coarseKept meas a, fineCode meas (coarseKept meas a) j, coarseCode meas (a - 1),
    fineCode meas (coarseKept meas a) (j - 1), true, false⟩

/-- The number of steps after which a sweep started at the code `x0` sees the sign flip
of a non-decreasing measurement that is negative at `xs - 1` and not negative at `xs`:
the sweep goes down to `xs - 1` when `xs <= x0`, and up to `xs` otherwise. -/
def stepsToFlip (x0 xs : Nat) : Nat := if xs ≤ x0 then x0 - xs + 1 else xs - x0

/-- A synthetic DC-vs-trim function with its sign change between the coarse codes
`0x89` and `0x8A` (at the nominal fine trim), and at the coarse code `0x8A` between the
fine codes `0x17` and `0x18`: 16 units per coarse code, 1 unit per fine code. -/
def farCrossing (t b : Nat) : Int := 16 * ((t : Int) - 0x8A) + ((b : Int) - 0x20) + 8

/-- A synthetic DC-vs-trim function with its sign change between the coarse codes
`0x83` and `0x84` (at the nominal fine trim) and a fine sign change five or six codes
below `0x20`: 16 units per coarse code, 1 unit per fine code. -/
def nearCrossing (t b : Nat) : Int := 16 * ((t : Int) - 0x84) + ((b : Int) - 0x20) + 5

/-! ## Single-precision arithmetic (`float32_t`)

A finite `float32_t` is modelled by the rational number it denotes: the type is the
IEEE 754 binary32 format, as on the Cortex-M cores the driver runs on. An operation is
the exact operation on rationals followed by `f32round`, the rounding to the nearest
binary32 number, ties to even (24-bit significand, subnormal numbers below `2 ^ (-126)`).
Overflow to infinity is not modelled: the magnitudes of the calibration routines stay
far below `2 ^ 128`. Division by zero yields `0`, as division of rationals does; in C
it yields an infinity or a NaN, whose conversion to an integer is undefined. -/

/-- Rounding of a rational number to the nearest integer, ties to the even one. -/
def roundHalfEven (q : ℚ) : ℤ :=
  if q - ⌊q⌋ < 1 / 2 then ⌊q⌋
  else if 1 / 2 < q - ⌊q⌋ then ⌊q⌋ + 1
  else if ⌊q⌋ % 2 = 0 then ⌊q⌋
  else ⌊q⌋ + 1

/-- The exponent of the binade of `q`: `2 ^ e <= |q| < 2 ^ (e + 1)`, and `-126` for the
subnormal numbers. -/
def f32exp (q : ℚ) : ℤ := max (Int.log 2 |q|) (-126)

/-- The distance between consecutive binary32 numbers in the binade of `q`. -/
def f32ulp (q : ℚ) : ℚ := (2 : ℚ) ^ (f32exp q - 23)

/-- Rounding to the nearest binary32 number, ties to even. -/
def f32round (q : ℚ) : ℚ := (roundHalfEven (q / f32ulp q) : ℚ) * f32ulp q

/-- The operator `+` on `float32_t`. -/
def f32add (a b : ℚ) : ℚ := f32round (a + b)

/-- The operator `*` on `float32_t`. -/
def f32mul (a b : ℚ) : ℚ := f32round (a * b)

/-- The operator `/` on `float32_t`. -/
def f32div (a b : ℚ) : ℚ := f32round (a / b)

/-- The conversion `(float32_t)z` of an integer. -/
def f32_of_int (z : Int) : ℚ := f32round (z : ℚ)

/-- The function `roundf`: the nearest integer, halfway cases away from zero. -/
def roundf (x : ℚ) : ℚ :=
  if 0 ≤ x then ((⌊x + 1 / 2⌋ : Int) : ℚ) else -((⌊-x + 1 / 2⌋ : Int) : ℚ)

/-- The integer part kept by the conversion of a `float32_t` to an integer type:
truncation toward zero. -/
def truncToInt (x : ℚ) : Int := if 0 ≤ x then ⌊x⌋ else ⌈x⌉

/-- The conversion `(int16_t)x` of a `float32_t`. Out of the range of `int16_t` the
conversion is undefined in C; the model wraps. -/
def f32_to_int16 (x : ℚ) : Int := wrapInt16 (truncToInt x)

/-- The conversion `(uint16_t)x` of a `float32_t`. Out of the range of `uint16_t` the
conversion is undefined in C; the model wraps. -/
def f32_to_uint16 (x : ℚ) : Nat := toUInt16 (truncToInt x)

/-- The conversion `(uint32_t)x` of a `float32_t`. Out of the range of `uint32_t` the
conversion is undefined in C; the model wraps. -/
def f32_to_uint32 (x : ℚ) : Nat := (truncToInt x % 4294967296).toNat

/-! ## Sample acquisition -/

/-- The loop of `rx_dc_sample_average` after `i` iterations: the running totals `avg_i`
and `avg_q` of the I samples `buffer_ptr[2 * k]` and of the Q samples
`buffer_ptr[2 * k + 1]`, accumulated in `float32_t`. The buffer is the function from
index to sample. -/
def sample_sums (buf : Nat → Int) : Nat → ℚ × ℚ
  | 0 => (0, 0)
  | i + 1 =>
    (f32add (sample_sums buf i).1 (f32_of_int (buf (2 * i))),
      f32add (sample_sums buf i).2 (f32_of_int (buf (2 * i + 1))))

/-- The function `rx_dc_sample_average`. The arguments `i_avg` and `q_avg` tell whether
the output pointers are not NULL; `buffer_ptr` is `none` for a NULL pointer. The result
is the status and the values written to `*i_avg` and `*q_avg`. -/
def rx_dc_sample_average (i_avg q_avg : Bool) (buffer_ptr : Option (Nat → Int))
    (num_samples : Nat) : Nat × Option Int × Option Int :=
  match buffer_ptr with
  | some buf =>
    if i_avg && q_avg then
      let sums := sample_sums buf num_samples
      let avg_i := f32div sums.1 (f32_of_int num_samples)
      let avg_q := f32div sums.2 (f32_of_int num_samples)
      (1, some (f32_to_int16 avg_i), some (f32_to_int16 avg_q))
    else (0, none, none)
  | none => (0, none, none)

/-- Modelled from the spec: the mask `XCVR_RX_DIG_DCOC_DC_EST_DC_EST_I_MASK` of the device
header, which is not part of the sources at hand. The estimate register holds both
channels "packed together (lower bits = I, upper bits = Q)", each 12 bits wide. -/
def DC_EST_I_MASK : Nat := 0xFFF

/-- Modelled from the spec: the mask `XCVR_RX_DIG_DCOC_DC_EST_DC_EST_Q_MASK` of the device
header (see `DC_EST_I_MASK`). -/
def DC_EST_Q_MASK : Nat := 0xFFF0000

/-- Modelled from the spec: the shift `XCVR_RX_DIG_DCOC_DC_EST_DC_EST_Q_SHIFT` of the
device header (see `DC_EST_I_MASK`). -/
def DC_EST_Q_SHIFT : Nat := 16

/-- The I sample read from a value of the register `DCOC_DC_EST`. -/
def dc_est_sample_i (dc_temp : Nat) : Int :=
  toInt16 (signExtendEst ((dc_temp &&& DC_EST_I_MASK) % 65536))

/-- The Q sample read from a value of the register `DCOC_DC_EST`. -/
def dc_est_sample_q (dc_temp : Nat) : Int :=
  toInt16 (signExtendEst (((dc_temp &&& DC_EST_Q_MASK) >>> DC_EST_Q_SHIFT) % 65536))

/-- The loop of `rx_dc_est_average` after `i` iterations; `dc_est k` is the value of
the register `DCOC_DC_EST` at its read number `k`. -/
def est_sums (dc_est : Nat → Nat) : Nat → ℚ × ℚ
  | 0 => (0, 0)
  | i + 1 =>
    (f32add (est_sums dc_est i).1 (f32_of_int (dc_est_sample_i (dc_est i))),
      f32add (est_sums dc_est i).2 (f32_of_int (dc_est_sample_q (dc_est i))))

/-- The function `rx_dc_est_average`, with the same conventions as
`rx_dc_sample_average`. -/
def rx_dc_est_average (i_avg q_avg : Bool) (dc_est : Nat → Nat) (num_samples : Nat) :
    Nat × Option Int × Option Int :=
  if i_avg && q_avg then
    let sums := est_sums dc_est num_samples
    let avg_i := f32div sums.1 (f32_of_int num_samples)
    let avg_q := f32div sums.2 (f32_of_int num_samples)
    (1, some (f32_to_int16 avg_i), some (f32_to_int16 avg_q))
  else (0, none, none)

/-- The exact sum of the first `n` samples of one channel: the samples at the indices
`2 * k + offset`, with `offset = 0` for I and `offset = 1` for Q. -/
def sampleSum (buf : Nat → Int) (offset : Nat) : Nat → Int
  | 0 => 0
  | i + 1 => sampleSum buf offset i + buf (2 * i + offset)

/-- A capture of 513 sample pairs: 512 pairs with I at `-32768`, then one pair with I at
`-449`; Q is `0` throughout. -/
def stalledCapture (k : Nat) : Int :=
  if k % 2 = 1 then 0 else if k < 1024 then -32768 else -449

/-! ## DCOC step calibration -/

/-- An entry of the measurement table (`GAIN_CALC_TBL_ENTRY2_T`): the step applied to
the DAC (`int8_t`) and the DC measured (`int16_t`). -/
structure GAIN_CALC_TBL_ENTRY2_T where
  /-- The step applied to the DAC. -/
  step_value : Int
  /-- The averaged DC measurement. -/
  internal_measurement : Int
deriving DecidableEq, Repr, Inhabited

/-- The function `calc_dcoc_dac_step`: the difference of the two measurements is stored
in an `int16_t`, divided by the step in `float32_t`, and the sign is dropped. -/
def calc_dcoc_dac_step (meas_ptr baseline_meas_ptr : GAIN_CALC_TBL_ENTRY2_T) : ℚ :=
  let norm_dc_code :=
    wrapInt16 (meas_ptr.internal_measurement - baseline_meas_ptr.internal_measurement)
  let dc_step := f32div (f32_of_int norm_dc_code) (f32_of_int meas_ptr.step_value)
  if dc_step < 0 then -dc_step else dc_step

/-- The quantization `bbf_dcoc_step = (uint32_t)roundf(temp_step * 8.0F)` of
`rx_bba_dcoc_dac_trim_DCest`. -/
def quantize_step (temp_step : ℚ) : Nat := f32_to_uint32 (roundf (f32mul temp_step 8))

/-- An entry of the derived step chain (`TZAdcocstep_t`): two `uint16_t`. -/
structure TZAdcocstep_t where
  /-- The step, with 3 fractional bits. -/
  dcoc_step : Nat
  /-- The reciprocal of the step. -/
  dcoc_step_rcp : Nat
deriving DecidableEq, Repr, Inhabited

/-- The step registers written by the DCOC step calibration. -/
inductive StepReg where
  /-- The register `DCOC_BBA_STEP`. -/
  | DCOC_BBA_STEP : StepReg
  /-- The register `DCOC_TZA_STEP_k`, for `k` from 0 to 10. -/
  | DCOC_TZA_STEP : Nat → StepReg
deriving DecidableEq, Repr

/-- A write to a step register: the register and the arguments of the two field macros
whose values are ORed, the step (or gain) field first, the reciprocal field second. -/
structure StepWrite where
  /-- The register written. -/
  reg : StepReg
  /-- The argument of the step field macro. -/
  step : Nat
  /-- The argument of the reciprocal field macro. -/
  recip : Nat
deriving DecidableEq, Repr

/-- One pass of the loop of `calc_tza_step_recip`, for the stage `k = i - TZA_STEP_N0`:
the `switch` selects the ratio `this_step / last_step` (stage 0 restarts from the
quantized step; a stage above 10 is the `default` branch, which clears the status),
`temp_step` is updated and quantized. The configuration value
`xcvr_common_config.dcoc_tza_step_k` is `cfg k`. The result is the status, the new
`temp_step` and the chain entry. -/
def tza_stage (cfg : Nat → Nat) (bbf_dcoc_step : Nat) (k : Nat) (status : Nat) (temp_step : ℚ) :
    Nat × ℚ × TZAdcocstep_t :=
  let sel : Nat × ℚ × ℚ × ℚ :=
    if k = 0 then (status, f32_of_int bbf_dcoc_step, 1, f32round (144 / 5))
    else if k ≤ 10 then
      (status, temp_step, f32_of_int (cfg k >>> 16), f32_of_int (cfg (k - 1) >>> 16))
    else (0, temp_step, 1, f32round (144 / 5))
  let temp_step1 := f32mul sel.2.1 (f32div sel.2.2.1 sel.2.2.2)
  (sel.1, temp_step1,
    ⟨f32_to_uint16 (roundf (f32mul temp_step1 8)),
      f32_to_uint16 (roundf (f32div 0x8000 temp_step1))⟩)

/-- The loop `for (i = TZA_STEP_N0; i <= TZA_STEP_N10; i++)` of `calc_tza_step_recip`
after its first `n` passes: the status, `temp_step` and the chain entries written so
far, in order. -/
def tza_stages (cfg : Nat → Nat) (bbf_dcoc_step : Nat) (temp_step : ℚ) :
    Nat → Nat × ℚ × List TZAdcocstep_t
  | 0 => (1, temp_step, [])
  | n + 1 =>
    let prev := tza_stages cfg bbf_dcoc_step temp_step n
    let st := tza_stage cfg bbf_dcoc_step n prev.1 prev.2.1
    (st.1, st.2.1, prev.2.2 ++ [st.2.2])

/-- The function `calc_tza_step_recip`. The result is the status, the list of register
writes in program order, and the chain entries stored in `tza_dcoc_step` (none when the
step is out of the band). -/
def calc_tza_step_recip (cfg : Nat → Nat) (temp_step : ℚ) (bbf_dcoc_step : Nat) :
    Nat × List StepWrite × List TZAdcocstep_t :=
  if 250 < bbf_dcoc_step ∧ bbf_dcoc_step < 305 then
    let bbf_dcoc_step_rcp := f32_to_uint32 (roundf (f32div 0x8000 temp_step))
    let loop := tza_stages cfg bbf_dcoc_step temp_step 11
    let tza_dcoc_step := loop.2.2
    (loop.1,
      [⟨StepReg.DCOC_BBA_STEP, bbf_dcoc_step, bbf_dcoc_step_rcp⟩,
        ⟨StepReg.DCOC_TZA_STEP 0, (tza_dcoc_step.getD 0 default).dcoc_step * 10,
          (tza_dcoc_step.getD 0 default).dcoc_step_rcp / 10⟩] ++
      (List.range 10).map (fun j =>
        ⟨StepReg.DCOC_TZA_STEP (j + 1), (tza_dcoc_step.getD (j + 1) default).dcoc_step,
          (tza_dcoc_step.getD (j + 1) default).dcoc_step_rcp⟩),
      tza_dcoc_step)
  else (0, [], [])

/-- An example of the step-ratio constants `xcvr_common_config.dcoc_tza_step_k`: the
ratio of the stage `k` in the upper 16 bits, growing by about the square root of two
per stage. -/
def exampleTzaConfig (k : Nat) : Nat :=
  ([0x2B8, 0x3D2, 0x560, 0x798, 0xAB8, 0xF32, 0x1570, 0x1E4A, 0x2AC8, 0x3C5C, 0x5554].getD k 0)
    <<< 16

/-- A capture of four sample pairs: I samples `-20, -6, 8, 22`, Q samples
`-1, -3, -5, -7`. -/
def exampleCapture (k : Nat) : Int := if k % 2 = 0 then 7 * (k : Int) - 20 else -(k : Int)

/-- A capture of 515 sample pairs: 512 pairs with I at `-32768`, then I at `-1`, `-1`
and `-453`; Q is `0` throughout. -/
def lossyCapture (k : Nat) : Int :=
  if k % 2 = 1 then 0 else if k < 1024 then -32768 else if k < 1028 then -1 else -453

/-- A synthetic DC-vs-trim function that decreases with each trim, with its sign change
between the coarse codes `0x82` and `0x83` (at the nominal fine trim): 16 units per
coarse code, 1 unit per fine code. -/
def fallingCrossing (t b : Nat) : Int := 16 * (0x82 - (t : Int)) + (0x20 - (b : Int)) + 8

/-! ## Status values and enumerations of the driver header -/

/-- Modelled from the spec: the status type `xcvrStatus_t` of the Radio Control
Interface, whose header is not part of the sources at hand. `nxp_xcvr_trim.c` names
three of its values; `other` stands for every other status ("`overrideChannel(index) ->
status`"). -/
inductive xcvrStatus_t where
  /-- The value `gXcvrSuccess_c`. -/
  | gXcvrSuccess_c : xcvrStatus_t
  /-- The value `gXcvrTrimFailure_c`. -/
  | gXcvrTrimFailure_c : xcvrStatus_t
  /-- The value `gXcvrUnsupportedOperation_c`. -/
  | gXcvrUnsupportedOperation_c : xcvrStatus_t
  /-- Any other status of the interface, by its numeric code. -/
  | other : Nat → xcvrStatus_t
deriving DecidableEq, Repr

/-- Modelled from the spec: the status type `xcvrTrimStatus_t` of the trims, whose
header is not part of the sources at hand ("`enum{Success, OutOfRange, InvalidMode,
InvalidChannel}`"), with the names that `nxp_xcvr_trim.c` uses. -/
inductive xcvrTrimStatus_t where
  /-- The value `gXcvrTrimSuccess_c`. -/
  | gXcvrTrimSuccess_c : xcvrTrimStatus_t
  /-- The value `gXcvrTrimIqmcCalOutOfRange_c`. -/
  | gXcvrTrimIqmcCalOutOfRange_c : xcvrTrimStatus_t
  /-- The value `gXcvrTrimInvalidMode_c`. -/
  | gXcvrTrimInvalidMode_c : xcvrTrimStatus_t
  /-- The value `gXcvrTrimInvalidChannel_c`. -/
  | gXcvrTrimInvalidChannel_c : xcvrTrimStatus_t
deriving DecidableEq, Repr

/-- Modelled from the spec: the enumeration `IQ_t` of the two channels, whose header is
not part of the sources at hand. -/
inductive IQ_t where
  /-- The in-phase channel. -/
  | I_CHANNEL : IQ_t
  /-- The quadrature channel. -/
  | Q_CHANNEL : IQ_t
deriving DecidableEq, Repr

/-- Modelled from the spec: the enumeration `DAC_SWEEP_STEP2_t` of the points of the
sweep, whose header is not part of the sources at hand: the baseline, then the negative
and the positive step of the BBA DAC. -/
inductive DAC_SWEEP_STEP2_t where
  /-- The baseline. -/
  | NOMINAL2 : DAC_SWEEP_STEP2_t
  /-- The DAC lowered by 16 codes. -/
  | BBF_NEG : DAC_SWEEP_STEP2_t
  /-- The DAC raised by 16 codes. -/
  | BBF_POS : DAC_SWEEP_STEP2_t
deriving DecidableEq, Repr

/-- The table `sweep_step_values2`: `{0, -16, +16}`. -/
def sweep_step_values2 : DAC_SWEEP_STEP2_t → Int
  | DAC_SWEEP_STEP2_t.NOMINAL2 => 0
  | DAC_SWEEP_STEP2_t.BBF_NEG => -16
  | DAC_SWEEP_STEP2_t.BBF_POS => 16

/-- The static table `measurement_tbl2[NUM_I_Q_CHAN][NUM_SWEEP_STEP_ENTRIES2]`. -/
abbrev MeasTbl : Type := IQ_t → DAC_SWEEP_STEP2_t → GAIN_CALC_TBL_ENTRY2_T

/-- The assignment of the entry `measurement_tbl2[chan][val]`. -/
def MeasTbl.set (tbl : MeasTbl) (chan : IQ_t) (val : DAC_SWEEP_STEP2_t)
    (e : GAIN_CALC_TBL_ENTRY2_T) : MeasTbl :=
  fun c v => if c = chan ∧ v = val then e else tbl c v

/-- The averaged step of `rx_bba_dcoc_dac_trim_DCest` and of
`rx_bba_dcoc_dac_trim_shortIQ`: the four normalized steps
`temp_mi`, `temp_mq`, `temp_pi`, `temp_pq` of the table, and
`temp_step = (temp_mi + temp_pi + temp_mq + temp_pq) / 4.0F`. -/
def averaged_step (tbl : MeasTbl) : ℚ :=
  let temp_mi := calc_dcoc_dac_step (tbl IQ_t.I_CHANNEL DAC_SWEEP_STEP2_t.BBF_NEG)
    (tbl IQ_t.I_CHANNEL DAC_SWEEP_STEP2_t.NOMINAL2)
  let temp_mq := calc_dcoc_dac_step (tbl IQ_t.Q_CHANNEL DAC_SWEEP_STEP2_t.BBF_NEG)
    (tbl IQ_t.Q_CHANNEL DAC_SWEEP_STEP2_t.NOMINAL2)
  let temp_pi := calc_dcoc_dac_step (tbl IQ_t.I_CHANNEL DAC_SWEEP_STEP2_t.BBF_POS)
    (tbl IQ_t.I_CHANNEL DAC_SWEEP_STEP2_t.NOMINAL2)
  let temp_pq := calc_dcoc_dac_step (tbl IQ_t.Q_CHANNEL DAC_SWEEP_STEP2_t.BBF_POS)
    (tbl IQ_t.Q_CHANNEL DAC_SWEEP_STEP2_t.NOMINAL2)
  f32div (f32add (f32add (f32add temp_mi temp_pi) temp_mq) temp_pq) 4

/-! ## DCOC step calibration: the inline chain of `rx_bba_dcoc_dac_trim_shortIQ` -/

/-- One pass of the loop of `rx_bba_dcoc_dac_trim_shortIQ`, for the stage
`k = i - TZA_STEP_N0`: the `switch` selects `this_step` and `last_step` (stage 0 and the
`default` branch take the quantized step over 8 and `3.6F`), `temp_step` is multiplied by
their quotient and quantized. The result is the new `temp_step` and the chain entry. -/
def shortIQ_stage (cfg : Nat → Nat) (bbf_dcoc_step : Nat) (k : Nat) (temp_step : ℚ) :
    ℚ × TZAdcocstep_t :=
  let sel : ℚ × ℚ :=
    if 1 ≤ k ∧ k ≤ 10 then
      (f32_of_int (cfg k >>> 16), f32_of_int (cfg (k - 1) >>> 16))
    else (f32div (f32_of_int bbf_dcoc_step) 8, f32round (18 / 5))
  let temp_step1 := f32mul temp_step (f32div sel.1 sel.2)
  (temp_step1,
    ⟨f32_to_uint16 (roundf (f32mul temp_step1 8)),
      f32_to_uint16 (roundf (f32div 0x8000 temp_step1))⟩)

/-- The loop of `rx_bba_dcoc_dac_trim_shortIQ` after `n` passes: the running
`temp_step` and the entries written so far. -/
def shortIQ_stages (cfg : Nat → Nat) (bbf_dcoc_step : Nat) (temp_step : ℚ) :
    Nat → ℚ × List TZAdcocstep_t
  | 0 => (temp_step, [])
  | n + 1 =>
    let prev := shortIQ_stages cfg bbf_dcoc_step temp_step n
    let st := shortIQ_stage cfg bbf_dcoc_step n prev.1
    (st.1, prev.2 ++ [st.2])

/-- The step calculation of `rx_bba_dcoc_dac_trim_shortIQ` (the statement
`if ((bbf_dcoc_step > 265U) && (bbf_dcoc_step < 305U))` and its two branches): the
status, the writes to the step registers in program order, and the derived chain. -/
def shortIQ_step_recip (cfg : Nat → Nat) (temp_step : ℚ) (bbf_dcoc_step : Nat) :
    xcvrStatus_t × List StepWrite × List TZAdcocstep_t :=
  if 265 < bbf_dcoc_step ∧ bbf_dcoc_step < 305 then
    let bbf_dcoc_step_rcp := f32_to_uint32 (roundf (f32div 0x8000 temp_step))
    let tza_dcoc_step := (shortIQ_stages cfg bbf_dcoc_step temp_step 11).2
    (xcvrStatus_t.gXcvrSuccess_c,
      [⟨StepReg.DCOC_BBA_STEP, bbf_dcoc_step, bbf_dcoc_step_rcp⟩] ++
      (List.range 11).map (fun j =>
        ⟨StepReg.DCOC_TZA_STEP j, (tza_dcoc_step.getD j default).dcoc_step,
          (tza_dcoc_step.getD j default).dcoc_step_rcp⟩),
      tza_dcoc_step)
  else (xcvrStatus_t.gXcvrTrimFailure_c, [], [])

/-! ## Registers

The registers of the transceiver are modelled as a memory of 32-bit words: a register
holds the value last written to it. The device header, which defines the masks, the
shifts and the field macros of the registers, is not part of the sources at hand: the
layout of the fields is a parameter of the model (`XcvrHeader`). Registers whose value is
produced by the hardware (`DCOC_DC_EST`, the results of an IQMC trial) are read from a
stream of values given to the model. -/

/-- A field of a register: its mask `NAME_MASK` and its shift `NAME_SHIFT`. -/
structure RegField where
  /-- The mask of the field, `NAME_MASK`. -/
  mask : Nat
  /-- The position of the field, `NAME_SHIFT`. -/
  shift : Nat
deriving DecidableEq, Repr

/-- The field macro `NAME(x)` of the device header,
`(((uint32_t)(((uint32_t)(x)) << NAME_SHIFT)) & NAME_MASK)`. -/
def RegField.put (f : RegField) (x : Nat) : Nat :=
  (((x % 4294967296) <<< f.shift) % 4294967296) &&& f.mask

/-- The extraction `(reg & NAME_MASK) >> NAME_SHIFT` of a field. -/
def RegField.get (f : RegField) (reg : Nat) : Nat := (reg &&& f.mask) >>> f.shift

/-- The operator `~` on a `uint32_t`. -/
def not32 (m : Nat) : Nat := 4294967295 - m % 4294967296

/-- The conversion `(uint32_t)x` of a signed value: reduction modulo `2 ^ 32`. -/
def toUInt32 (x : Int) : Nat := (x % 4294967296).toNat

/-- The registers that the trims access. -/
inductive Reg where
  /-- The register `XCVR_RX_DIG->DCOC_CTRL_0`. -/
  | DCOC_CTRL_0 : Reg
  /-- The register `XCVR_RX_DIG->DCOC_CTRL_1`. -/
  | DCOC_CTRL_1 : Reg
  /-- The register `XCVR_RX_DIG->RX_DIG_CTRL`. -/
  | RX_DIG_CTRL : Reg
  /-- The register `XCVR_RX_DIG->AGC_CTRL_1`. -/
  | AGC_CTRL_1 : Reg
  /-- The register `XCVR_RX_DIG->DCOC_CAL_GAIN`. -/
  | DCOC_CAL_GAIN : Reg
  /-- The register `XCVR_RX_DIG->DCOC_DAC_INIT`. -/
  | DCOC_DAC_INIT : Reg
  /-- The register `XCVR_RX_DIG->DCOC_DIG_MAN`. -/
  | DCOC_DIG_MAN : Reg
  /-- The register `XCVR_RX_DIG->DCOC_BBA_STEP`. -/
  | DCOC_BBA_STEP : Reg
  /-- The register `XCVR_RX_DIG->DCOC_TZA_STEP_k`, for `k` from 0 to 10. -/
  | DCOC_TZA_STEP : Nat → Reg
  /-- The register `XCVR_TSM->OVRD2`. -/
  | TSM_OVRD2 : Reg
  /-- The register `XCVR_RX_DIG->IQMC_CAL` (generation 3.5). -/
  | IQMC_CAL : Reg
  /-- The register `XCVR_RX_DIG->IQMC_CTRL` (generation 3.5). -/
  | IQMC_CTRL : Reg
  /-- The register `XCVR_RX_DIG->IQMC_CTRL0` (generation 4). -/
  | IQMC_CTRL0 : Reg
  /-- The register `XCVR_RX_DIG->IQMC_CTRL1` (generation 4). -/
  | IQMC_CTRL1 : Reg
  /-- The register `XCVR_RX_DIG->AGC_OVRD` (generation 4). -/
  | AGC_OVRD : Reg
deriving DecidableEq, Repr

/-- The register file: the value held by each register. -/
abbrev RegFile : Type := Reg → Nat

/-- The assignment `REG = v`. -/
def RegFile.write (regs : RegFile) (r : Reg) (v : Nat) : RegFile :=
  fun r' => if r' = r then v else regs r'

/-- The assignment `REG |= m`. -/
def RegFile.orMask (regs : RegFile) (r : Reg) (m : Nat) : RegFile :=
  regs.write r (regs r ||| m)

/-- The assignment `REG &= ~(m)`. -/
def RegFile.clearMask (regs : RegFile) (r : Reg) (m : Nat) : RegFile :=
  regs.write r (regs r &&& not32 m)

/-- The layout of the register fields that the trims use, as the device header defines
them (`XCVR_RX_DIG_<register>_<field>_MASK`, `..._SHIFT` and the field macro); the header
is not part of the sources at hand, so the layout is a parameter. -/
structure XcvrHeader where
  /-- Field `RX_AGC_EN` of `RX_DIG_CTRL`. -/
  RX_DIG_CTRL_RX_AGC_EN : RegField
  /-- Field `RX_DCOC_CAL_EN` of `RX_DIG_CTRL`. -/
  RX_DIG_CTRL_RX_DCOC_CAL_EN : RegField
  /-- Field `RX_DC_RESID_EN` of `RX_DIG_CTRL`. -/
  RX_DIG_CTRL_RX_DC_RESID_EN : RegField
  /-- Field `RX_DEC_FILT_OSR` of `RX_DIG_CTRL`. -/
  RX_DIG_CTRL_RX_DEC_FILT_OSR : RegField
  /-- Field `RX_CH_FILT_BYPASS` of `RX_DIG_CTRL`. -/
  RX_DIG_CTRL_RX_CH_FILT_BYPASS : RegField
  /-- Field `RX_DCOC_EN` of `RX_DIG_CTRL`. -/
  RX_DIG_CTRL_RX_DCOC_EN : RegField
  /-- Field `USER_LNA_GAIN_EN` of `AGC_CTRL_1`. -/
  AGC_CTRL_1_USER_LNA_GAIN_EN : RegField
  /-- Field `USER_BBA_GAIN_EN` of `AGC_CTRL_1`. -/
  AGC_CTRL_1_USER_BBA_GAIN_EN : RegField
  /-- Field `LNA_USER_GAIN` of `AGC_CTRL_1`. -/
  AGC_CTRL_1_LNA_USER_GAIN : RegField
  /-- Field `BBA_USER_GAIN` of `AGC_CTRL_1`. -/
  AGC_CTRL_1_BBA_USER_GAIN : RegField
  /-- Field `DCOC_MAN` of `DCOC_CTRL_0`. -/
  DCOC_CTRL_0_DCOC_MAN : RegField
  /-- Field `DCOC_CORRECT_SRC` of `DCOC_CTRL_0`. -/
  DCOC_CTRL_0_DCOC_CORRECT_SRC : RegField
  /-- Field `DCOC_TRK_EST_OVR` of `DCOC_CTRL_0`. -/
  DCOC_CTRL_0_DCOC_TRK_EST_OVR : RegField
  /-- Field `DCOC_CORRECT_EN` of `DCOC_CTRL_0`. -/
  DCOC_CTRL_0_DCOC_CORRECT_EN : RegField
  /-- Field `TRACK_FROM_ZERO` of `DCOC_CTRL_0`. -/
  DCOC_CTRL_0_TRACK_FROM_ZERO : RegField
  /-- Field `BBA_DCOC_INIT_I` of `DCOC_DAC_INIT`. -/
  DCOC_DAC_INIT_BBA_DCOC_INIT_I : RegField
  /-- Field `BBA_DCOC_INIT_Q` of `DCOC_DAC_INIT`. -/
  DCOC_DAC_INIT_BBA_DCOC_INIT_Q : RegField
  /-- Field `TZA_DCOC_INIT_I` of `DCOC_DAC_INIT`. -/
  DCOC_DAC_INIT_TZA_DCOC_INIT_I : RegField
  /-- Field `TZA_DCOC_INIT_Q` of `DCOC_DAC_INIT`. -/
  DCOC_DAC_INIT_TZA_DCOC_INIT_Q : RegField
  /-- Field `BBA_DCOC_STEP` of `DCOC_BBA_STEP`. -/
  DCOC_BBA_STEP_BBA_DCOC_STEP : RegField
  /-- Field `BBA_DCOC_STEP_RECIP` of `DCOC_BBA_STEP`. -/
  DCOC_BBA_STEP_BBA_DCOC_STEP_RECIP : RegField
  /-- Field `DCOC_TZA_STEP_GAIN_k` of `DCOC_TZA_STEP_k`. -/
  DCOC_TZA_STEP_GAIN : Nat → RegField
  /-- Field `DCOC_TZA_STEP_RCP_k` of `DCOC_TZA_STEP_k`. -/
  DCOC_TZA_STEP_RCP : Nat → RegField
  /-- Field `RX_INIT_OVRD` of `XCVR_TSM->OVRD2`. -/
  TSM_OVRD2_RX_INIT_OVRD : RegField
  /-- Field `RX_INIT_OVRD_EN` of `XCVR_TSM->OVRD2`. -/
  TSM_OVRD2_RX_INIT_OVRD_EN : RegField
  /-- Field `IQMC_GAIN_ADJ` of `IQMC_CAL` (generation 3.5). -/
  IQMC_CAL_IQMC_GAIN_ADJ : RegField
  /-- Field `IQMC_PHASE_ADJ` of `IQMC_CAL` (generation 3.5). -/
  IQMC_CAL_IQMC_PHASE_ADJ : RegField
  /-- Field `IQMC_CAL_EN` of `IQMC_CTRL` (generation 3.5). -/
  IQMC_CTRL_IQMC_CAL_EN : RegField
  /-- Field `IQMC_NUM_ITER` of `IQMC_CTRL` (generation 3.5). -/
  IQMC_CTRL_IQMC_NUM_ITER : RegField
  /-- Field `IQMC_DC_GAIN_ADJ` of `IQMC_CTRL` (generation 3.5). -/
  IQMC_CTRL_IQMC_DC_GAIN_ADJ : RegField
  /-- Field `IQMC_GAIN_ADJ` of `IQMC_CTRL1` (generation 4). -/
  IQMC_CTRL1_IQMC_GAIN_ADJ : RegField
  /-- Field `IQMC_PHASE_ADJ` of `IQMC_CTRL1` (generation 4). -/
  IQMC_CTRL1_IQMC_PHASE_ADJ : RegField
  /-- Field `IQMC_CAL_EN` of `IQMC_CTRL0` (generation 4). -/
  IQMC_CTRL0_IQMC_CAL_EN : RegField
  /-- Field `IQMC_NUM_ITER` of `IQMC_CTRL0` (generation 4). -/
  IQMC_CTRL0_IQMC_NUM_ITER : RegField
  /-- Field `IQMC_DC_GAIN_ADJ` of `IQMC_CTRL0` (generation 4). -/
  IQMC_CTRL0_IQMC_DC_GAIN_ADJ : RegField
  /-- Field `IQMC_CAL_FREQ_SEL` of `IQMC_CTRL0` (generation 4). -/
  IQMC_CTRL0_IQMC_CAL_FREQ_SEL : RegField
  /-- Field `AGC_GAIN_IDX_OVRD` of `AGC_OVRD` (generation 4). -/
  AGC_OVRD_AGC_GAIN_IDX_OVRD : RegField
  /-- Field `AGC_GAIN_IDX_OVRD_EN` of `AGC_OVRD` (generation 4). -/
  AGC_OVRD_AGC_GAIN_IDX_OVRD_EN : RegField
  /-- Field `AGC_PHY_FREEZE_OVRD` of `AGC_OVRD` (generation 4). -/
  AGC_OVRD_AGC_PHY_FREEZE_OVRD : RegField
  /-- Field `AGC_PHY_FREEZE_OVRD_EN` of `AGC_OVRD` (generation 4). -/
  AGC_OVRD_AGC_PHY_FREEZE_OVRD_EN : RegField

/-- The register of the register file that a step register is. -/
def StepReg.toReg : StepReg → Reg
  | StepReg.DCOC_BBA_STEP => Reg.DCOC_BBA_STEP
  | StepReg.DCOC_TZA_STEP k => Reg.DCOC_TZA_STEP k

/-- The value that a write to a step register stores: the two field macros of the
register applied to the two arguments, ORed. -/
def StepWrite.value (hdr : XcvrHeader) (w : StepWrite) : Nat :=
  match w.reg with
  | StepReg.DCOC_BBA_STEP =>
    hdr.DCOC_BBA_STEP_BBA_DCOC_STEP.put w.step |||
      hdr.DCOC_BBA_STEP_BBA_DCOC_STEP_RECIP.put w.recip
  | StepReg.DCOC_TZA_STEP k =>
    (hdr.DCOC_TZA_STEP_GAIN k).put w.step ||| (hdr.DCOC_TZA_STEP_RCP k).put w.recip

/-- The writes to the step registers, applied in program order to the register file. -/
def applyStepWrites (hdr : XcvrHeader) (ws : List StepWrite) (regs : RegFile) : RegFile :=
  ws.foldl (fun r w => r.write w.reg.toReg (w.value hdr)) regs

/-! ## DCOC step calibration: the two trims of the BBA DAC -/

/-- The function `force_rx_init_pulse` for the generations below 4: the override of
`RX_INIT` is enabled, asserted, then de-asserted and disabled. -/
def force_rx_init_pulse (hdr : XcvrHeader) (regs : RegFile) : RegFile :=
  let r1 := regs.clearMask Reg.TSM_OVRD2 hdr.TSM_OVRD2_RX_INIT_OVRD.mask
  let r2 := r1.orMask Reg.TSM_OVRD2 hdr.TSM_OVRD2_RX_INIT_OVRD_EN.mask
  let r3 := r2.orMask Reg.TSM_OVRD2 hdr.TSM_OVRD2_RX_INIT_OVRD.mask
  r3.clearMask Reg.TSM_OVRD2
    (hdr.TSM_OVRD2_RX_INIT_OVRD.mask ||| hdr.TSM_OVRD2_RX_INIT_OVRD_EN.mask)

/-- The state left by a trim of the BBA DAC steps: the status returned, the register
file and the static table `measurement_tbl2`. -/
structure TrimRun (σ : Type) where
  /-- The status returned. -/
  status : σ
  /-- The register file at the return. -/
  regs : RegFile
  /-- The table `measurement_tbl2` at the return. -/
  tbl : MeasTbl

/-- The function `rx_bba_dcoc_dac_trim_DCest`. `cfg k` is the configuration value
`xcvr_common_config.dcoc_tza_step_k`; `dc_est j k` is the value of the register
`DCOC_DC_EST` at the read number `k` of the call number `j` of `rx_dc_est_average`;
`regs` and `tbl` are the register file and the table `measurement_tbl2` at the call.
The delays (`XcvrCalDelay`) have no effect on the state. -/
def rx_bba_dcoc_dac_trim_DCest (hdr : XcvrHeader) (cfg : Nat → Nat)
    (dc_est : Nat → Nat → Nat) (regs : RegFile) (tbl : MeasTbl) : TrimRun Nat :=
  -- Save register
  let dcoc_ctrl_0_stack := regs Reg.DCOC_CTRL_0
  let dcoc_ctrl_1_stack := regs Reg.DCOC_CTRL_1
  let rx_dig_ctrl_stack := regs Reg.RX_DIG_CTRL
  let agc_ctrl_1_stack := regs Reg.AGC_CTRL_1
  let dcoc_cal_gain_state := regs Reg.DCOC_CAL_GAIN
  -- Register config
  let temp := ((regs Reg.RX_DIG_CTRL &&& not32 hdr.RX_DIG_CTRL_RX_AGC_EN.mask) &&&
    not32 hdr.RX_DIG_CTRL_RX_DCOC_CAL_EN.mask) &&& not32 hdr.RX_DIG_CTRL_RX_DC_RESID_EN.mask
  let r1 := regs.write Reg.RX_DIG_CTRL temp
  let r2 := r1.write Reg.AGC_CTRL_1
    (hdr.AGC_CTRL_1_USER_LNA_GAIN_EN.put 1 ||| hdr.AGC_CTRL_1_USER_BBA_GAIN_EN.put 1 |||
      hdr.AGC_CTRL_1_LNA_USER_GAIN.put 0 ||| hdr.AGC_CTRL_1_BBA_USER_GAIN.put 0)
  let temp := (r2 Reg.DCOC_CTRL_0 |||
    (hdr.DCOC_CTRL_0_DCOC_MAN.put 1 ||| hdr.DCOC_CTRL_0_DCOC_CORRECT_SRC.put 1 |||
      hdr.DCOC_CTRL_0_DCOC_TRK_EST_OVR.put 1 ||| hdr.DCOC_CTRL_0_DCOC_CORRECT_EN.put 1)) &&&
    not32 hdr.DCOC_CTRL_0_TRACK_FROM_ZERO.mask
  let r3 := r2.write Reg.DCOC_CTRL_0 temp
  let r4 := r3.write Reg.DCOC_DAC_INIT
    (hdr.DCOC_DAC_INIT_BBA_DCOC_INIT_I.put 0x20 ||| hdr.DCOC_DAC_INIT_BBA_DCOC_INIT_Q.put 0x20 |||
      hdr.DCOC_DAC_INIT_TZA_DCOC_INIT_I.put 0x80 ||| hdr.DCOC_DAC_INIT_TZA_DCOC_INIT_Q.put 0x80)
  -- Clear any prior DC compensation from tracking block
  let r5 := r4.write Reg.DCOC_DIG_MAN 0
  let r6 := force_rx_init_pulse hdr r5
  -- Set default DCOC DAC INIT Value
  let dcoc_init_reg_value_dcgain := r6 Reg.DCOC_DAC_INIT
  let bbf_dacinit_i := (dcoc_init_reg_value_dcgain &&& 0x000000FF) % 256
  let bbf_dacinit_q := ((dcoc_init_reg_value_dcgain &&& 0x0000FF00) >>> 8) % 256
  let tza_dacinit_i := ((dcoc_init_reg_value_dcgain &&& 0x00FF0000) >>> 16) % 256
  let tza_dacinit_q := (dcoc_init_reg_value_dcgain >>> 24) % 256
  let avg0 := rx_dc_est_average true true (dc_est 0) 64
  let dc_meas_i0 := avg0.2.1.getD 0
  let dc_meas_q0 := avg0.2.2.getD 0
  let t1 := (tbl.set IQ_t.I_CHANNEL DAC_SWEEP_STEP2_t.NOMINAL2
    ⟨sweep_step_values2 DAC_SWEEP_STEP2_t.NOMINAL2, dc_meas_i0⟩).set
      IQ_t.Q_CHANNEL DAC_SWEEP_STEP2_t.NOMINAL2
        ⟨sweep_step_values2 DAC_SWEEP_STEP2_t.NOMINAL2, dc_meas_q0⟩
  -- BBF NEG STEP
  let r7 := r6.write Reg.DCOC_DAC_INIT
    (hdr.DCOC_DAC_INIT_BBA_DCOC_INIT_I.put ((bbf_dacinit_i + 4294967296 - 16) % 4294967296) |||
      hdr.DCOC_DAC_INIT_BBA_DCOC_INIT_Q.put ((bbf_dacinit_q + 4294967296 - 16) % 4294967296) |||
      hdr.DCOC_DAC_INIT_TZA_DCOC_INIT_I.put tza_dacinit_i |||
      hdr.DCOC_DAC_INIT_TZA_DCOC_INIT_Q.put tza_dacinit_q)
  let avg1 := rx_dc_est_average true true (dc_est 1) 64
  let dc_meas_i1 := avg1.2.1.getD dc_meas_i0
  let dc_meas_q1 := avg1.2.2.getD dc_meas_q0
  let t2 := (t1.set IQ_t.I_CHANNEL DAC_SWEEP_STEP2_t.BBF_NEG ⟨-16, dc_meas_i1⟩).set
    IQ_t.Q_CHANNEL DAC_SWEEP_STEP2_t.BBF_NEG ⟨-16, dc_meas_q1⟩
  -- BBF POS STEP
  let r8 := r7.write Reg.DCOC_DAC_INIT
    (hdr.DCOC_DAC_INIT_BBA_DCOC_INIT_I.put ((bbf_dacinit_i + 16) % 4294967296) |||
      hdr.DCOC_DAC_INIT_BBA_DCOC_INIT_Q.put ((bbf_dacinit_q + 16) % 4294967296) |||
      hdr.DCOC_DAC_INIT_TZA_DCOC_INIT_I.put tza_dacinit_i |||
      hdr.DCOC_DAC_INIT_TZA_DCOC_INIT_Q.put tza_dacinit_q)
  let avg2 := rx_dc_est_average true true (dc_est 2) 64
  let dc_meas_i2 := avg2.2.1.getD dc_meas_i1
  let dc_meas_q2 := avg2.2.2.getD dc_meas_q1
  let t3 := (t2.set IQ_t.I_CHANNEL DAC_SWEEP_STEP2_t.BBF_POS ⟨16, dc_meas_i2⟩).set
    IQ_t.Q_CHANNEL DAC_SWEEP_STEP2_t.BBF_POS ⟨16, dc_meas_q2⟩
  -- Return DAC setting to initial
  let r9 := r8.write Reg.DCOC_DAC_INIT dcoc_init_reg_value_dcgain
  -- Calculate BBF DCOC STEPS, RECIPROCALS
  let temp_step := averaged_step t3
  let bbf_dcoc_step := quantize_step temp_step
  let res := calc_tza_step_recip cfg temp_step bbf_dcoc_step
  let r10 := applyStepWrites hdr res.2.1 r9
  -- Restore Registers
  let r11 := r10.write Reg.DCOC_CTRL_0 dcoc_ctrl_0_stack
  let r12 := r11.write Reg.DCOC_CTRL_1 dcoc_ctrl_1_stack
  let r13 := r12.write Reg.RX_DIG_CTRL rx_dig_ctrl_stack
  let r14 := r13.write Reg.DCOC_CAL_GAIN dcoc_cal_gain_state
  let r15 := r14.write Reg.AGC_CTRL_1 agc_ctrl_1_stack
  ⟨res.1, r15, t3⟩

/-- The function `DC_Measure_short`: `buf` is the content of `sample_buffer` after the
capture by `dbg_ram_dc_capture` (128 pairs); the entry `measurement_tbl2[chan][val]`
receives the step of the table `sweep_step_values2` and the average of its channel. -/
def DC_Measure_short (buf : Nat → Int) (chan : IQ_t) (dcoc_init_val : DAC_SWEEP_STEP2_t)
    (tbl : MeasTbl) : MeasTbl :=
  let avg := rx_dc_sample_average true true (some buf) 128
  let dc_meas_i := avg.2.1.getD 0
  let dc_meas_q := avg.2.2.getD 0
  tbl.set chan dcoc_init_val
    ⟨sweep_step_values2 dcoc_init_val, if chan = IQ_t.I_CHANNEL then dc_meas_i else dc_meas_q⟩

/-- The function `rx_bba_dcoc_dac_trim_shortIQ`. `cfg k` is the configuration value
`xcvr_common_config.dcoc_tza_step_k`; `capture j` is the content of the sample buffer
after the capture number `j` (the six calls of `DC_Measure_short`, in program order);
`regs` and `tbl` are the register file and the table `measurement_tbl2` at the call.
The delays (`XcvrCalDelay`) have no effect on the state. -/
def rx_bba_dcoc_dac_trim_shortIQ (hdr : XcvrHeader) (cfg : Nat → Nat)
    (capture : Nat → Nat → Int) (regs : RegFile) (tbl : MeasTbl) : TrimRun xcvrStatus_t :=
  -- Save register values.
  let dcoc_ctrl_0_stack := regs Reg.DCOC_CTRL_0
  let dcoc_ctrl_1_stack := regs Reg.DCOC_CTRL_1
  let rx_dig_ctrl_stack := regs Reg.RX_DIG_CTRL
  let agc_ctrl_1_stack := regs Reg.AGC_CTRL_1
  let dcoc_cal_gain_state := regs Reg.DCOC_CAL_GAIN
  -- Ensure AGC, DCOC and RX_DIG_CTRL is in correct mode.
  let r1 := regs.clearMask Reg.RX_DIG_CTRL hdr.RX_DIG_CTRL_RX_AGC_EN.mask
  let r2 := r1.orMask Reg.AGC_CTRL_1
    (hdr.AGC_CTRL_1_USER_LNA_GAIN_EN.mask ||| hdr.AGC_CTRL_1_USER_BBA_GAIN_EN.mask)
  let r3 := r2.clearMask Reg.RX_DIG_CTRL hdr.RX_DIG_CTRL_RX_DCOC_CAL_EN.mask
  let r4 := r3.orMask Reg.DCOC_CTRL_0 hdr.DCOC_CTRL_0_DCOC_MAN.mask
  let r5 := r4.write Reg.DCOC_DAC_INIT
    (hdr.DCOC_DAC_INIT_BBA_DCOC_INIT_I.put 0x20 ||| hdr.DCOC_DAC_INIT_BBA_DCOC_INIT_Q.put 0x20 |||
      hdr.DCOC_DAC_INIT_TZA_DCOC_INIT_I.put 0x80 ||| hdr.DCOC_DAC_INIT_TZA_DCOC_INIT_Q.put 0x80)
  -- Set DCOC Tracking State.
  let r6 := r5.clearMask Reg.DCOC_CTRL_0 hdr.DCOC_CTRL_0_DCOC_CORRECT_SRC.mask
  -- Apply Manual Gain.
  let r7 := r6.write Reg.AGC_CTRL_1
    (hdr.AGC_CTRL_1_USER_LNA_GAIN_EN.put 1 ||| hdr.AGC_CTRL_1_USER_BBA_GAIN_EN.put 1 |||
      hdr.AGC_CTRL_1_LNA_USER_GAIN.put 0x02 ||| hdr.AGC_CTRL_1_BBA_USER_GAIN.put 0x00)
  -- Capture DC null setting.
  let dcoc_init_reg_value_dcgain := r7 Reg.DCOC_DAC_INIT
  let bbf_dacinit_i := (dcoc_init_reg_value_dcgain &&& 0x000000FF) % 256
  let bbf_dacinit_q := ((dcoc_init_reg_value_dcgain &&& 0x0000FF00) >>> 8) % 256
  let t1 := DC_Measure_short (capture 0) IQ_t.I_CHANNEL DAC_SWEEP_STEP2_t.NOMINAL2 tbl
  let t2 := DC_Measure_short (capture 1) IQ_t.Q_CHANNEL DAC_SWEEP_STEP2_t.NOMINAL2 t1
  -- SWEEP Q CHANNEL: BBF NEG STEP
  let r8 := r7.write Reg.DCOC_DAC_INIT
    ((r7 Reg.DCOC_DAC_INIT &&& not32 hdr.DCOC_DAC_INIT_BBA_DCOC_INIT_Q.mask) |||
      hdr.DCOC_DAC_INIT_BBA_DCOC_INIT_Q.put ((bbf_dacinit_q + 4294967296 - 16) % 4294967296))
  let t3 := DC_Measure_short (capture 2) IQ_t.Q_CHANNEL DAC_SWEEP_STEP2_t.BBF_NEG t2
  -- BBF POS STEP
  let r9 := r8.write Reg.DCOC_DAC_INIT
    ((r8 Reg.DCOC_DAC_INIT &&& not32 hdr.DCOC_DAC_INIT_BBA_DCOC_INIT_Q.mask) |||
      hdr.DCOC_DAC_INIT_BBA_DCOC_INIT_Q.put ((bbf_dacinit_q + 16) % 4294967296))
  let t4 := DC_Measure_short (capture 3) IQ_t.Q_CHANNEL DAC_SWEEP_STEP2_t.BBF_POS t3
  -- Return DAC setting to initial.
  let r10 := r9.write Reg.DCOC_DAC_INIT dcoc_init_reg_value_dcgain
  -- SWEEP I CHANNEL: BBF NEG STEP
  let r11 := r10.write Reg.DCOC_DAC_INIT
    ((r10 Reg.DCOC_DAC_INIT &&& not32 hdr.DCOC_DAC_INIT_BBA_DCOC_INIT_I.mask) |||
      hdr.DCOC_DAC_INIT_BBA_DCOC_INIT_I.put ((bbf_dacinit_i + 4294967296 - 16) % 4294967296))
  let t5 := DC_Measure_short (capture 4) IQ_t.I_CHANNEL DAC_SWEEP_STEP2_t.BBF_NEG t4
  -- BBF POS STEP
  let r12 := r11.write Reg.DCOC_DAC_INIT
    ((r11 Reg.DCOC_DAC_INIT &&& not32 hdr.DCOC_DAC_INIT_BBA_DCOC_INIT_I.mask) |||
      hdr.DCOC_DAC_INIT_BBA_DCOC_INIT_I.put ((bbf_dacinit_i + 16) % 4294967296))
  let t6 := DC_Measure_short (capture 5) IQ_t.I_CHANNEL DAC_SWEEP_STEP2_t.BBF_POS t5
  -- Return DACs to initial.
  let r13 := r12.write Reg.DCOC_DAC_INIT dcoc_init_reg_value_dcgain
  -- Calculate BBF DCOC STEPS, RECIPROCALS
  let temp_step := averaged_step t6
  let bbf_dcoc_step := quantize_step temp_step
  let res := shortIQ_step_recip cfg temp_step bbf_dcoc_step
  let r14 := applyStepWrites hdr res.2.1 r13
  -- Restore Registers.
  let r15 := r14.write Reg.DCOC_CTRL_0 dcoc_ctrl_0_stack
  let r16 := r15.write Reg.DCOC_CTRL_1 dcoc_ctrl_1_stack
  let r17 := r16.write Reg.RX_DIG_CTRL rx_dig_ctrl_stack
  let r18 := r17.write Reg.DCOC_CAL_GAIN dcoc_cal_gain_state
  let r19 := r18.write Reg.AGC_CTRL_1 agc_ctrl_1_stack
  ⟨res.1, r19, t6⟩

/-! ## I/Q mismatch calibration (IQMC) -/

/-- The constant `IQMC_PHASE_ADJ_MAX`. -/
def IQMC_PHASE_ADJ_MAX : Nat := 0xFFF

/-- The constant `IQMC_GAIN_ADJ_MIN`. -/
def IQMC_GAIN_ADJ_MIN : Nat := 0x280

/-- The constant `IQMC_GAIN_ADJ_MAX`. -/
def IQMC_GAIN_ADJ_MAX : Nat := 0x660

/-- The constant `IQMCalibrationIter`. -/
def IQMCalibrationIter : Nat := 0x80

/-- The constant `IQMCalibrationTrials`, the length of the two trial buffers. -/
def IQMCalibrationTrials : Nat := 32

/-- The conversion `(int8_t)u` of an unsigned value: the two's complement reading of
the low 8 bits. -/
def toInt8 (u : Nat) : Int :=
  if u % 256 < 128 then ((u % 256 : Nat) : Int) else ((u % 256 : Nat) : Int) - 256

/-- The conversion of a signed value to `int32_t` (wrap-around on overflow). -/
def wrapInt32 (x : Int) : Int := (x + 2147483648) % 4294967296 - 2147483648

/-- The trial storage `xcvr_iqmc_trials_t`: the two buffers, indexed by the trial (only
the indices below `IQMCalibrationTrials` exist in C), and the two running sums. -/
structure xcvr_iqmc_trials_t where
  /-- The gain of each trial (`uint16_t`). -/
  IQMC_gain_cal_trials : Nat → Nat
  /-- The phase of each trial (`int16_t`). -/
  IQMC_phase_cal_trials : Nat → Int
  /-- The running sum of the gains (`uint32_t`). -/
  IQMC_gain_adj_sum : Nat
  /-- The running sum of the phases (`int32_t`). -/
  IQMC_phase_adj_sum : Int

/-- The assignment `a[i] = v` of an element of a buffer. -/
def setAt {α : Type} (a : Nat → α) (i : Nat) (v : α) : Nat → α :=
  fun j => if j = i then v else a j

/-- One pass of the loop of `IQMCRunTrials` (generation 3.5), for the trial `cnt`. The
trial is started; the wait loop ends when the hardware has cleared `IQMC_CAL_EN`, and
`result` is the value that the register `IQMC_CAL` holds then. -/
def IQMCRunTrials_pass_gen35 (hdr : XcvrHeader) (result : Nat) (cnt : Nat)
    (s : xcvr_iqmc_trials_t × RegFile) : xcvr_iqmc_trials_t × RegFile :=
  -- Set up for IQMC calibration trial
  let r1 := s.2.write Reg.IQMC_CAL
    (hdr.IQMC_CAL_IQMC_GAIN_ADJ.put 0x400 ||| hdr.IQMC_CAL_IQMC_PHASE_ADJ.put 0)
  let r2 := r1.write Reg.IQMC_CTRL
    (hdr.IQMC_CTRL_IQMC_CAL_EN.put 1 ||| hdr.IQMC_CTRL_IQMC_NUM_ITER.put IQMCalibrationIter |||
      hdr.IQMC_CTRL_IQMC_DC_GAIN_ADJ.put 0x400)
  -- completion of the trial by the hardware
  let r3 := (r2.clearMask Reg.IQMC_CTRL hdr.IQMC_CTRL_IQMC_CAL_EN.mask).write Reg.IQMC_CAL
    (result % 4294967296)
  -- Read Calibration Trial Results and save in Trial Value Buffers
  let temp := r3 Reg.IQMC_CAL
  let temp_phase := signExtendPhase (hdr.IQMC_CAL_IQMC_PHASE_ADJ.get temp % 65536)
  ({ IQMC_gain_cal_trials :=
        setAt s.1.IQMC_gain_cal_trials cnt (hdr.IQMC_CAL_IQMC_GAIN_ADJ.get temp % 65536)
     IQMC_phase_cal_trials := setAt s.1.IQMC_phase_cal_trials cnt (toInt16 temp_phase)
     -- Compute a running sum of gain/phase adjustment values
     IQMC_gain_adj_sum :=
        (s.1.IQMC_gain_adj_sum + hdr.IQMC_CAL_IQMC_GAIN_ADJ.get temp) % 4294967296
     IQMC_phase_adj_sum := wrapInt32 (s.1.IQMC_phase_adj_sum + toInt16 temp_phase) },
    r3)

/-- The loop of `IQMCRunTrials` (generation 3.5) after `n` passes, from the state at the
entry of the loop; `results cnt` is the result of the trial `cnt`. -/
def IQMCRunTrials_loop_gen35 (hdr : XcvrHeader) (results : Nat → Nat)
    (s : xcvr_iqmc_trials_t × RegFile) : Nat → xcvr_iqmc_trials_t × RegFile
  | 0 => s
  | n + 1 =>
    IQMCRunTrials_pass_gen35 hdr (results n) n (IQMCRunTrials_loop_gen35 hdr results s n)

/-- The function `IQMCRunTrials` of generation 3.5. `Decimator_OSR_state` and
`CH_filt_bypass_state` are the static variables saved by `IQMCCalInit`. -/
def IQMCRunTrials_gen35 (hdr : XcvrHeader) (results : Nat → Nat)
    (Decimator_OSR_state CH_filt_bypass_state : Nat) (trials_data : xcvr_iqmc_trials_t)
    (num_trials : Nat) (regs : RegFile) : xcvr_iqmc_trials_t × RegFile :=
  let s := IQMCRunTrials_loop_gen35 hdr results
    ({ trials_data with IQMC_gain_adj_sum := 0, IQMC_phase_adj_sum := 0 }, regs) num_trials
  -- Restore Decimation OSR Value and Channel Filter State.
  let temp := (s.2 Reg.RX_DIG_CTRL &&&
    not32 (hdr.RX_DIG_CTRL_RX_DEC_FILT_OSR.mask ||| hdr.RX_DIG_CTRL_RX_CH_FILT_BYPASS.mask)) |||
    (hdr.RX_DIG_CTRL_RX_DEC_FILT_OSR.put Decimator_OSR_state |||
      hdr.RX_DIG_CTRL_RX_CH_FILT_BYPASS.put CH_filt_bypass_state)
  (s.1, s.2.write Reg.RX_DIG_CTRL temp)

/-- One pass of the loop of `IQMCRunTrials` (generation 4), for the trial `cnt`; `result`
is the value that the register `IQMC_CTRL1` holds when the hardware has cleared
`IQMC_CAL_EN`. -/
def IQMCRunTrials_pass_gen4 (hdr : XcvrHeader) (result : Nat) (cnt : Nat)
    (s : xcvr_iqmc_trials_t × RegFile) : xcvr_iqmc_trials_t × RegFile :=
  -- Set up for IQMC calibration trial
  let r1 := s.2.write Reg.IQMC_CTRL1
    (hdr.IQMC_CTRL1_IQMC_GAIN_ADJ.put 0x400 ||| hdr.IQMC_CTRL1_IQMC_PHASE_ADJ.put 0)
  let r2 := r1.write Reg.IQMC_CTRL0
    (hdr.IQMC_CTRL0_IQMC_CAL_EN.mask ||| hdr.IQMC_CTRL0_IQMC_NUM_ITER.put IQMCalibrationIter |||
      hdr.IQMC_CTRL0_IQMC_DC_GAIN_ADJ.put 0x400 ||| hdr.IQMC_CTRL0_IQMC_CAL_FREQ_SEL.put 1)
  -- completion of the trial by the hardware
  let r3 := (r2.clearMask Reg.IQMC_CTRL0 hdr.IQMC_CTRL0_IQMC_CAL_EN.mask).write Reg.IQMC_CTRL1
    (result % 4294967296)
  -- Read Calibration Trial Results and save in Trial Value Buffers
  let temp := r3 Reg.IQMC_CTRL1
  let temp_gain := hdr.IQMC_CTRL1_IQMC_GAIN_ADJ.get temp % 65536
  let temp_phase := signExtendPhase (hdr.IQMC_CTRL1_IQMC_PHASE_ADJ.get temp % 65536)
  ({ IQMC_gain_cal_trials := setAt s.1.IQMC_gain_cal_trials cnt temp_gain
     IQMC_phase_cal_trials := setAt s.1.IQMC_phase_cal_trials cnt (toInt16 temp_phase)
     -- Compute a running sum of gain/phase adjustment values
     IQMC_gain_adj_sum := (s.1.IQMC_gain_adj_sum + temp_gain) % 4294967296
     IQMC_phase_adj_sum := wrapInt32 (s.1.IQMC_phase_adj_sum + toInt16 temp_phase) },
    r3)

/-- The loop of `IQMCRunTrials` (generation 4) after `n` passes. -/
def IQMCRunTrials_loop_gen4 (hdr : XcvrHeader) (results : Nat → Nat)
    (s : xcvr_iqmc_trials_t × RegFile) : Nat → xcvr_iqmc_trials_t × RegFile
  | 0 => s
  | n + 1 =>
    IQMCRunTrials_pass_gen4 hdr (results n) n (IQMCRunTrials_loop_gen4 hdr results s n)

/-- The function `IQMCRunTrials` of generation 4. -/
def IQMCRunTrials_gen4 (hdr : XcvrHeader) (results : Nat → Nat)
    (trials_data : xcvr_iqmc_trials_t) (num_trials : Nat) (regs : RegFile) :
    xcvr_iqmc_trials_t × RegFile :=
  let s := IQMCRunTrials_loop_gen4 hdr results
    ({ trials_data with IQMC_gain_adj_sum := 0, IQMC_phase_adj_sum := 0 }, regs) num_trials
  -- release AGC freeze
  (s.1, s.2.write Reg.AGC_OVRD 0)

/-- The mean gain of `IQMCCalcResult`:
`(uint16_t)(trials_data->IQMC_gain_adj_sum / num_trials)`, an unsigned division. For
`num_trials = 0` the division is undefined in C; the model yields 0. -/
def IQMC_gain_adj_mean (trials_data : xcvr_iqmc_trials_t) (num_trials : Nat) : Nat :=
  (trials_data.IQMC_gain_adj_sum / num_trials) % 65536

/-- The mean phase of `IQMCCalcResult`:
`(int16_t)(trials_data->IQMC_phase_adj_sum / ((int8_t)num_trials))`, a signed division,
which truncates toward zero. For `num_trials = 0` the division is undefined in C; the
model yields 0. -/
def IQMC_phase_adj_mean (trials_data : xcvr_iqmc_trials_t) (num_trials : Nat) : Int :=
  wrapInt16 (Int.tdiv trials_data.IQMC_phase_adj_sum (toInt8 num_trials))

/-- The masked phase of `IQMCCalcResult`:
`temp_phase = (uint16_t)IQMC_phase_adj_mean; temp_phase &= 0xFFFU;`. -/
def IQMC_temp_phase (trials_data : xcvr_iqmc_trials_t) (num_trials : Nat) : Nat :=
  toUInt16 (IQMC_phase_adj_mean trials_data num_trials) &&& 0xFFF

/-- The validation of `IQMCCalcResult`; the lower bound of the phase is compiled out
(`#if (IQMC_PHASE_ADJ_MIN != 0)`). -/
def IQMC_valid (IQMC_gain_adj_mean temp_phase : Nat) : Bool :=
  decide (IQMC_gain_adj_mean ≥ IQMC_GAIN_ADJ_MIN) && decide (IQMC_gain_adj_mean ≤ IQMC_GAIN_ADJ_MAX) &&
    decide (temp_phase < IQMC_PHASE_ADJ_MAX)

/-- The function `IQMCCalcResult` of generation 3.5: the status, the register file and
the value written through `iqmc_cal_ptr` (`none`: nothing is written). -/
def IQMCCalcResult_gen35 (hdr : XcvrHeader) (trials_data : xcvr_iqmc_trials_t)
    (num_trials : Nat) (regs : RegFile) : xcvrTrimStatus_t × RegFile × Option Nat :=
  let gain_mean := IQMC_gain_adj_mean trials_data num_trials
  let temp_phase := IQMC_temp_phase trials_data num_trials
  let r1 := regs.write Reg.IQMC_CAL
    (hdr.IQMC_CAL_IQMC_GAIN_ADJ.put gain_mean ||| hdr.IQMC_CAL_IQMC_PHASE_ADJ.put temp_phase)
  -- Validate the final result
  if IQMC_valid gain_mean temp_phase then
    (xcvrTrimStatus_t.gXcvrTrimSuccess_c, r1,
      some (hdr.IQMC_CAL_IQMC_GAIN_ADJ.put gain_mean |||
        hdr.IQMC_CAL_IQMC_PHASE_ADJ.put temp_phase))
  else (xcvrTrimStatus_t.gXcvrTrimIqmcCalOutOfRange_c, r1, none)

/-- The function `IQMCCalcResult` of generation 4: the register `IQMC_CTRL1` receives the
phase field of the signed mean, the output pointer that of the masked phase. -/
def IQMCCalcResult_gen4 (hdr : XcvrHeader) (trials_data : xcvr_iqmc_trials_t)
    (num_trials : Nat) (regs : RegFile) : xcvrTrimStatus_t × RegFile × Option Nat :=
  let gain_mean := IQMC_gain_adj_mean trials_data num_trials
  let phase_mean := IQMC_phase_adj_mean trials_data num_trials
  let temp_phase := IQMC_temp_phase trials_data num_trials
  let r1 := regs.write Reg.IQMC_CTRL1
    (hdr.IQMC_CTRL1_IQMC_GAIN_ADJ.put gain_mean |||
      hdr.IQMC_CTRL1_IQMC_PHASE_ADJ.put (toUInt32 phase_mean))
  -- Validate the final result
  if IQMC_valid gain_mean temp_phase then
    (xcvrTrimStatus_t.gXcvrTrimSuccess_c, r1,
      some (hdr.IQMC_CTRL1_IQMC_GAIN_ADJ.put gain_mean |||
        hdr.IQMC_CTRL1_IQMC_PHASE_ADJ.put temp_phase))
  else (xcvrTrimStatus_t.gXcvrTrimIqmcCalOutOfRange_c, r1, none)

/-- Modelled from the spec: the enumeration `radio_mode_t` of the radio modes, whose
header is not part of the sources at hand ("the active radio mode enumerator (used only
for the IQMC channel-selection lookup)"): the seven modes that `IQMCCalInit` names, and
`other` for every other enumerator (such as `OQPSK_802P15P4`), by its numeric value. -/
inductive radio_mode_t where
  /-- The mode `BLE_MODE`. -/
  | BLE_MODE : radio_mode_t
  /-- The mode `BLE_LR`. -/
  | BLE_LR : radio_mode_t
  /-- The mode `GFSK_BT_0p5_h_0p5`. -/
  | GFSK_BT_0p5_h_0p5 : radio_mode_t
  /-- The mode `GFSK_BT_0p5_h_0p32`. -/
  | GFSK_BT_0p5_h_0p32 : radio_mode_t
  /-- The mode `GFSK_BT_0p5_h_0p7`. -/
  | GFSK_BT_0p5_h_0p7 : radio_mode_t
  /-- The mode `GFSK_BT_0p5_h_1p0`. -/
  | GFSK_BT_0p5_h_1p0 : radio_mode_t
  /-- The mode `MSK`. -/
  | MSK : radio_mode_t
  /-- Any other mode. -/
  | other : Nat → radio_mode_t
deriving DecidableEq, Repr

/-- Modelled from the spec: the enumeration `XCVR_BAND_SEL_T` of the channel maps of the
PLL ("`setBandSelect(band) -> status`, `getBandSelect() -> band`"), whose header is not
part of the sources at hand: the two bands that `nxp_xcvr_trim.c` names, and `other` for
every other enumerator, by its numeric value. -/
inductive XCVR_BAND_SEL_T where
  /-- The band `XCVR_BAND_SEL_BTLE`. -/
  | XCVR_BAND_SEL_BTLE : XCVR_BAND_SEL_T
  /-- The band `XCVR_BAND_SEL_GENERIC`. -/
  | XCVR_BAND_SEL_GENERIC : XCVR_BAND_SEL_T
  /-- Any other band. -/
  | other : Nat → XCVR_BAND_SEL_T
deriving DecidableEq, Repr

/-- A call of a routine of the Radio Control Interface. The routines are not part of the
sources at hand: a call is recorded, and its effect on the registers is not modelled. -/
inductive InterfaceCall where
  /-- The call `XCVR_OverrideChannel(channel)`. -/
  | XCVR_OverrideChannel : Nat → InterfaceCall
  /-- The call `XCVR_ForceRxWu()`. -/
  | XCVR_ForceRxWu : InterfaceCall
  /-- The call `XCVR_WaitRxWu()`. -/
  | XCVR_WaitRxWu : InterfaceCall
  /-- The call `XCVR_GetPLLBand()`. -/
  | XCVR_GetPLLBand : InterfaceCall
  /-- The call `XCVR_SetPLLBand(band)`. -/
  | XCVR_SetPLLBand : XCVR_BAND_SEL_T → InterfaceCall
deriving DecidableEq, Repr

/-- The state left by `IQMCCalInit` (generation 3.5). -/
structure CalInitRun where
  /-- The status returned. -/
  trim_status : xcvrTrimStatus_t
  /-- The register file at the return. -/
  regs : RegFile
  /-- The static variable `Decimator_OSR_state`. -/
  Decimator_OSR_state : Nat
  /-- The static variable `CH_filt_bypass_state`. -/
  CH_filt_bypass_state : Nat
  /-- The calls of the Radio Control Interface, in program order. -/
  calls : List InterfaceCall

/-- The function `IQMCCalInit` of generation 3.5. `overrideStatus channel` is the status
that `XCVR_OverrideChannel(channel)` returns. -/
def IQMCCalInit_gen35 (hdr : XcvrHeader) (overrideStatus : Nat → xcvrStatus_t)
    (dcoc_ctrl_3_val : Nat) (radio_mode : radio_mode_t) (regs : RegFile) : CalInitRun :=
  let temp := regs Reg.RX_DIG_CTRL
  let Decimator_OSR_state := hdr.RX_DIG_CTRL_RX_DEC_FILT_OSR.get temp % 256
  let CH_filt_bypass_state := hdr.RX_DIG_CTRL_RX_CH_FILT_BYPASS.get temp % 256
  let temp := temp &&& not32
    (hdr.RX_DIG_CTRL_RX_DEC_FILT_OSR.mask ||| hdr.RX_DIG_CTRL_RX_CH_FILT_BYPASS.mask |||
      hdr.RX_DIG_CTRL_RX_DCOC_EN.mask ||| hdr.RX_DIG_CTRL_RX_AGC_EN.mask |||
      hdr.RX_DIG_CTRL_RX_DCOC_CAL_EN.mask)
  let temp := temp |||
    (hdr.RX_DIG_CTRL_RX_DEC_FILT_OSR.put 2 ||| hdr.RX_DIG_CTRL_RX_CH_FILT_BYPASS.put 1 |||
      hdr.RX_DIG_CTRL_RX_DCOC_EN.put 1 ||| hdr.RX_DIG_CTRL_RX_AGC_EN.put 0 |||
      hdr.RX_DIG_CTRL_RX_DCOC_CAL_EN.put 0)
  let r1 := regs.write Reg.RX_DIG_CTRL temp
  let r2 := r1.orMask Reg.DCOC_CTRL_0
    (hdr.DCOC_CTRL_0_DCOC_CORRECT_SRC.mask ||| hdr.DCOC_CTRL_0_DCOC_CORRECT_EN.mask)
  -- Setup LNM and BBF manual gains and enable them
  let r3 := r2.write Reg.AGC_CTRL_1
    (hdr.AGC_CTRL_1_USER_LNA_GAIN_EN.put 1 ||| hdr.AGC_CTRL_1_LNA_USER_GAIN.put 0x6 |||
      hdr.AGC_CTRL_1_USER_BBA_GAIN_EN.put 1 ||| hdr.AGC_CTRL_1_BBA_USER_GAIN.put 0x7)
  let r4 := r3.orMask Reg.DCOC_CTRL_0 hdr.DCOC_CTRL_0_DCOC_MAN.mask
  let r5 := r4.write Reg.DCOC_DAC_INIT dcoc_ctrl_3_val
  -- Select channel to get 2.440GHz channel frequency
  let sw : xcvrStatus_t × List InterfaceCall :=
    match radio_mode with
    | radio_mode_t.BLE_MODE | radio_mode_t.BLE_LR =>
      (overrideStatus 19, [InterfaceCall.XCVR_OverrideChannel 19])
    | radio_mode_t.GFSK_BT_0p5_h_0p5 | radio_mode_t.GFSK_BT_0p5_h_0p32
    | radio_mode_t.GFSK_BT_0p5_h_0p7 | radio_mode_t.GFSK_BT_0p5_h_1p0 | radio_mode_t.MSK =>
      (overrideStatus 80, [InterfaceCall.XCVR_OverrideChannel 80])
    | radio_mode_t.other _ => (xcvrStatus_t.gXcvrUnsupportedOperation_c, [])
  if sw.1 = xcvrStatus_t.gXcvrSuccess_c then
    ⟨xcvrTrimStatus_t.gXcvrTrimSuccess_c, r5, Decimator_OSR_state, CH_filt_bypass_state,
      sw.2 ++ [InterfaceCall.XCVR_ForceRxWu]⟩
  else
    ⟨xcvrTrimStatus_t.gXcvrTrimInvalidMode_c, r5, Decimator_OSR_state, CH_filt_bypass_state,
      sw.2⟩

/-! ## Example data -/

/-- An example of a register layout, in the style of the device headers of the family:
single-bit enables, 12-bit phase and 11-bit gain corrections, 8-bit and 6-bit DAC codes. -/
def exampleHeader : XcvrHeader where
  RX_DIG_CTRL_RX_AGC_EN := ⟨0x800, 11⟩
  RX_DIG_CTRL_RX_DCOC_CAL_EN := ⟨0x2000, 13⟩
  RX_DIG_CTRL_RX_DC_RESID_EN := ⟨0x8000, 15⟩
  RX_DIG_CTRL_RX_DEC_FILT_OSR := ⟨0x70, 4⟩
  RX_DIG_CTRL_RX_CH_FILT_BYPASS := ⟨0x2, 1⟩
  RX_DIG_CTRL_RX_DCOC_EN := ⟨0x1000, 12⟩
  AGC_CTRL_1_USER_LNA_GAIN_EN := ⟨0x100000, 20⟩
  AGC_CTRL_1_USER_BBA_GAIN_EN := ⟨0x200000, 21⟩
  AGC_CTRL_1_LNA_USER_GAIN := ⟨0xF000, 12⟩
  AGC_CTRL_1_BBA_USER_GAIN := ⟨0xF0000, 16⟩
  DCOC_CTRL_0_DCOC_MAN := ⟨0x2, 1⟩
  DCOC_CTRL_0_DCOC_CORRECT_SRC := ⟨0x8, 3⟩
  DCOC_CTRL_0_DCOC_TRK_EST_OVR := ⟨0x4, 2⟩
  DCOC_CTRL_0_DCOC_CORRECT_EN := ⟨0x10, 4⟩
  DCOC_CTRL_0_TRACK_FROM_ZERO := ⟨0x20, 5⟩
  DCOC_DAC_INIT_BBA_DCOC_INIT_I := ⟨0x3F, 0⟩
  DCOC_DAC_INIT_BBA_DCOC_INIT_Q := ⟨0x3F00, 8⟩
  DCOC_DAC_INIT_TZA_DCOC_INIT_I := ⟨0xFF0000, 16⟩
  DCOC_DAC_INIT_TZA_DCOC_INIT_Q := ⟨0xFF000000, 24⟩
  DCOC_BBA_STEP_BBA_DCOC_STEP := ⟨0x1FF0000, 16⟩
  DCOC_BBA_STEP_BBA_DCOC_STEP_RECIP := ⟨0x1FFF, 0⟩
  DCOC_TZA_STEP_GAIN := fun _ => ⟨0xFFFF0000, 16⟩
  DCOC_TZA_STEP_RCP := fun _ => ⟨0xFFFF, 0⟩
  TSM_OVRD2_RX_INIT_OVRD := ⟨0x2000000, 25⟩
  TSM_OVRD2_RX_INIT_OVRD_EN := ⟨0x1000000, 24⟩
  IQMC_CAL_IQMC_GAIN_ADJ := ⟨0x7FF, 0⟩
  IQMC_CAL_IQMC_PHASE_ADJ := ⟨0xFFF0000, 16⟩
  IQMC_CTRL_IQMC_CAL_EN := ⟨0x1, 0⟩
  IQMC_CTRL_IQMC_NUM_ITER := ⟨0xFF00, 8⟩
  IQMC_CTRL_IQMC_DC_GAIN_ADJ := ⟨0x7FF0000, 16⟩
  IQMC_CTRL1_IQMC_GAIN_ADJ := ⟨0x7FF, 0⟩
  IQMC_CTRL1_IQMC_PHASE_ADJ := ⟨0xFFF0000, 16⟩
  IQMC_CTRL0_IQMC_CAL_EN := ⟨0x1, 0⟩
  IQMC_CTRL0_IQMC_NUM_ITER := ⟨0xFF00, 8⟩
  IQMC_CTRL0_IQMC_DC_GAIN_ADJ := ⟨0x7FF0000, 16⟩
  IQMC_CTRL0_IQMC_CAL_FREQ_SEL := ⟨0x6, 1⟩
  AGC_OVRD_AGC_GAIN_IDX_OVRD := ⟨0x1E, 1⟩
  AGC_OVRD_AGC_GAIN_IDX_OVRD_EN := ⟨0x1, 0⟩
  AGC_OVRD_AGC_PHY_FREEZE_OVRD := ⟨0x40, 6⟩
  AGC_OVRD_AGC_PHY_FREEZE_OVRD_EN := ⟨0x20, 5⟩

/-- A register file with the automatic gain control and the automatic DC correction
enabled, every other register at zero. -/
def exampleRegs : RegFile
  | Reg.RX_DIG_CTRL => 0x3810
  | Reg.DCOC_CTRL_0 => 0x18
  | Reg.DCOC_CTRL_1 => 0x1
  | Reg.DCOC_CAL_GAIN => 0x7
  | _ => 0

/-- The register file with every register at zero. -/
def zeroRegs : RegFile := fun _ => 0

/-- A measurement table with every entry at zero. -/
def zeroTbl : MeasTbl := fun _ _ => ⟨0, 0⟩

/-- A stream of values of `DCOC_DC_EST` for the three averages of
`rx_bba_dcoc_dac_trim_DCest`: I and Q at 0 for the baseline, I at 600 and Q at -600 with
the DAC lowered, I at -600 and Q at 600 with the DAC raised. -/
def exampleDcEst (j : Nat) (_k : Nat) : Nat :=
  if j = 0 then 0 else if j = 1 then 600 + (4096 - 600) * 65536 else (4096 - 600) + 600 * 65536

/-- A stream of values of `DCOC_DC_EST` whose estimates do not move with the DAC. -/
def flatDcEst (_j : Nat) (_k : Nat) : Nat := 0

/-- Two configurations of the step ratios that differ only in the ratio of the stage 0:
`2047` and `2048`, then `16376` and `65504` (and 1 for the stages above 2). -/
def chainConfigA (k : Nat) : Nat := ([2047, 16376, 65504].getD k 1) <<< 16

/-- See `chainConfigA`. -/
def chainConfigB (k : Nat) : Nat := ([2048, 16376, 65504].getD k 1) <<< 16

/-- The results of four IQMC trials, as values of the result register: gains
`1024, 1025, 1023, 1024` and phases `0, 1, -1, 0`. -/
def exampleResults (cnt : Nat) : Nat :=
  [1024, 1025 + 1 * 65536, 1023 + 0xFFF * 65536, 1024].getD cnt 0

/-- A trial storage before a run: every entry and both sums at zero. -/
def zeroTrials : xcvr_iqmc_trials_t := ⟨fun _ => 0, fun _ => 0, 0, 0⟩

/-- The trial storage after the four trials of `exampleResults`. -/
def exampleTrials : xcvr_iqmc_trials_t :=
  ⟨fun k => [1024, 1025, 1023, 1024].getD k 0, fun k => [0, 1, -1, 0].getD k 0, 4096, 0⟩

/-- A trial storage whose sums are those of 200 trials of gain 1024 and phase 28. -/
def longRunTrials : xcvr_iqmc_trials_t := ⟨fun _ => 1024, fun _ => 28, 204800, 5600⟩

/-- A trial storage of four trials of gain 700 and phase 0. -/
def lowGainTrials : xcvr_iqmc_trials_t := ⟨fun _ => 700, fun _ => 0, 2800, 0⟩

/-- A trial storage of four trials of gain 1700 and phase 0. -/
def highGainTrials : xcvr_iqmc_trials_t := ⟨fun _ => 1700, fun _ => 0, 6800, 0⟩

/-- The sum of the magnitudes of the four differences `norm_dc_code` that
`calc_dcoc_dac_step` takes between the entries of the table: each perturbed entry minus
the baseline of its channel, in `int16_t`. -/
def normSum (tbl : MeasTbl) : Nat :=
  (wrapInt16 ((tbl IQ_t.I_CHANNEL DAC_SWEEP_STEP2_t.BBF_NEG).internal_measurement -
      (tbl IQ_t.I_CHANNEL DAC_SWEEP_STEP2_t.NOMINAL2).internal_measurement)).natAbs +
    (wrapInt16 ((tbl IQ_t.I_CHANNEL DAC_SWEEP_STEP2_t.BBF_POS).internal_measurement -
      (tbl IQ_t.I_CHANNEL DAC_SWEEP_STEP2_t.NOMINAL2).internal_measurement)).natAbs +
    (wrapInt16 ((tbl IQ_t.Q_CHANNEL DAC_SWEEP_STEP2_t.BBF_NEG).internal_measurement -
      (tbl IQ_t.Q_CHANNEL DAC_SWEEP_STEP2_t.NOMINAL2).internal_measurement)).natAbs +
    (wrapInt16 ((tbl IQ_t.Q_CHANNEL DAC_SWEEP_STEP2_t.BBF_POS).internal_measurement -
      (tbl IQ_t.Q_CHANNEL DAC_SWEEP_STEP2_t.NOMINAL2).internal_measurement)).natAbs

/-- The steps that the two trims store in the table: `-16` with the DAC lowered, `+16`
with the DAC raised. -/
def sweepSteps (tbl : MeasTbl) : Prop :=
  (tbl IQ_t.I_CHANNEL DAC_SWEEP_STEP2_t.BBF_NEG).step_value = -16 ∧
    (tbl IQ_t.Q_CHANNEL DAC_SWEEP_STEP2_t.BBF_NEG).step_value = -16 ∧
    (tbl IQ_t.I_CHANNEL DAC_SWEEP_STEP2_t.BBF_POS).step_value = 16 ∧
    (tbl IQ_t.Q_CHANNEL DAC_SWEEP_STEP2_t.BBF_POS).step_value = 16

/-! ## Generation 4: the initialization of the I/Q mismatch calibration -/

/-- The state left by `IQMCCalInit` (generation 4). -/
structure CalInitRun4 where
  /-- The status returned. -/
  trim_status : xcvrTrimStatus_t
  /-- The register file at the return. -/
  regs : RegFile
  /-- The static variable `stored_pll_band`. -/
  stored_pll_band : XCVR_BAND_SEL_T
  /-- The calls of the Radio Control Interface, in program order. -/
  calls : List InterfaceCall

/-- The function `IQMCCalInit` of generation 4. `pllBand` is the band that
`XCVR_GetPLLBand()` returns, `overrideStatus channel` the status that
`XCVR_OverrideChannel(channel)` returns; the status of `XCVR_SetPLLBand` is discarded by
the function. -/
def IQMCCalInit_gen4 (hdr : XcvrHeader) (pllBand : XCVR_BAND_SEL_T)
    (overrideStatus : Nat → xcvrStatus_t) (generic_channel_num : Nat) (regs : RegFile) :
    CalInitRun4 :=
  -- Freeze AGC to max gain
  let temp := regs Reg.AGC_OVRD |||
    (hdr.AGC_OVRD_AGC_GAIN_IDX_OVRD.put 11 ||| hdr.AGC_OVRD_AGC_GAIN_IDX_OVRD_EN.put 1 |||
      hdr.AGC_OVRD_AGC_PHY_FREEZE_OVRD.put 1 ||| hdr.AGC_OVRD_AGC_PHY_FREEZE_OVRD_EN.put 1)
  let r1 := regs.write Reg.AGC_OVRD temp
  -- Set band to GENERIC and use requested channel
  let stored_pll_band := pllBand
  let calls := [InterfaceCall.XCVR_GetPLLBand,
    InterfaceCall.XCVR_SetPLLBand XCVR_BAND_SEL_T.XCVR_BAND_SEL_GENERIC,
    InterfaceCall.XCVR_OverrideChannel generic_channel_num]
  if overrideStatus generic_channel_num = xcvrStatus_t.gXcvrSuccess_c then
    ⟨xcvrTrimStatus_t.gXcvrTrimSuccess_c, r1, stored_pll_band,
      calls ++ [InterfaceCall.XCVR_ForceRxWu, InterfaceCall.XCVR_WaitRxWu]⟩
  else ⟨xcvrTrimStatus_t.gXcvrTrimInvalidChannel_c, r1, stored_pll_band, calls⟩

/-! ## Slope-seek engine: the gain back-off and arbitrary measurements -/

/-- The function `dc_is_too_high`: `((ABS(i_dc) > 1900U) || (ABS(q_dc) > 1900U))`. -/
def dc_is_too_high (i_dc q_dc : Int) : Bool :=
  decide (ABS i_dc > 1900) || decide (ABS q_dc > 1900)

/-- The state of the gain back-off loop of `DCOC_DAC_INIT_Cal`: the local `bba_gain`
(`uint8_t`), the measurements of the two channels and the register file. -/
structure BackoffState where
  /-- The local `bba_gain`. -/
  bba_gain : Nat
  /-- The measurement `i_chan.dc_meas`. -/
  i_dc_meas : Int
  /-- The measurement `q_chan.dc_meas`. -/
  q_dc_meas : Int
  /-- The register file. -/
  regs : RegFile

/-- The state at the entry of the gain back-off loop: `bba_gain = 11`, the measurements
as `init_chan_state` leaves them. -/
def backoff_entry (regs : RegFile) : BackoffState :=
  ⟨11, (init_chan_state default).dc_meas, (init_chan_state default).dc_meas, regs⟩

/-- The body of the loop `do { ... } while (dc_is_too_high(...))` of `DCOC_DAC_INIT_Cal`:
`bba_gain--`, the gain is written to `AGC_CTRL_1`, and both channels are measured
(`rx_dc_est_average` over 64 reads; `dc_est k` is the value of `DCOC_DC_EST` at the read
number `k` of this pass). -/
def backoff_pass (hdr : XcvrHeader) (dc_est : Nat → Nat) (s : BackoffState) : BackoffState :=
  let bba_gain := uint8_dec s.bba_gain
  -- Set DAC user gain
  let r1 := s.regs.write Reg.AGC_CTRL_1
    (hdr.AGC_CTRL_1_USER_LNA_GAIN_EN.put 1 ||| hdr.AGC_CTRL_1_LNA_USER_GAIN.put 0 |||
      hdr.AGC_CTRL_1_USER_BBA_GAIN_EN.put 1 ||| hdr.AGC_CTRL_1_BBA_USER_GAIN.put bba_gain)
  let avg := rx_dc_est_average true true dc_est 64
  ⟨bba_gain, avg.2.1.getD s.i_dc_meas, avg.2.2.getD s.q_dc_meas, r1⟩

/-- The state after `j` passes of the body of the gain back-off loop, whatever the exit
test says; `dc_est j` is the stream of estimates of the pass `j`. -/
def backoff_passes (hdr : XcvrHeader) (dc_est : Nat → Nat → Nat) (regs : RegFile) :
    Nat → BackoffState
  | 0 => backoff_entry regs
  | j + 1 => backoff_pass hdr (dc_est j) (backoff_passes hdr dc_est regs j)

/-- The gain back-off loop of `DCOC_DAC_INIT_Cal`, from the pass number `j` in the state
`s`, with at most `fuel` passes: the number of passes made when the loop is left and the
state then, or `none` when the loop is not left within `fuel` passes. -/
def backoff_loop (hdr : XcvrHeader) (dc_est : Nat → Nat → Nat) :
    Nat → Nat → BackoffState → Option (Nat × BackoffState)
  | 0, _, _ => none
  | fuel + 1, j, s =>
    let s1 := backoff_pass hdr (dc_est j) s
    if dc_is_too_high s1.i_dc_meas s1.q_dc_meas then backoff_loop hdr dc_est fuel (j + 1) s1
    else some (j + 1, s1)

/-- The calls of `chan_step_sweep` on one channel, from `init_chan_state`: before the call
number `k` the two measurements of the state are `(inputs k).1` and `(inputs k).2.1`
(arbitrary values), and the call is made with the step number `(inputs k).2.2`. -/
def sweep_calls (inputs : Nat → Int × Int × Nat) : Nat → xcvr_channel_state_t
  | 0 => init_chan_state default
  | k + 1 =>
    chan_step_sweep
      { sweep_calls inputs k with dc_meas := (inputs k).1, dc_meas_p := (inputs k).2.1 }
      (inputs k).2.2

/-! ## DCOC step calibration: the chain under exact arithmetic -/

/-- The loop body of `calc_tza_step_recip` (see `tza_stage`) with the rounding of the
`float32_t` operations as a parameter `rnd`: `rnd = f32round` is the `float32_t`
arithmetic, and the identity is exact arithmetic. -/
def tza_stage_rnd (rnd : ℚ → ℚ) (cfg : Nat → Nat) (bbf_dcoc_step : Nat) (k : Nat) (status : Nat)
    (temp_step : ℚ) : Nat × ℚ × TZAdcocstep_t :=
  let sel : Nat × ℚ × ℚ × ℚ :=
    if k = 0 then (status, rnd ((bbf_dcoc_step : Int) : ℚ), 1, rnd (144 / 5))
    else if k ≤ 10 then
      (status, temp_step, rnd (((cfg k >>> 16 : Nat) : Int) : ℚ),
        rnd (((cfg (k - 1) >>> 16 : Nat) : Int) : ℚ))
    else (0, temp_step, 1, rnd (144 / 5))
  let temp_step1 := rnd (sel.2.1 * rnd (sel.2.2.1 / sel.2.2.2))
  (sel.1, temp_step1,
    ⟨f32_to_uint16 (roundf (rnd (temp_step1 * 8))),
      f32_to_uint16 (roundf (rnd (0x8000 / temp_step1)))⟩)

/-- The loop of `calc_tza_step_recip` after `n` passes (see `tza_stages`), with the
rounding as a parameter. -/
def tza_stages_rnd (rnd : ℚ → ℚ) (cfg : Nat → Nat) (bbf_dcoc_step : Nat) (temp_step : ℚ) :
    Nat → Nat × ℚ × List TZAdcocstep_t
  | 0 => (1, temp_step, [])
  | n + 1 =>
    let prev := tza_stages_rnd rnd cfg bbf_dcoc_step temp_step n
    let st := tza_stage_rnd rnd cfg bbf_dcoc_step n prev.1 prev.2.1
    (st.1, st.2.1, prev.2.2 ++ [st.2.2])

/-- A stream of values of `DCOC_DC_EST` whose I estimate stays at 2000 (clipping), for
every pass of the gain back-off loop. -/
def clippingDcEst (_j : Nat) (_k : Nat) : Nat := 2000

/-- A stream of values of `DCOC_DC_EST` whose I estimate is 2000 in the passes 0 and 1 and
100 from the pass 2 on. -/
def settlingDcEst (j : Nat) (_k : Nat) : Nat := if j < 2 then 2000 else 100

/-! # Theorems -/

/-! ## Machine integers and macros -/

theorem toUInt16_lt (x : Int) : toUInt16 x < 65536 := by
  unfold toUInt16
  omega

theorem toUInt16_of_nonneg {x : Int} (h0 : 0 ≤ x) (h1 : x ≤ 65535) :
    toUInt16 x = x.toNat := by
  unfold toUInt16
  omega

theorem and_sign_bit_eq_zero_iff (n : Nat) (h : n < 65536) :
    n &&& 0x8000 = 0 ↔ n < 32768 := by
  have h1 : (0x8000 : Nat) = 2 ^ 15 := by norm_num
  rw [h1, Nat.and_comm, Nat.two_pow_and, Nat.testBit_to_div_mod]
  by_cases hb : n / 2 ^ 15 % 2 = 1
  · simp only [hb, decide_True, Bool.toNat_true]
    omega
  · simp only [hb, decide_False, Bool.toNat_false]
    omega

theorem ISIGN_iff {x : Int} (h : isInt16 x) : ISIGN x = true ↔ 0 ≤ x := by
  unfold isInt16 at h
  unfold ISIGN
  rw [beq_iff_eq, and_sign_bit_eq_zero_iff _ (toUInt16_lt x)]
  unfold toUInt16
  omega

theorem ISIGN_eq_decide {x : Int} (h : isInt16 x) : ISIGN x = decide (0 ≤ x) := by
  by_cases h0 : 0 ≤ x
  · simp [h0, (ISIGN_iff h).2 h0]
  · have : ISIGN x ≠ true := fun hc => h0 ((ISIGN_iff h).1 hc)
    simp [h0, this]

theorem ABS_eq_natAbs {x : Int} (h : isInt16 x) : ABS x = x.natAbs := by
  unfold isInt16 at h
  unfold ABS toUInt16
  split <;> omega

theorem ne_MIN_iff (a b : Nat) : a ≠ MIN a b ↔ b < a := by
  unfold MIN
  split <;> omega

/-! ## Slope-seek engine: single sweep steps -/

/-- The coarse sweep step, with the macros read as sign and magnitude. -/
theorem tza_chan_sweep_eq (chan : xcvr_channel_state_t) (step_num : Nat)
    (h : isInt16 chan.dc_meas) (hp : isInt16 chan.dc_meas_p) :
    tza_chan_sweep chan step_num =
      if (decide (0 ≤ chan.dc_meas) != decide (0 ≤ chan.dc_meas_p)) &&
          decide (0 < step_num) then
        { chan with
          curr_tza_dac :=
            if chan.dc_meas_p.natAbs < chan.dc_meas.natAbs then chan.p_tza_dac
            else chan.curr_tza_dac
          TZA_OK := true }
      else
        { chan with
          p_tza_dac := chan.curr_tza_dac
          curr_tza_dac :=
            if 0 ≤ chan.dc_meas then uint8_dec chan.curr_tza_dac
            else uint8_inc chan.curr_tza_dac } := by
  unfold tza_chan_sweep
  simp only [ISIGN_eq_decide h, ISIGN_eq_decide hp, ABS_eq_natAbs h, ABS_eq_natAbs hp,
    ne_MIN_iff, gt_iff_lt]
  by_cases hc : ((decide (0 ≤ chan.dc_meas) != decide (0 ≤ chan.dc_meas_p)) &&
      decide (0 < step_num)) = true
  · rw [if_pos hc, if_pos hc]
    by_cases hm : chan.dc_meas_p.natAbs < chan.dc_meas.natAbs
    · simp only [hm, if_true]
    · simp only [hm, if_false]
  · rw [if_neg hc, if_neg hc]
    by_cases h0 : 0 ≤ chan.dc_meas
    · simp only [h0, decide_True, if_true]
    · simp only [h0, decide_False, if_false, Bool.false_eq_true]

/-- The fine sweep step, with the macros read as sign and magnitude. -/
theorem bba_chan_sweep_eq (chan : xcvr_channel_state_t) (step_num : Nat)
    (h : isInt16 chan.dc_meas) (hp : isInt16 chan.dc_meas_p) :
    bba_chan_sweep chan step_num =
      if (decide (0 ≤ chan.dc_meas) != decide (0 ≤ chan.dc_meas_p)) &&
          decide (chan.curr_bba_dac ≠ 0x20) then
        { chan with
          curr_bba_dac :=
            if chan.dc_meas_p.natAbs < chan.dc_meas.natAbs then chan.p_bba_dac
            else chan.curr_bba_dac
          BBA_OK := true }
      else
        { chan with
          p_bba_dac := chan.curr_bba_dac
          curr_bba_dac :=
            if 0 ≤ chan.dc_meas then uint8_dec chan.curr_bba_dac
            else uint8_inc chan.curr_bba_dac } := by
  unfold bba_chan_sweep
  simp only [ISIGN_eq_decide h, ISIGN_eq_decide hp, ABS_eq_natAbs h, ABS_eq_natAbs hp,
    ne_MIN_iff]
  by_cases hc : ((decide (0 ≤ chan.dc_meas) != decide (0 ≤ chan.dc_meas_p)) &&
      decide (chan.curr_bba_dac ≠ 0x20)) = true
  · rw [if_pos hc, if_pos hc]
    by_cases hm : chan.dc_meas_p.natAbs < chan.dc_meas.natAbs
    · simp only [hm, if_true]
    · simp only [hm, if_false]
  · rw [if_neg hc, if_neg hc]
    by_cases h0 : 0 ≤ chan.dc_meas
    · simp only [h0, decide_True, if_true]
    · simp only [h0, decide_False, if_false, Bool.false_eq_true]

theorem signFlip_iff (dc dc_p : Int) :
    (decide (0 ≤ dc) != decide (0 ≤ dc_p)) = true ↔ signFlip dc dc_p := by
  unfold signFlip
  by_cases h1 : 0 ≤ dc <;> by_cases h2 : 0 ≤ dc_p <;> simp [h1, h2]

/-- C4. In `tza_chan_sweep` the coarse phase is marked done (`TZA_OK` set) exactly when
the sign of `dc_meas` differs from the sign of `dc_meas_p` and `step_num > 0`; in that
case `curr_tza_dac` is rolled back to `p_tza_dac` exactly when the magnitude of
`dc_meas` is the larger of the two, and is left unchanged otherwise. -/
theorem tza_chan_sweep_done_iff (chan : xcvr_channel_state_t) (step_num : Nat)
    (h : isInt16 chan.dc_meas) (hp : isInt16 chan.dc_meas_p) (hT : chan.TZA_OK = false) :
    ((tza_chan_sweep chan step_num).TZA_OK = true ↔
        (signFlip chan.dc_meas chan.dc_meas_p ∧ 0 < step_num)) ∧
      (signFlip chan.dc_meas chan.dc_meas_p ∧ 0 < step_num →
        (tza_chan_sweep chan step_num).curr_tza_dac =
          if |chan.dc_meas| > |chan.dc_meas_p| then chan.p_tza_dac else chan.curr_tza_dac) := by
  rw [tza_chan_sweep_eq chan step_num h hp]
  have habs : (|chan.dc_meas| > |chan.dc_meas_p|) ↔
      chan.dc_meas_p.natAbs < chan.dc_meas.natAbs := by
    rw [gt_iff_lt, Int.abs_eq_natAbs, Int.abs_eq_natAbs]
    exact Int.ofNat_lt
  by_cases hc : ((decide (0 ≤ chan.dc_meas) != decide (0 ≤ chan.dc_meas_p)) &&
      decide (0 < step_num)) = true
  · rw [if_pos hc]
    have hc2 : signFlip chan.dc_meas chan.dc_meas_p ∧ 0 < step_num := by
      rw [Bool.and_eq_true, signFlip_iff, decide_eq_true_iff] at hc
      exact hc
    refine ⟨⟨fun _ => hc2, fun _ => rfl⟩, fun _ => ?_⟩
    simp only [habs]
  · rw [if_neg hc]
    have hc2 : ¬ (signFlip chan.dc_meas chan.dc_meas_p ∧ 0 < step_num) := by
      rw [Bool.and_eq_true, signFlip_iff, decide_eq_true_iff] at hc
      exact hc
    refine ⟨⟨fun hh => ?_, fun hh => absurd hh hc2⟩, fun hh => absurd hh hc2⟩
    simp only [hT] at hh
    exact absurd hh (by decide)

/-- Witness of C4: a state whose measurement went from `-5` to `9` at step 3. -/
theorem tza_chan_sweep_done_iff_witness :
    ((tza_chan_sweep ⟨9, -5, 0x83, 0x20, 0x82, 0x20, false, false⟩ 3).TZA_OK = true ↔
        (signFlip 9 (-5) ∧ 0 < 3)) ∧
      (signFlip 9 (-5) ∧ 0 < 3 →
        (tza_chan_sweep ⟨9, -5, 0x83, 0x20, 0x82, 0x20, false, false⟩ 3).curr_tza_dac =
          if |(9 : Int)| > |(-5 : Int)| then 0x82 else 0x83) :=
  tza_chan_sweep_done_iff ⟨9, -5, 0x83, 0x20, 0x82, 0x20, false, false⟩ 3
    (by decide) (by decide) rfl

/-- C5. When `tza_chan_sweep` does not detect a sign flip (or `step_num` is 0), it
stores the pre-call `curr_tza_dac` into `p_tza_dac` and then moves `curr_tza_dac` by
one code with the `uint8_t` operators: `--` (one code down, `0` wrapping to `255`) when
`dc_meas` has its sign bit clear and `++` (one code up, `255` wrapping to `0`) when it
is negative; `TZA_OK` keeps its value, so it stays false. -/
theorem tza_chan_sweep_no_flip (chan : xcvr_channel_state_t) (step_num : Nat)
    (h : isInt16 chan.dc_meas) (hp : isInt16 chan.dc_meas_p)
    (hno : ¬ (signFlip chan.dc_meas chan.dc_meas_p ∧ 0 < step_num)) :
    (tza_chan_sweep chan step_num).p_tza_dac = chan.curr_tza_dac ∧
      (0 ≤ chan.dc_meas →
        (tza_chan_sweep chan step_num).curr_tza_dac = (chan.curr_tza_dac + 255) % 256 ∧
        (0 < chan.curr_tza_dac → chan.curr_tza_dac < 256 →
          (tza_chan_sweep chan step_num).curr_tza_dac + 1 = chan.curr_tza_dac)) ∧
      (chan.dc_meas < 0 →
        (tza_chan_sweep chan step_num).curr_tza_dac = (chan.curr_tza_dac + 1) % 256 ∧
        (chan.curr_tza_dac < 255 →
          (tza_chan_sweep chan step_num).curr_tza_dac = chan.curr_tza_dac + 1)) ∧
      (tza_chan_sweep chan step_num).TZA_OK = chan.TZA_OK ∧
      (chan.TZA_OK = false → (tza_chan_sweep chan step_num).TZA_OK = false) := by
  rw [tza_chan_sweep_eq chan step_num h hp]
  have hc : ¬ (((decide (0 ≤ chan.dc_meas) != decide (0 ≤ chan.dc_meas_p)) &&
      decide (0 < step_num)) = true) := by
    rw [Bool.and_eq_true, signFlip_iff, decide_eq_true_iff]
    exact hno
  rw [if_neg hc]
  refine ⟨rfl, fun h0 => ?_, fun h0 => ?_, rfl, fun hT => hT⟩
  · simp only [h0, if_true, uint8_dec, true_and]
    intro h1 h2
    omega
  · have h0' : ¬ (0 ≤ chan.dc_meas) := by omega
    simp only [h0', if_false, uint8_inc, true_and]
    intro h1
    omega

/-- Witness of C5: the first step from the nominal state with a positive measurement. -/
theorem tza_chan_sweep_no_flip_witness :
    (tza_chan_sweep ⟨120, 2000, 0x80, 0x20, 0x80, 0x20, false, false⟩ 0).p_tza_dac = 0x80 ∧
      (tza_chan_sweep ⟨120, 2000, 0x80, 0x20, 0x80, 0x20, false, false⟩ 0).curr_tza_dac + 1
        = 0x80 :=
  have hw := tza_chan_sweep_no_flip ⟨120, 2000, 0x80, 0x20, 0x80, 0x20, false, false⟩ 0
    (by decide) (by decide) (by decide)
  ⟨hw.1, (hw.2.1 (by decide)).2 (by decide) (by decide)⟩

/-! ## Sign extension -/

/-- The two sign extensions on the 12-bit values, written `64 * c + r`. -/
theorem signExtend_chunks : ∀ c r : Fin 64,
    toInt16 (signExtendEst (64 * c.val + r.val)) =
        (if 64 * c.val + r.val < 2048 then ((64 * c.val + r.val : Nat) : Int)
          else ((64 * c.val + r.val : Nat) : Int) - 4096) ∧
      toInt16 (signExtendPhase (64 * c.val + r.val)) =
        (if 64 * c.val + r.val < 2048 then ((64 * c.val + r.val : Nat) : Int)
          else ((64 * c.val + r.val : Nat) : Int) - 4096) := by
  decide!

/-- C1. For every 12-bit field value `v` (`0 <= v < 4096`), the sign extension performed
in `rx_dc_est_average` (OR with `0xF000` when bit 11 is set) and in `IQMCRunTrials` (OR
with `0xF800` when bit 11 is set), reinterpreted as `int16_t`, yields `v` when
`v < 2048` and `v - 4096` when `v >= 2048`. -/
theorem signExtend_correct (v : Nat) (hv : v < 4096) :
    toInt16 (signExtendEst v) = (if v < 2048 then (v : Int) else (v : Int) - 4096) ∧
      toInt16 (signExtendPhase v) = (if v < 2048 then (v : Int) else (v : Int) - 4096) := by
  have hc := signExtend_chunks ⟨v / 64, by omega⟩ ⟨v % 64, Nat.mod_lt _ (by decide)⟩
  simp only [Nat.div_add_mod] at hc
  exact hc

/-- Witness of C1: the field value `0xFFF` is read as `-1` by both sign extensions. -/
theorem signExtend_correct_witness :
    toInt16 (signExtendEst 0xFFF) = (if 0xFFF < 2048 then ((0xFFF : Nat) : Int)
        else ((0xFFF : Nat) : Int) - 4096) ∧
      toInt16 (signExtendPhase 0xFFF) = (if 0xFFF < 2048 then ((0xFFF : Nat) : Int)
        else ((0xFFF : Nat) : Int) - 4096) :=
  signExtend_correct 0xFFF (by decide)

/-- C6. `bba_chan_sweep` marks the fine phase done (`BBA_OK` set) only when the sign of
`dc_meas` differs from the sign of `dc_meas_p` and `curr_bba_dac` has moved away from
its nominal midpoint `0x20` (and then it does); with `curr_bba_dac` equal to `0x20` a
sign flip never terminates the fine phase: the fine trim is stepped by one code
instead, down to `0x1F` for a measurement with the sign bit clear, up to `0x21` for a
negative one. -/
theorem bba_chan_sweep_done_iff (chan : xcvr_channel_state_t) (step_num : Nat)
    (h : isInt16 chan.dc_meas) (hp : isInt16 chan.dc_meas_p) (hB : chan.BBA_OK = false) :
    ((bba_chan_sweep chan step_num).BBA_OK = true ↔
        (signFlip chan.dc_meas chan.dc_meas_p ∧ chan.curr_bba_dac ≠ 0x20)) ∧
      (chan.curr_bba_dac = 0x20 →
        (bba_chan_sweep chan step_num).BBA_OK = false ∧
        (bba_chan_sweep chan step_num).p_bba_dac = 0x20 ∧
        (bba_chan_sweep chan step_num).curr_bba_dac =
          if 0 ≤ chan.dc_meas then 0x1F else 0x21) := by
  rw [bba_chan_sweep_eq chan step_num h hp]
  by_cases hc : ((decide (0 ≤ chan.dc_meas) != decide (0 ≤ chan.dc_meas_p)) &&
      decide (chan.curr_bba_dac ≠ 0x20)) = true
  · rw [if_pos hc]
    have hc2 : signFlip chan.dc_meas chan.dc_meas_p ∧ chan.curr_bba_dac ≠ 0x20 := by
      rw [Bool.and_eq_true, signFlip_iff, decide_eq_true_iff] at hc
      exact hc
    exact ⟨⟨fun _ => hc2, fun _ => rfl⟩, fun h20 => absurd h20 hc2.2⟩
  · rw [if_neg hc]
    have hc2 : ¬ (signFlip chan.dc_meas chan.dc_meas_p ∧ chan.curr_bba_dac ≠ 0x20) := by
      rw [Bool.and_eq_true, signFlip_iff, decide_eq_true_iff] at hc
      exact hc
    refine ⟨⟨fun hh => ?_, fun hh => absurd hh hc2⟩, fun h20 => ⟨hB, h20, ?_⟩⟩
    · simp only [hB] at hh
      exact absurd hh (by decide)
    · simp only [h20]
      by_cases h0 : 0 ≤ chan.dc_meas
      · simp only [h0, if_true, uint8_dec]
      · simp only [h0, if_false, uint8_inc]

/-- Witness of C6: a sign flip seen at the nominal fine trim `0x20`. -/
theorem bba_chan_sweep_done_iff_witness :
    (bba_chan_sweep ⟨-7, 12, 0x83, 0x20, 0x82, 0x20, true, false⟩ 4).BBA_OK = false ∧
      (bba_chan_sweep ⟨-7, 12, 0x83, 0x20, 0x82, 0x20, true, false⟩ 4).p_bba_dac = 0x20 ∧
      (bba_chan_sweep ⟨-7, 12, 0x83, 0x20, 0x82, 0x20, true, false⟩ 4).curr_bba_dac =
        if (0 : Int) ≤ -7 then 0x1F else 0x21 :=
  (bba_chan_sweep_done_iff ⟨-7, 12, 0x83, 0x20, 0x82, 0x20, true, false⟩ 4
    (by decide) (by decide) rfl).2 rfl

/-- C7. For every channel state with `TZA_OK` and `BBA_OK` both true, every `step_num`
and every measurement values, `chan_step_sweep` leaves `curr_tza_dac`, `curr_bba_dac`
and every other field of the state unchanged. -/
theorem chan_step_sweep_done (chan : xcvr_channel_state_t) (step_num : Nat)
    (hT : chan.TZA_OK = true) (hB : chan.BBA_OK = true) :
    chan_step_sweep chan step_num = chan := by
  unfold chan_step_sweep
  simp [hT, hB]

/-- Witness of C7: a converged state, stepped once more. -/
theorem chan_step_sweep_done_witness :
    chan_step_sweep ⟨-3, 4, 0x7E, 0x22, 0x7F, 0x21, true, true⟩ 9 =
      ⟨-3, 4, 0x7E, 0x22, 0x7F, 0x21, true, true⟩ :=
  chan_step_sweep_done ⟨-3, 4, 0x7E, 0x22, 0x7F, 0x21, true, true⟩ 9 rfl rfl

/-! ## Slope-seek engine: the loop -/

theorem chanCore_store_and_measure (meas : Nat → Nat → Int) (chan : xcvr_channel_state_t) :
    chanCore (store_and_measure meas chan) = chanCore chan := rfl

theorem chan_run_add (meas : Nat → Nat → Int) (n k : Nat) :
    ∀ (i : Nat) (chan : xcvr_channel_state_t),
      chan_run meas (n + k) i chan = chan_run meas k (i + n) (chan_run meas n i chan) := by
  induction n with
  | zero =>
    intro i chan
    simp [chan_run]
  | succ n ih =>
    intro i chan
    have h1 : n + 1 + k = (n + k) + 1 := by omega
    rw [h1]
    simp only [chan_run]
    rw [ih (i + 1) (chan_iter meas chan i)]
    have h2 : i + 1 + n = i + (n + 1) := by omega
    rw [h2]

theorem chan_run_succ (meas : Nat → Nat → Int) (n i : Nat) (chan : xcvr_channel_state_t) :
    chan_run meas (n + 1) i chan = chan_iter meas (chan_run meas n i chan) (i + n) := by
  rw [chan_run_add meas n 1 i chan]
  simp [chan_run]

/-- Once both flags are set, further iterations change neither trims nor flags. -/
theorem chan_run_done (meas : Nat → Nat → Int) (n : Nat) :
    ∀ (i : Nat) (chan : xcvr_channel_state_t), chan.TZA_OK = true → chan.BBA_OK = true →
      chanCore (chan_run meas n i chan) = chanCore chan := by
  induction n with
  | zero =>
    intro i chan _ _
    rfl
  | succ n ih =>
    intro i chan hT hB
    simp only [chan_run]
    have hs : chan_iter meas chan i = store_and_measure meas chan := by
      unfold chan_iter chan_step_sweep
      simp [hT, hB]
    rw [hs, ih (i + 1) (store_and_measure meas chan) hT hB]
    rfl

/-- Trims and flags of each channel after the two-channel loop are those of the
channel run on its own: leaving the loop early changes nothing, since it happens only
when both channels are complete. -/
theorem slope_seek_loop_core (meas_i meas_q : Nat → Nat → Int) (n : Nat) :
    ∀ (i : Nat) (i_chan q_chan : xcvr_channel_state_t),
      chanCore (slope_seek_loop meas_i meas_q n i (i_chan, q_chan)).1 =
          chanCore (chan_run meas_i n i i_chan) ∧
        chanCore (slope_seek_loop meas_i meas_q n i (i_chan, q_chan)).2 =
          chanCore (chan_run meas_q n i q_chan) := by
  induction n with
  | zero =>
    intro i i_chan q_chan
    exact ⟨rfl, rfl⟩
  | succ n ih =>
    intro i i_chan q_chan
    simp only [slope_seek_loop, chan_run]
    by_cases hb : ((chan_step_sweep i_chan i).TZA_OK && (chan_step_sweep q_chan i).TZA_OK &&
        (chan_step_sweep i_chan i).BBA_OK && (chan_step_sweep q_chan i).BBA_OK) = true
    · rw [if_pos hb]
      simp only [Bool.and_eq_true] at hb
      obtain ⟨⟨⟨h1, h2⟩, h3⟩, h4⟩ := hb
      constructor
      · unfold chan_iter
        rw [chan_run_done meas_i n (i + 1) (store_and_measure meas_i (chan_step_sweep i_chan i))
          h1 h3]
        rfl
      · unfold chan_iter
        rw [chan_run_done meas_q n (i + 1) (store_and_measure meas_q (chan_step_sweep q_chan i))
          h2 h4]
        rfl
    · rw [if_neg hb]
      exact ih (i + 1) _ _

theorem chan_iter_tza_step (meas : Nat → Nat → Int) (chan : xcvr_channel_state_t) (i : Nat)
    (hT : chan.TZA_OK = false) (h : isInt16 chan.dc_meas) (hp : isInt16 chan.dc_meas_p)
    (hno : ¬ (signFlip chan.dc_meas chan.dc_meas_p ∧ 0 < i)) :
    chan_iter meas chan i =
      ⟨meas (if 0 ≤ chan.dc_meas then uint8_dec chan.curr_tza_dac
          else uint8_inc chan.curr_tza_dac) chan.curr_bba_dac,
        chan.dc_meas,
        if 0 ≤ chan.dc_meas then uint8_dec chan.curr_tza_dac else uint8_inc chan.curr_tza_dac,
        chan.curr_bba_dac, chan.curr_tza_dac, chan.p_bba_dac, false, chan.BBA_OK⟩ := by
  unfold chan_iter chan_step_sweep
  rw [hT]
  simp only [Bool.not_false, if_true]
  rw [tza_chan_sweep_eq chan i h hp]
  have hc : ¬ (((decide (0 ≤ chan.dc_meas) != decide (0 ≤ chan.dc_meas_p)) &&
      decide (0 < i)) = true) := by
    rw [Bool.and_eq_true, signFlip_iff, decide_eq_true_iff]
    exact hno
  rw [if_neg hc]
  simp only [store_and_measure, hT]

theorem chan_iter_tza_flip (meas : Nat → Nat → Int) (chan : xcvr_channel_state_t) (i : Nat)
    (hT : chan.TZA_OK = false) (h : isInt16 chan.dc_meas) (hp : isInt16 chan.dc_meas_p)
    (hflip : signFlip chan.dc_meas chan.dc_meas_p) (hi : 0 < i) :
    chan_iter meas chan i =
      ⟨meas (keptCode chan.dc_meas_p chan.dc_meas chan.p_tza_dac chan.curr_tza_dac)
          chan.curr_bba_dac,
        chan.dc_meas,
        keptCode chan.dc_meas_p chan.dc_meas chan.p_tza_dac chan.curr_tza_dac,
        chan.curr_bba_dac, chan.p_tza_dac, chan.p_bba_dac, true, chan.BBA_OK⟩ := by
  unfold chan_iter chan_step_sweep
  rw [hT]
  simp only [Bool.not_false, if_true]
  rw [tza_chan_sweep_eq chan i h hp]
  have hc : ((decide (0 ≤ chan.dc_meas) != decide (0 ≤ chan.dc_meas_p)) &&
      decide (0 < i)) = true := by
    rw [Bool.and_eq_true, signFlip_iff, decide_eq_true_iff]
    exact ⟨hflip, hi⟩
  rw [if_pos hc]
  simp only [store_and_measure, keptCode]

theorem chan_iter_bba_step (meas : Nat → Nat → Int) (chan : xcvr_channel_state_t) (i : Nat)
    (hT : chan.TZA_OK = true) (hB : chan.BBA_OK = false)
    (h : isInt16 chan.dc_meas) (hp : isInt16 chan.dc_meas_p)
    (hno : ¬ (signFlip chan.dc_meas chan.dc_meas_p ∧ chan.curr_bba_dac ≠ 0x20)) :
    chan_iter meas chan i =
      ⟨meas chan.curr_tza_dac (if 0 ≤ chan.dc_meas then uint8_dec chan.curr_bba_dac
          else uint8_inc chan.curr_bba_dac),
        chan.dc_meas, chan.curr_tza_dac,
        if 0 ≤ chan.dc_meas then uint8_dec chan.curr_bba_dac else uint8_inc chan.curr_bba_dac,
        chan.p_tza_dac, chan.curr_bba_dac, true, false⟩ := by
  unfold chan_iter chan_step_sweep
  rw [hT, hB]
  simp only [Bool.not_true, Bool.not_false, if_true, Bool.false_eq_true, if_false]
  rw [bba_chan_sweep_eq chan i h hp]
  have hc : ¬ (((decide (0 ≤ chan.dc_meas) != decide (0 ≤ chan.dc_meas_p)) &&
      decide (chan.curr_bba_dac ≠ 0x20)) = true) := by
    rw [Bool.and_eq_true, signFlip_iff, decide_eq_true_iff]
    exact hno
  rw [if_neg hc]
  simp only [store_and_measure, hT, hB]

theorem chan_step_sweep_bba_flip (chan : xcvr_channel_state_t) (i : Nat)
    (hT : chan.TZA_OK = true) (hB : chan.BBA_OK = false)
    (h : isInt16 chan.dc_meas) (hp : isInt16 chan.dc_meas_p)
    (hflip : signFlip chan.dc_meas chan.dc_meas_p) (h20 : chan.curr_bba_dac ≠ 0x20) :
    chan_step_sweep chan i =
      ⟨chan.dc_meas, chan.dc_meas_p, chan.curr_tza_dac,
        keptCode chan.dc_meas_p chan.dc_meas chan.p_bba_dac chan.curr_bba_dac,
        chan.p_tza_dac, chan.p_bba_dac, true, true⟩ := by
  unfold chan_step_sweep
  rw [hT, hB]
  simp only [Bool.not_true, Bool.not_false, if_true, Bool.false_eq_true, if_false]
  rw [bba_chan_sweep_eq chan i h hp]
  have hc : ((decide (0 ≤ chan.dc_meas) != decide (0 ≤ chan.dc_meas_p)) &&
      decide (chan.curr_bba_dac ≠ 0x20)) = true := by
    rw [Bool.and_eq_true, signFlip_iff, decide_eq_true_iff]
    exact ⟨hflip, h20⟩
  rw [if_pos hc]
  simp only [keptCode, hT]

theorem coarseCode_zero (meas : Nat → Nat → Int) : coarseCode meas 0 = 0x80 := by
  unfold coarseCode walkCode
  split <;> rfl

theorem fineCode_zero (meas : Nat → Nat → Int) (tc : Nat) : fineCode meas tc 0 = 0x20 := by
  unfold fineCode walkCode
  split <;> rfl

/-- A step of the sweep from the code reached after `j` steps leads to the code reached
after `j + 1` steps, as long as the `uint8_t` does not wrap. -/
theorem walkCode_step (m : Int) (x0 j : Nat) (hlo : j + 1 ≤ x0) (hhi : x0 + j + 1 ≤ 255) :
    (if 0 ≤ m then uint8_dec (walkCode (decide (0 ≤ m)) x0 j)
      else uint8_inc (walkCode (decide (0 ≤ m)) x0 j)) =
      walkCode (decide (0 ≤ m)) x0 (j + 1) := by
  unfold walkCode uint8_dec uint8_inc
  by_cases h0 : 0 ≤ m
  · simp only [h0, decide_True, if_true]
    omega
  · simp only [h0, decide_False, if_false, Bool.false_eq_true]
    omega

theorem walkCode_le (down : Bool) (x0 j : Nat) (h : x0 + j ≤ 255) :
    walkCode down x0 j ≤ 255 := by
  unfold walkCode
  split <;> omega

theorem coarseCode_le (meas : Nat → Nat → Int) (j : Nat) (h : j ≤ 127) :
    coarseCode meas j ≤ 255 :=
  walkCode_le _ _ _ (by omega)

theorem fineCode_le (meas : Nat → Nat → Int) (tc j : Nat) (h : j ≤ 223) :
    fineCode meas tc j ≤ 255 :=
  walkCode_le _ _ _ (by omega)

theorem keptCode_le (m_prev m_curr : Int) (prev curr : Nat) (hp : prev ≤ 255)
    (hc : curr ≤ 255) : keptCode m_prev m_curr prev curr ≤ 255 := by
  unfold keptCode
  split <;> assumption

theorem coarseKept_le (meas : Nat → Nat → Int) (a : Nat) (h : a ≤ 127) :
    coarseKept meas a ≤ 255 :=
  keptCode_le _ _ _ _ (coarseCode_le meas (a - 1) (by omega)) (coarseCode_le meas a h)

theorem coarse_first (meas : Nat → Nat → Int)
    (hr : ∀ t b, t ≤ 255 → b ≤ 255 → isInt16 (meas t b)) :
    chan_iter meas (startState meas) 0 = coarseState meas 1 := by
  have h2000 : isInt16 (startState meas).dc_meas_p := by
    show isInt16 2000
    decide
  rw [chan_iter_tza_step meas (startState meas) 0 rfl (hr _ _ (by decide) (by decide)) h2000
    (fun hh => absurd hh.2 (by decide))]
  simp only [startState, coarseState, coarseCode, walkCode]
  by_cases h0 : 0 ≤ meas 0x80 0x20
  · simp [h0, uint8_dec]
  · simp [h0, uint8_inc]

theorem coarse_step (meas : Nat → Nat → Int)
    (hr : ∀ t b, t ≤ 255 → b ≤ 255 → isInt16 (meas t b)) (j i : Nat)
    (hj : 1 ≤ j) (hj2 : j + 1 ≤ 127)
    (hs : 0 ≤ meas (coarseCode meas j) 0x20 ↔ 0 ≤ meas 0x80 0x20)
    (hsp : 0 ≤ meas (coarseCode meas (j - 1)) 0x20 ↔ 0 ≤ meas 0x80 0x20) :
    chan_iter meas (coarseState meas j) i = coarseState meas (j + 1) := by
  have hno : ¬ (signFlip (coarseState meas j).dc_meas (coarseState meas j).dc_meas_p ∧
      0 < i) := by
    intro hh
    exact hh.1 (hs.trans hsp.symm)
  rw [chan_iter_tza_step meas (coarseState meas j) i rfl
    (hr _ _ (coarseCode_le meas j (by omega)) (by decide))
    (hr _ _ (coarseCode_le meas (j - 1) (by omega)) (by decide)) hno]
  have hw := walkCode_step (meas 0x80 0x20) 0x80 j (by omega) (by omega)
  have hw2 : (if 0 ≤ meas (coarseCode meas j) 0x20 then uint8_dec (coarseCode meas j)
      else uint8_inc (coarseCode meas j)) = coarseCode meas (j + 1) := by
    unfold coarseCode at hs ⊢
    by_cases h0 : 0 ≤ meas 0x80 0x20
    · have h1 := hs.2 h0
      rw [if_pos h0] at hw
      rw [if_pos h1]
      exact hw
    · have h1 : ¬ (0 ≤ meas (walkCode (decide (0 ≤ meas 0x80 0x20)) 0x80 j) 0x20) :=
        fun hc => h0 (hs.1 hc)
      rw [if_neg h0] at hw
      rw [if_neg h1]
      exact hw
  simp only [coarseState, Nat.add_sub_cancel]
  rw [hw2]

theorem coarse_run (meas : Nat → Nat → Int)
    (hr : ∀ t b, t ≤ 255 → b ≤ 255 → isInt16 (meas t b)) (a : Nat)
    (ha : a ≤ 127)
    (hsame : ∀ k, k < a → (0 ≤ meas (coarseCode meas k) 0x20 ↔ 0 ≤ meas 0x80 0x20)) :
    ∀ j, 1 ≤ j → j ≤ a → chan_run meas j 0 (startState meas) = coarseState meas j := by
  intro j
  induction j with
  | zero =>
    intro h1 _
    omega
  | succ j ih =>
    intro _ hja
    rw [chan_run_succ]
    by_cases hj0 : j = 0
    · subst hj0
      simp only [chan_run]
      exact coarse_first meas hr
    · rw [ih (by omega) (by omega), coarse_step meas hr j (0 + j) (by omega) (by omega)
        (hsame j (by omega)) (hsame (j - 1) (by omega))]

theorem coarse_flip (meas : Nat → Nat → Int)
    (hr : ∀ t b, t ≤ 255 → b ≤ 255 → isInt16 (meas t b)) (a i : Nat) (ha : a ≤ 127)
    (hi : 0 < i)
    (hsp : 0 ≤ meas (coarseCode meas (a - 1)) 0x20 ↔ 0 ≤ meas 0x80 0x20)
    (hflip : ¬ (0 ≤ meas (coarseCode meas a) 0x20 ↔ 0 ≤ meas 0x80 0x20)) :
    chan_iter meas (coarseState meas a) i = fineState meas a 0 := by
  have hf : signFlip (coarseState meas a).dc_meas (coarseState meas a).dc_meas_p := by
    intro hh
    exact hflip (hh.trans hsp)
  rw [chan_iter_tza_flip meas (coarseState meas a) i rfl
    (hr _ _ (coarseCode_le meas a ha) (by decide))
    (hr _ _ (coarseCode_le meas (a - 1) (by omega)) (by decide)) hf hi]
  simp only [coarseState, fineState, coarseKept, fineCode_zero, if_true, Nat.zero_sub]

theorem fine_step (meas : Nat → Nat → Int)
    (hr : ∀ t b, t ≤ 255 → b ≤ 255 → isInt16 (meas t b)) (a j i : Nat) (ha : a ≤ 127)
    (hj2 : j + 1 ≤ 31)
    (hs : 0 ≤ meas (coarseKept meas a) (fineCode meas (coarseKept meas a) j) ↔
      0 ≤ meas (coarseKept meas a) 0x20)
    (hsp : 0 ≤ meas (coarseKept meas a) (fineCode meas (coarseKept meas a) (j - 1)) ↔
      0 ≤ meas (coarseKept meas a) 0x20) :
    chan_iter meas (fineState meas a j) i = fineState meas a (j + 1) := by
  have hint : isInt16 (fineState meas a j).dc_meas_p := by
    unfold fineState
    by_cases hj0 : j = 0
    · simp only [hj0, if_true]
      exact hr _ _ (coarseCode_le meas a ha) (by decide)
    · simp only [hj0, if_false]
      exact hr _ _ (coarseKept_le meas a ha) (fineCode_le meas _ (j - 1) (by omega))
  have hno : ¬ (signFlip (fineState meas a j).dc_meas (fineState meas a j).dc_meas_p ∧
      (fineState meas a j).curr_bba_dac ≠ 0x20) := by
    intro hh
    by_cases hj0 : j = 0
    · apply hh.2
      simp only [fineState, hj0, fineCode_zero]
    · apply hh.1
      simp only [fineState, hj0, if_false]
      exact hs.trans hsp.symm
  rw [chan_iter_bba_step meas (fineState meas a j) i rfl rfl
    (hr _ _ (coarseKept_le meas a ha) (fineCode_le meas _ j (by omega))) hint hno]
  have hw := walkCode_step (meas (coarseKept meas a) 0x20) 0x20 j (by omega) (by omega)
  have hw2 : (if 0 ≤ meas (coarseKept meas a) (fineCode meas (coarseKept meas a) j) then
        uint8_dec (fineCode meas (coarseKept meas a) j)
      else uint8_inc (fineCode meas (coarseKept meas a) j)) =
      fineCode meas (coarseKept meas a) (j + 1) := by
    unfold fineCode at hs ⊢
    by_cases h0 : 0 ≤ meas (coarseKept meas a) 0x20
    · have h1 := hs.2 h0
      rw [if_pos h0] at hw
      rw [if_pos h1]
      exact hw
    · have h1 : ¬ (0 ≤ meas (coarseKept meas a)
          (walkCode (decide (0 ≤ meas (coarseKept meas a) 0x20)) 0x20 j)) :=
        fun hc => h0 (hs.1 hc)
      rw [if_neg h0] at hw
      rw [if_neg h1]
      exact hw
  simp only [fineState, Nat.add_sub_cancel, Nat.succ_ne_zero, if_false]
  rw [hw2]

theorem fine_run (meas : Nat → Nat → Int)
    (hr : ∀ t b, t ≤ 255 → b ≤ 255 → isInt16 (meas t b)) (a c i : Nat) (ha : a ≤ 127)
    (hc : c ≤ 31)
    (hsame : ∀ k, k < c →
      (0 ≤ meas (coarseKept meas a) (fineCode meas (coarseKept meas a) k) ↔
        0 ≤ meas (coarseKept meas a) 0x20)) :
    ∀ j, j ≤ c → chan_run meas j i (fineState meas a 0) = fineState meas a j := by
  intro j
  induction j with
  | zero =>
    intro _
    rfl
  | succ j ih =>
    intro hjc
    rw [chan_run_succ, ih (by omega), fine_step meas hr a j (i + j) ha (by omega)
      (hsame j (by omega)) (hsame (j - 1) (by omega))]

theorem fine_flip (meas : Nat → Nat → Int)
    (hr : ∀ t b, t ≤ 255 → b ≤ 255 → isInt16 (meas t b)) (a c i : Nat) (ha : a ≤ 127)
    (hc : 1 ≤ c) (hc31 : c ≤ 31)
    (hsp : 0 ≤ meas (coarseKept meas a) (fineCode meas (coarseKept meas a) (c - 1)) ↔
      0 ≤ meas (coarseKept meas a) 0x20)
    (hflip : ¬ (0 ≤ meas (coarseKept meas a) (fineCode meas (coarseKept meas a) c) ↔
      0 ≤ meas (coarseKept meas a) 0x20)) :
    chanCore (chan_step_sweep (fineState meas a c) i) =
      (coarseKept meas a, fineKept meas (coarseKept meas a) c, coarseCode meas (a - 1),
        fineCode meas (coarseKept meas a) (c - 1), true, true) := by
  have hc0 : c ≠ 0 := by omega
  have hint : isInt16 (fineState meas a c).dc_meas_p := by
    simp only [fineState, hc0, if_false]
    exact hr _ _ (coarseKept_le meas a ha) (fineCode_le meas _ (c - 1) (by omega))
  have hf : signFlip (fineState meas a c).dc_meas (fineState meas a c).dc_meas_p := by
    simp only [fineState, hc0, if_false]
    intro hh
    exact hflip (hh.trans hsp)
  have h20 : (fineState meas a c).curr_bba_dac ≠ 0x20 := by
    simp only [fineState, fineCode, walkCode]
    split <;> omega
  rw [chan_step_sweep_bba_flip (fineState meas a c) i rfl rfl
    (hr _ _ (coarseKept_le meas a ha) (fineCode_le meas _ c (by omega))) hint hf h20]
  simp only [chanCore, fineState, fineKept, hc0, if_false]

/-- The sweep of one channel on its own: when the sign of the measurement first
changes `a >= 1` coarse codes away from `0x80` along the sweep, and then, at the coarse
code kept, `c >= 1` fine codes away from `0x20`, and `a + c <= 13`, then after the 15
iterations both flags are set and the trims are the codes kept at the two flips. -/
theorem chan_run_converges (meas : Nat → Nat → Int)
    (hr : ∀ t b, t ≤ 255 → b ≤ 255 → isInt16 (meas t b)) (a c : Nat) (ha : 1 ≤ a)
    (hc : 1 ≤ c) (hac : a + c ≤ 13)
    (hcs : ∀ k, k < a → (0 ≤ meas (coarseCode meas k) 0x20 ↔ 0 ≤ meas 0x80 0x20))
    (hcf : ¬ (0 ≤ meas (coarseCode meas a) 0x20 ↔ 0 ≤ meas 0x80 0x20))
    (hfs : ∀ k, k < c →
      (0 ≤ meas (coarseKept meas a) (fineCode meas (coarseKept meas a) k) ↔
        0 ≤ meas (coarseKept meas a) 0x20))
    (hff : ¬ (0 ≤ meas (coarseKept meas a) (fineCode meas (coarseKept meas a) c) ↔
      0 ≤ meas (coarseKept meas a) 0x20)) :
    chanCore (chan_run meas 0x0F 0 (startState meas)) =
      (coarseKept meas a, fineKept meas (coarseKept meas a) c, coarseCode meas (a - 1),
        fineCode meas (coarseKept meas a) (c - 1), true, true) := by
  have h15 : 0x0F = a + (1 + (c + (1 + (13 - a - c)))) := by omega
  rw [h15, chan_run_add, coarse_run meas hr a (by omega) hcs a ha (le_refl a), chan_run_add]
  have h1 : chan_run meas 1 (0 + a) (coarseState meas a) = fineState meas a 0 := by
    simp only [chan_run]
    exact coarse_flip meas hr a (0 + a) (by omega) (by omega) (hcs (a - 1) (by omega)) hcf
  rw [h1, chan_run_add, fine_run meas hr a c (0 + a + 1) (by omega) (by omega) hfs c (le_refl c),
    chan_run_add]
  have h2 : chanCore (chan_run meas 1 (0 + a + 1 + c) (fineState meas a c)) =
      (coarseKept meas a, fineKept meas (coarseKept meas a) c, coarseCode meas (a - 1),
        fineCode meas (coarseKept meas a) (c - 1), true, true) := by
    simp only [chan_run, chan_iter, chanCore_store_and_measure]
    exact fine_flip meas hr a c (0 + a + 1 + c) (by omega) hc (by omega)
      (hfs (c - 1) (by omega)) hff
  have hT : (chan_run meas 1 (0 + a + 1 + c) (fineState meas a c)).TZA_OK = true := by
    have := congrArg (fun p => p.2.2.2.2.1) h2
    exact this
  have hB : (chan_run meas 1 (0 + a + 1 + c) (fineState meas a c)).BBA_OK = true := by
    have := congrArg (fun p => p.2.2.2.2.2) h2
    exact this
  rw [chan_run_done meas (13 - a - c) _ _ hT hB, h2]

/-- A sweep along a non-decreasing function `g` whose sign changes between `xs - 1` and
`xs`: the sign seen stays that of the start for `stepsToFlip x0 xs - 1` steps and
flips at the next one, and the last two codes visited are `xs - 1` and `xs`. -/
theorem walk_flip_of_mono (g : Nat → Int) (x0 xs : Nat)
    (hmono : ∀ x x', x ≤ x' → x' ≤ 255 → g x ≤ g x')
    (hneg : g (xs - 1) < 0) (hpos : 0 ≤ g xs)
    (hlo : stepsToFlip x0 xs ≤ x0) (hhi : x0 + stepsToFlip x0 xs ≤ 255) :
    (∀ k, k < stepsToFlip x0 xs →
        (0 ≤ g (walkCode (decide (0 ≤ g x0)) x0 k) ↔ 0 ≤ g x0)) ∧
      ¬ (0 ≤ g (walkCode (decide (0 ≤ g x0)) x0 (stepsToFlip x0 xs)) ↔ 0 ≤ g x0) ∧
      ((walkCode (decide (0 ≤ g x0)) x0 (stepsToFlip x0 xs - 1) = xs ∧
          walkCode (decide (0 ≤ g x0)) x0 (stepsToFlip x0 xs) = xs - 1) ∨
        (walkCode (decide (0 ≤ g x0)) x0 (stepsToFlip x0 xs - 1) = xs - 1 ∧
          walkCode (decide (0 ≤ g x0)) x0 (stepsToFlip x0 xs) = xs)) := by
  unfold stepsToFlip at hlo hhi ⊢
  by_cases hx : xs ≤ x0
  · rw [if_pos hx] at hlo hhi ⊢
    have h0 : 0 ≤ g x0 := le_trans hpos (hmono xs x0 hx (by omega))
    simp only [h0, decide_True, walkCode, if_true, iff_true]
    refine ⟨fun k hk => le_trans hpos (hmono xs (x0 - k) (by omega) (by omega)), ?_, ?_⟩
    · have he : x0 - (x0 - xs + 1) = xs - 1 := by omega
      rw [he]
      omega
    · left
      constructor <;> omega
  · rw [if_neg hx] at hlo hhi ⊢
    have h0 : ¬ (0 ≤ g x0) := by
      have := hmono x0 (xs - 1) (by omega) (by omega)
      omega
    simp only [h0, decide_False, walkCode, if_false, iff_false, Bool.false_eq_true, not_not]
    refine ⟨fun k hk => ?_, ?_, ?_⟩
    · have := hmono (x0 + k) (xs - 1) (by omega) (by omega)
      omega
    · have he : x0 + (xs - x0) = xs := by omega
      rw [he]
      exact hpos
    · right
      constructor <;> omega

theorem stepsToFlip_pos (x0 xs : Nat) : 1 ≤ stepsToFlip x0 xs := by
  unfold stepsToFlip
  split <;> omega

theorem keptCode_natAbs_le (g : Nat → Int) (prev curr : Nat) :
    (g (keptCode (g prev) (g curr) prev curr)).natAbs ≤ (g prev).natAbs ∧
      (g (keptCode (g prev) (g curr) prev curr)).natAbs ≤ (g curr).natAbs := by
  unfold keptCode
  split <;> omega

/-- The sweep of one channel over a measurement that is non-decreasing in each trim,
with its coarse sign change between `tstar - 1` and `tstar` and, at the coarse code
kept, its fine sign change between `bstar - 1` and `bstar`, within the budget. -/
theorem chan_run_converges_of_mono (meas : Nat → Nat → Int) (tstar : Nat) (bstar : Nat → Nat)
    (hr : ∀ t b, t ≤ 255 → b ≤ 255 → isInt16 (meas t b))
    (hmt : ∀ t t', t ≤ t' → t' ≤ 255 → meas t 0x20 ≤ meas t' 0x20)
    (hmb : ∀ t b b', t ≤ 255 → b ≤ b' → b' ≤ 255 → meas t b ≤ meas t b')
    (hneg : meas (tstar - 1) 0x20 < 0) (hpos : 0 ≤ meas tstar 0x20)
    (hbt : stepsToFlip 0x80 tstar ≤ 12)
    (hfine : ∀ t, (t = tstar - 1 ∨ t = tstar) →
      |meas t 0x20| ≤ |meas (tstar - 1) 0x20| → |meas t 0x20| ≤ |meas tstar 0x20| →
      meas t (bstar t - 1) < 0 ∧ 0 ≤ meas t (bstar t) ∧
        stepsToFlip 0x80 tstar + stepsToFlip 0x20 (bstar t) ≤ 13) :
    ∃ tc bc p_tza p_bba,
      chanCore (chan_run meas 0x0F 0 (startState meas)) = (tc, bc, p_tza, p_bba, true, true) ∧
        (tc = tstar - 1 ∨ tc = tstar) ∧ (bc = bstar tc - 1 ∨ bc = bstar tc) := by
  obtain ⟨hcs, hcf, hcodes⟩ := walk_flip_of_mono (fun t => meas t 0x20) 0x80 tstar hmt hneg hpos
    (by omega) (by omega)
  have hk := keptCode_natAbs_le (fun t => meas t 0x20)
    (coarseCode meas (stepsToFlip 0x80 tstar - 1)) (coarseCode meas (stepsToFlip 0x80 tstar))
  have htc : coarseKept meas (stepsToFlip 0x80 tstar) = tstar - 1 ∨
      coarseKept meas (stepsToFlip 0x80 tstar) = tstar := by
    unfold coarseKept keptCode coarseCode
    rcases hcodes with ⟨h1, h2⟩ | ⟨h1, h2⟩
    · rw [h1, h2]
      split
      · exact Or.inr rfl
      · exact Or.inl rfl
    · rw [h1, h2]
      split
      · exact Or.inl rfl
      · exact Or.inr rfl
  have hmag : |meas (coarseKept meas (stepsToFlip 0x80 tstar)) 0x20| ≤ |meas (tstar - 1) 0x20| ∧
      |meas (coarseKept meas (stepsToFlip 0x80 tstar)) 0x20| ≤ |meas tstar 0x20| := by
    simp only [Int.abs_eq_natAbs, Int.ofNat_le]
    unfold coarseKept
    unfold coarseCode at hk ⊢
    rcases hcodes with ⟨h1, h2⟩ | ⟨h1, h2⟩
    · rw [h1, h2] at hk ⊢
      exact ⟨hk.2, hk.1⟩
    · rw [h1, h2] at hk ⊢
      exact hk
  obtain ⟨hfn, hfp, hbud⟩ := hfine _ htc hmag.1 hmag.2
  have hc1 := stepsToFlip_pos 0x20 (bstar (coarseKept meas (stepsToFlip 0x80 tstar)))
  have htc255 : coarseKept meas (stepsToFlip 0x80 tstar) ≤ 255 :=
    coarseKept_le meas _ (by omega)
  obtain ⟨hfs, hff, hfcodes⟩ := walk_flip_of_mono
    (fun b => meas (coarseKept meas (stepsToFlip 0x80 tstar)) b) 0x20
    (bstar (coarseKept meas (stepsToFlip 0x80 tstar)))
    (fun b b' h1 h2 => hmb _ b b' htc255 h1 h2) hfn hfp (by omega) (by omega)
  have hconv := chan_run_converges meas hr (stepsToFlip 0x80 tstar)
    (stepsToFlip 0x20 (bstar (coarseKept meas (stepsToFlip 0x80 tstar))))
    (stepsToFlip_pos _ _) hc1 hbud hcs hcf hfs hff
  refine ⟨_, _, _, _, hconv, htc, ?_⟩
  unfold fineKept keptCode fineCode
  rcases hfcodes with ⟨h1, h2⟩ | ⟨h1, h2⟩
  · rw [h1, h2]
    split
    · exact Or.inr rfl
    · exact Or.inl rfl
  · rw [h1, h2]
    split
    · exact Or.inl rfl
    · exact Or.inr rfl

theorem DCOC_DAC_INIT_Cal_seek_eq (meas_i meas_q : Nat → Nat → Int)
    (i0 q0 : xcvr_channel_state_t) :
    DCOC_DAC_INIT_Cal_seek meas_i meas_q i0 q0 =
      slope_seek_loop meas_i meas_q 0x0F 0 (startState meas_i, startState meas_q) := rfl

/-- C8 (amended). Given a synthetic DC-vs-trim function of the I channel that is
non-decreasing in each trim, whose sign changes between the coarse codes `tstar - 1`
and `tstar` (at the nominal fine trim) and, at the coarse code of smaller magnitude
among these two, between the fine codes `bstar - 1` and `bstar`, and such that the
steps needed to see both sign flips from the nominal trims `0x80` and `0x20` number
at most 13, the slope-seek loop of `DCOC_DAC_INIT_Cal` ends with `TZA_OK` and `BBA_OK`
both true within its 15 iterations, the final coarse trim is `tstar - 1` or `tstar` and
the final fine trim is `bstar - 1` or `bstar`: each within one code of the crossing.
The function of the Q channel is arbitrary. -/
theorem slope_seek_converges (meas_i meas_q : Nat → Nat → Int) (i0 q0 : xcvr_channel_state_t)
    (tstar : Nat) (bstar : Nat → Nat)
    (hr : ∀ t b, t ≤ 255 → b ≤ 255 → isInt16 (meas_i t b))
    (hmt : ∀ t t', t ≤ t' → t' ≤ 255 → meas_i t 0x20 ≤ meas_i t' 0x20)
    (hmb : ∀ t b b', t ≤ 255 → b ≤ b' → b' ≤ 255 → meas_i t b ≤ meas_i t b')
    (hneg : meas_i (tstar - 1) 0x20 < 0) (hpos : 0 ≤ meas_i tstar 0x20)
    (hbt : stepsToFlip 0x80 tstar ≤ 12)
    (hfine : ∀ t, (t = tstar - 1 ∨ t = tstar) →
      |meas_i t 0x20| ≤ |meas_i (tstar - 1) 0x20| → |meas_i t 0x20| ≤ |meas_i tstar 0x20| →
      meas_i t (bstar t - 1) < 0 ∧ 0 ≤ meas_i t (bstar t) ∧
        stepsToFlip 0x80 tstar + stepsToFlip 0x20 (bstar t) ≤ 13) :
    (DCOC_DAC_INIT_Cal_seek meas_i meas_q i0 q0).1.TZA_OK = true ∧
      (DCOC_DAC_INIT_Cal_seek meas_i meas_q i0 q0).1.BBA_OK = true ∧
      ((DCOC_DAC_INIT_Cal_seek meas_i meas_q i0 q0).1.curr_tza_dac = tstar - 1 ∨
        (DCOC_DAC_INIT_Cal_seek meas_i meas_q i0 q0).1.curr_tza_dac = tstar) ∧
      ((DCOC_DAC_INIT_Cal_seek meas_i meas_q i0 q0).1.curr_bba_dac =
          bstar (DCOC_DAC_INIT_Cal_seek meas_i meas_q i0 q0).1.curr_tza_dac - 1 ∨
        (DCOC_DAC_INIT_Cal_seek meas_i meas_q i0 q0).1.curr_bba_dac =
          bstar (DCOC_DAC_INIT_Cal_seek meas_i meas_q i0 q0).1.curr_tza_dac) := by
  obtain ⟨tc, bc, p_tza, p_bba, hcore, htc, hbc⟩ :=
    chan_run_converges_of_mono meas_i tstar bstar hr hmt hmb hneg hpos hbt hfine
  have hloop := (slope_seek_loop_core meas_i meas_q 0x0F 0 (startState meas_i)
    (startState meas_q)).1
  rw [hcore, ← DCOC_DAC_INIT_Cal_seek_eq meas_i meas_q i0 q0] at hloop
  have e1 : (DCOC_DAC_INIT_Cal_seek meas_i meas_q i0 q0).1.curr_tza_dac = tc :=
    congrArg (fun p => p.1) hloop
  have e2 : (DCOC_DAC_INIT_Cal_seek meas_i meas_q i0 q0).1.curr_bba_dac = bc :=
    congrArg (fun p => p.2.1) hloop
  have e3 : (DCOC_DAC_INIT_Cal_seek meas_i meas_q i0 q0).1.TZA_OK = true :=
    congrArg (fun p => p.2.2.2.2.1) hloop
  have e4 : (DCOC_DAC_INIT_Cal_seek meas_i meas_q i0 q0).1.BBA_OK = true :=
    congrArg (fun p => p.2.2.2.2.2) hloop
  rw [e1, e2]
  exact ⟨e3, e4, htc, hbc⟩

/-- Witness of C8 (amended): the function `nearCrossing` on the I channel, whose sign
changes between the coarse codes `0x83` and `0x84` and, at `0x84`, between the fine
codes `26` and `27`; the Q channel is fed `farCrossing`. -/
theorem slope_seek_converges_witness :
    (DCOC_DAC_INIT_Cal_seek nearCrossing farCrossing default default).1.TZA_OK = true ∧
      (DCOC_DAC_INIT_Cal_seek nearCrossing farCrossing default default).1.BBA_OK = true ∧
      ((DCOC_DAC_INIT_Cal_seek nearCrossing farCrossing default default).1.curr_tza_dac
          = 0x84 - 1 ∨
        (DCOC_DAC_INIT_Cal_seek nearCrossing farCrossing default default).1.curr_tza_dac
          = 0x84) ∧
      ((DCOC_DAC_INIT_Cal_seek nearCrossing farCrossing default default).1.curr_bba_dac
          = 27 - 1 ∨
        (DCOC_DAC_INIT_Cal_seek nearCrossing farCrossing default default).1.curr_bba_dac
          = 27) :=
  slope_seek_converges nearCrossing farCrossing default default 0x84 (fun _ => 27)
    (by intro t b ht hb; unfold nearCrossing isInt16; omega)
    (by intro t t' h1 _; unfold nearCrossing; omega)
    (by intro t b b' _ h1 _; unfold nearCrossing; omega)
    (by decide) (by decide) (by decide)
    (by
      intro t ht h1 h2
      rcases ht with ht | ht
      · subst ht
        exact absurd h2 (by decide)
      · subst ht
        decide)

/-- C8, counterexample. The function `farCrossing` is non-decreasing in each trim and
stays within `int16_t`; its sign changes between the coarse codes `0x89` and `0x8A`,
and at `0x8A` between the fine codes `0x17` and `0x18`, all within the trim range. Fed
to both channels, the loop ends after its 15 iterations with `BBA_OK` false and the
fine trim at `0x1C`, four codes above the crossing. The function `fallingCrossing` is
monotonic too, decreasing, with its sign change between the coarse codes `0x82` and
`0x83`: the loop steps away from the crossing and ends with `TZA_OK` false and the
coarse trim at `0x71`. -/
theorem slope_seek_not_converged :
    ((∀ t b, t ≤ 255 → b ≤ 255 → isInt16 (farCrossing t b)) ∧
      (∀ t t' b, t ≤ t' → farCrossing t b ≤ farCrossing t' b) ∧
      (∀ t b b', b ≤ b' → farCrossing t b ≤ farCrossing t b') ∧
      (farCrossing 0x89 0x20 < 0 ∧ 0 ≤ farCrossing 0x8A 0x20) ∧
      (farCrossing 0x8A 0x17 < 0 ∧ 0 ≤ farCrossing 0x8A 0x18) ∧
      (DCOC_DAC_INIT_Cal_seek farCrossing farCrossing default default).1.TZA_OK = true ∧
      (DCOC_DAC_INIT_Cal_seek farCrossing farCrossing default default).1.BBA_OK = false ∧
      (DCOC_DAC_INIT_Cal_seek farCrossing farCrossing default default).1.curr_tza_dac = 0x8A ∧
      (DCOC_DAC_INIT_Cal_seek farCrossing farCrossing default default).1.curr_bba_dac = 0x1C) ∧
    ((∀ t b, t ≤ 255 → b ≤ 255 → isInt16 (fallingCrossing t b)) ∧
      (∀ t t' b, t ≤ t' → fallingCrossing t' b ≤ fallingCrossing t b) ∧
      (∀ t b b', b ≤ b' → fallingCrossing t b' ≤ fallingCrossing t b) ∧
      (0 ≤ fallingCrossing 0x82 0x20 ∧ fallingCrossing 0x83 0x20 < 0) ∧
      (DCOC_DAC_INIT_Cal_seek fallingCrossing fallingCrossing default default).1.TZA_OK
        = false ∧
      (DCOC_DAC_INIT_Cal_seek fallingCrossing fallingCrossing default default).1.curr_tza_dac
        = 0x71) := by
  refine ⟨⟨?_, ?_, ?_, by decide, by decide, by decide, by decide, by decide, by decide⟩,
    ⟨?_, ?_, ?_, by decide, by decide, by decide⟩⟩
  · intro t b ht hb
    unfold farCrossing isInt16
    omega
  · intro t t' b h1
    unfold farCrossing
    omega
  · intro t b b' h1
    unfold farCrossing
    omega
  · intro t b ht hb
    unfold fallingCrossing isInt16
    omega
  · intro t t' b h1
    unfold fallingCrossing
    omega
  · intro t b b' h1
    unfold fallingCrossing
    omega

/-! ## Single-precision arithmetic -/

theorem roundHalfEven_intCast (z : ℤ) : roundHalfEven (z : ℚ) = z := by
  unfold roundHalfEven
  rw [Int.floor_intCast, sub_self]
  norm_num

theorem abs_roundHalfEven_sub_le (q : ℚ) : |(roundHalfEven q : ℚ) - q| ≤ 1 / 2 := by
  unfold roundHalfEven
  have h1 := Int.floor_le q
  have h2 := Int.lt_floor_add_one q
  rw [abs_le]
  split_ifs with a b c <;> push_cast <;> constructor <;> linarith

theorem roundHalfEven_eq_of_abs_lt (q : ℚ) (z : ℤ) (h : |q - z| < 1 / 2) :
    roundHalfEven q = z := by
  have h1 := abs_roundHalfEven_sub_le q
  rw [abs_le] at h1
  rw [abs_lt] at h
  have h3 : ((roundHalfEven q : ℤ) : ℚ) < ((z + 1 : ℤ) : ℚ) := by
    push_cast
    linarith [h1.1, h1.2, h.1, h.2]
  have h4 : ((z - 1 : ℤ) : ℚ) < ((roundHalfEven q : ℤ) : ℚ) := by
    push_cast
    linarith [h1.1, h1.2, h.1, h.2]
  have h5 := Int.cast_lt.1 h3
  have h6 := Int.cast_lt.1 h4
  omega

theorem roundHalfEven_tie (z : ℤ) :
    roundHalfEven ((z : ℚ) + 1 / 2) = if z % 2 = 0 then z else z + 1 := by
  have hf : ⌊(z : ℚ) + 1 / 2⌋ = z := by
    rw [Int.floor_eq_iff]
    constructor <;> linarith
  unfold roundHalfEven
  rw [hf]
  have h1 : ¬ ((z : ℚ) + 1 / 2 - z < 1 / 2) := by
    intro hc
    linarith
  have h2 : ¬ (1 / 2 < (z : ℚ) + 1 / 2 - z) := by
    intro hc
    linarith
  rw [if_neg h1, if_neg h2]

theorem roundHalfEven_nonneg (q : ℚ) (hq : 0 ≤ q) : 0 ≤ roundHalfEven q := by
  have h0 : 0 ≤ ⌊q⌋ := Int.floor_nonneg.2 hq
  unfold roundHalfEven
  split_ifs <;> omega

theorem f32ulp_pos (q : ℚ) : 0 < f32ulp q := by
  unfold f32ulp
  positivity

theorem f32round_zero : f32round 0 = 0 := by
  unfold f32round
  rw [zero_div]
  have := roundHalfEven_intCast 0
  rw [Int.cast_zero] at this
  rw [this]
  simp

theorem f32exp_eq (q : ℚ) (e : ℤ) (he : -126 ≤ e) (hlo : (2 : ℚ) ^ e ≤ |q|)
    (hhi : |q| < (2 : ℚ) ^ (e + 1)) : f32exp q = e := by
  have hpos : 0 < |q| := lt_of_lt_of_le (by positivity) hlo
  have h1 : Int.log 2 |q| < e + 1 :=
    (Int.lt_zpow_iff_log_lt (by norm_num) hpos).1 (by exact_mod_cast hhi)
  have h2 : e ≤ Int.log 2 |q| :=
    (Int.zpow_le_iff_le_log (by norm_num) hpos).1 (by exact_mod_cast hlo)
  unfold f32exp
  omega

/-- The rounding of a number whose binade is known. -/
theorem f32round_eq (q : ℚ) (e z : ℤ) (he : -126 ≤ e) (hlo : (2 : ℚ) ^ e ≤ |q|)
    (hhi : |q| < (2 : ℚ) ^ (e + 1)) (hz : roundHalfEven (q / (2 : ℚ) ^ (e - 23)) = z) :
    f32round q = (z : ℚ) * (2 : ℚ) ^ (e - 23) := by
  unfold f32round f32ulp
  rw [f32exp_eq q e he hlo hhi, hz]

theorem f32exp_le (q : ℚ) (k : ℤ) (hk : -126 ≤ k) (hq : q ≠ 0)
    (hlt : |q| < (2 : ℚ) ^ (k + 1)) :
    f32exp q ≤ k := by
  have hpos : 0 < |q| := abs_pos.2 hq
  have h1 : Int.log 2 |q| < k + 1 :=
    (Int.lt_zpow_iff_log_lt (by norm_num) hpos).1 (by exact_mod_cast hlt)
  unfold f32exp
  omega

/-- A number with a significand of at most 24 bits and an exponent in the range of
binary32 is not changed by the rounding. -/
theorem f32round_exact (m k : ℤ) (hm : |m| < 2 ^ 24) (hk : -149 ≤ k) :
    f32round ((m : ℚ) * (2 : ℚ) ^ k) = (m : ℚ) * (2 : ℚ) ^ k := by
  by_cases hm0 : m = 0
  · subst hm0
    simp [f32round_zero]
  have h2k : (0 : ℚ) < (2 : ℚ) ^ k := by positivity
  have hq : (m : ℚ) * (2 : ℚ) ^ k ≠ 0 := mul_ne_zero (Int.cast_ne_zero.2 hm0) h2k.ne'
  have hlt : |(m : ℚ) * (2 : ℚ) ^ k| < (2 : ℚ) ^ (k + 23 + 1) := by
    have hm' : |(m : ℚ)| < (2 : ℚ) ^ (24 : ℤ) := by
      have : ((|m| : ℤ) : ℚ) < (((2 : ℤ) ^ 24 : ℤ) : ℚ) := Int.cast_lt.2 hm
      rw [Int.cast_abs] at this
      norm_num at this ⊢
      exact this
    have he : k + 23 + 1 = 24 + k := by ring
    rw [abs_mul, abs_of_pos h2k, he, zpow_add₀ (by norm_num : (2 : ℚ) ≠ 0)]
    exact mul_lt_mul_of_pos_right hm' h2k
  have hexp := f32exp_le _ (k + 23) (by omega) hq hlt
  obtain ⟨n, hn⟩ : ∃ n : ℕ, (n : ℤ) = k + 23 - f32exp ((m : ℚ) * (2 : ℚ) ^ k) :=
    ⟨(k + 23 - f32exp ((m : ℚ) * (2 : ℚ) ^ k)).toNat, Int.toNat_of_nonneg (by omega)⟩
  have hk2 : k = (n : ℤ) + (f32exp ((m : ℚ) * (2 : ℚ) ^ k) - 23) := by omega
  have hdiv : (m : ℚ) * (2 : ℚ) ^ k / f32ulp ((m : ℚ) * (2 : ℚ) ^ k) =
      ((m * 2 ^ n : ℤ) : ℚ) := by
    unfold f32ulp
    rw [div_eq_iff (by positivity)]
    push_cast
    rw [mul_assoc, ← zpow_natCast, ← zpow_add₀ (by norm_num : (2 : ℚ) ≠ 0), ← hk2]
  unfold f32round
  rw [hdiv, roundHalfEven_intCast]
  unfold f32ulp
  push_cast
  rw [mul_assoc, ← zpow_natCast, ← zpow_add₀ (by norm_num : (2 : ℚ) ≠ 0), ← hk2]

/-- Integers of magnitude at most `2 ^ 24` are binary32 numbers. -/
theorem f32round_intCast (z : ℤ) (hz : |z| ≤ 2 ^ 24) : f32round (z : ℚ) = z := by
  by_cases h : |z| < 2 ^ 24
  · have := f32round_exact z 0 h (by norm_num)
    simpa using this
  · have h24 : |z| = 2 ^ 24 := le_antisymm hz (not_lt.1 h)
    rcases (abs_eq (by norm_num)).1 h24 with h1 | h1
    · have := f32round_exact (2 ^ 23) 1 (by norm_num) (by norm_num)
      rw [h1]
      norm_num at this ⊢
      exact this
    · have := f32round_exact (-2 ^ 23) 1 (by norm_num) (by norm_num)
      rw [h1]
      norm_num at this ⊢
      exact this

theorem f32_of_int_eq (z : ℤ) (hz : |z| ≤ 2 ^ 24) : f32_of_int z = z :=
  f32round_intCast z hz

/-! ## Sample acquisition: argument validation -/

/-- C3. `rx_dc_sample_average` returns 0 and writes neither output exactly when
`buffer_ptr`, `i_avg` or `q_avg` is NULL, and returns 1 (writing both outputs)
otherwise; `rx_dc_est_average` returns 0 and writes neither output exactly when `i_avg`
or `q_avg` is NULL, and returns 1 (writing both outputs) otherwise. -/
theorem average_null_check (i_avg q_avg : Bool) (buffer_ptr : Option (Nat → Int))
    (dc_est : Nat → Nat) (num_samples : Nat) :
    (((rx_dc_sample_average i_avg q_avg buffer_ptr num_samples).1 = 0 ∧
          (rx_dc_sample_average i_avg q_avg buffer_ptr num_samples).2.1 = none ∧
          (rx_dc_sample_average i_avg q_avg buffer_ptr num_samples).2.2 = none) ↔
        (buffer_ptr.isNone = true ∨ i_avg = false ∨ q_avg = false)) ∧
      (((rx_dc_sample_average i_avg q_avg buffer_ptr num_samples).1 = 1 ∧
          (rx_dc_sample_average i_avg q_avg buffer_ptr num_samples).2.1.isSome = true ∧
          (rx_dc_sample_average i_avg q_avg buffer_ptr num_samples).2.2.isSome = true) ↔
        ¬ (buffer_ptr.isNone = true ∨ i_avg = false ∨ q_avg = false)) ∧
      (((rx_dc_est_average i_avg q_avg dc_est num_samples).1 = 0 ∧
          (rx_dc_est_average i_avg q_avg dc_est num_samples).2.1 = none ∧
          (rx_dc_est_average i_avg q_avg dc_est num_samples).2.2 = none) ↔
        (i_avg = false ∨ q_avg = false)) ∧
      (((rx_dc_est_average i_avg q_avg dc_est num_samples).1 = 1 ∧
          (rx_dc_est_average i_avg q_avg dc_est num_samples).2.1.isSome = true ∧
          (rx_dc_est_average i_avg q_avg dc_est num_samples).2.2.isSome = true) ↔
        ¬ (i_avg = false ∨ q_avg = false)) := by
  unfold rx_dc_sample_average rx_dc_est_average
  cases buffer_ptr <;> cases i_avg <;> cases q_avg <;> simp

/-! ## DCOC step calibration: the plausibility band -/

theorem tza_stages_status (cfg : Nat → Nat) (bbf_dcoc_step : Nat) (temp_step : ℚ) :
    ∀ n, n ≤ 11 → (tza_stages cfg bbf_dcoc_step temp_step n).1 = 1 := by
  intro n
  induction n with
  | zero =>
    intro _
    rfl
  | succ n ih =>
    intro hn
    have h10 : n ≤ 10 := by omega
    simp only [tza_stages, tza_stage]
    by_cases h0 : n = 0
    · rw [if_pos h0]
      exact ih (by omega)
    · rw [if_neg h0, if_pos h10]
      exact ih (by omega)

/-- C10. `calc_tza_step_recip` reports success exactly when the quantized step
`bbf_dcoc_step` lies in the plausibility band (`250 < bbf_dcoc_step < 305`); for every
step outside the band it reports failure and writes none of `DCOC_BBA_STEP` and
`DCOC_TZA_STEP_0` to `DCOC_TZA_STEP_10`. In particular for the step 400 obtained from
`temp_step = 50.0`. -/
theorem calc_tza_step_recip_band (cfg : Nat → Nat) (temp_step : ℚ) (bbf_dcoc_step : Nat) :
    ((calc_tza_step_recip cfg temp_step bbf_dcoc_step).1 = 1 ↔
        (250 < bbf_dcoc_step ∧ bbf_dcoc_step < 305)) ∧
      ((calc_tza_step_recip cfg temp_step bbf_dcoc_step).1 = 0 ↔
        ¬ (250 < bbf_dcoc_step ∧ bbf_dcoc_step < 305)) ∧
      (¬ (250 < bbf_dcoc_step ∧ bbf_dcoc_step < 305) →
        (calc_tza_step_recip cfg temp_step bbf_dcoc_step).2.1 = []) ∧
      (calc_tza_step_recip cfg 50 400).1 = 0 ∧
      (calc_tza_step_recip cfg 50 400).2.1 = [] := by
  unfold calc_tza_step_recip
  by_cases hb : 250 < bbf_dcoc_step ∧ bbf_dcoc_step < 305
  · simp only [if_pos hb, tza_stages_status cfg bbf_dcoc_step temp_step 11 (le_refl 11)]
    simp [hb]
  · simp only [if_neg hb]
    simp [hb]

theorem roundHalfEven_neg (x : ℚ) : roundHalfEven (-x) = -roundHalfEven x := by
  by_cases hx : ((⌊x⌋ : ℤ) : ℚ) = x
  · have h1 : roundHalfEven x = ⌊x⌋ := by
      conv_lhs => rw [← hx]
      exact roundHalfEven_intCast _
    have h2 : roundHalfEven (-x) = -⌊x⌋ := by
      have : -x = ((-⌊x⌋ : ℤ) : ℚ) := by
        push_cast
        rw [hx]
      rw [this]
      exact roundHalfEven_intCast _
    rw [h1, h2]
  · have hlt : ((⌊x⌋ : ℤ) : ℚ) < x := lt_of_le_of_ne (Int.floor_le x) hx
    have hlt2 := Int.lt_floor_add_one x
    have hfl : ⌊-x⌋ = -⌊x⌋ - 1 := by
      rw [Int.floor_eq_iff]
      push_cast
      constructor <;> linarith
    unfold roundHalfEven
    rw [hfl]
    push_cast
    split_ifs <;> first | omega | (exfalso; linarith)

theorem f32exp_neg (q : ℚ) : f32exp (-q) = f32exp q := by
  unfold f32exp
  rw [abs_neg]

theorem f32round_neg (q : ℚ) : f32round (-q) = -f32round q := by
  unfold f32round f32ulp
  rw [f32exp_neg, neg_div, roundHalfEven_neg]
  push_cast
  ring

theorem f32round_nonneg (q : ℚ) (hq : 0 ≤ q) : 0 ≤ f32round q := by
  unfold f32round
  have h1 : 0 ≤ q / f32ulp q := div_nonneg hq (f32ulp_pos q).le
  have h2 : (0 : ℚ) ≤ (roundHalfEven (q / f32ulp q) : ℚ) :=
    Int.cast_nonneg.2 (roundHalfEven_nonneg _ h1)
  exact mul_nonneg h2 (f32ulp_pos q).le

theorem abs_f32round (q : ℚ) : |f32round q| = f32round |q| := by
  by_cases hq : 0 ≤ q
  · rw [abs_of_nonneg hq, abs_of_nonneg (f32round_nonneg q hq)]
  · have hq' : 0 ≤ -q := by linarith
    have h1 := f32round_nonneg (-q) hq'
    rw [f32round_neg] at h1
    rw [abs_of_neg (by linarith : q < 0), f32round_neg, abs_of_nonpos (by linarith)]

/-- The rounding error is at most half the distance between neighbours. -/
theorem abs_f32round_sub_le (q : ℚ) : |f32round q - q| ≤ f32ulp q / 2 := by
  have hu := f32ulp_pos q
  have h1 := abs_roundHalfEven_sub_le (q / f32ulp q)
  have h2 : f32round q - q = ((roundHalfEven (q / f32ulp q) : ℚ) - q / f32ulp q) * f32ulp q := by
    unfold f32round
    field_simp
  rw [h2, abs_mul, abs_of_pos hu]
  have := mul_le_mul_of_nonneg_right h1 hu.le
  linarith

theorem f32ulp_le (q : ℚ) (k : ℤ) (hk : -126 ≤ k) (hq : q ≠ 0)
    (hlt : |q| < (2 : ℚ) ^ (k + 1)) :
    f32ulp q ≤ (2 : ℚ) ^ (k - 23) := by
  unfold f32ulp
  apply zpow_le_zpow_right₀ (by norm_num)
  have := f32exp_le q k hk hq hlt
  omega

/-- The rounding of a number whose binade is known and which is not halfway between
two neighbours. -/
theorem f32round_eval (q : ℚ) (e z : ℤ) (he : -126 ≤ e) (hlo : (2 : ℚ) ^ e ≤ |q|)
    (hhi : |q| < (2 : ℚ) ^ (e + 1)) (hz : |q / (2 : ℚ) ^ (e - 23) - z| < 1 / 2) :
    f32round q = (z : ℚ) * (2 : ℚ) ^ (e - 23) :=
  f32round_eq q e z he hlo hhi (roundHalfEven_eq_of_abs_lt _ z hz)

/-- The rounding of a number whose binade is known and which is halfway between two
neighbours. -/
theorem f32round_eval_tie (q : ℚ) (e z : ℤ) (he : -126 ≤ e) (hlo : (2 : ℚ) ^ e ≤ |q|)
    (hhi : |q| < (2 : ℚ) ^ (e + 1)) (hz : q / (2 : ℚ) ^ (e - 23) = (z : ℚ) + 1 / 2) :
    f32round q = ((if z % 2 = 0 then z else z + 1 : ℤ) : ℚ) * (2 : ℚ) ^ (e - 23) := by
  apply f32round_eq q e _ he hlo hhi
  rw [hz]
  exact roundHalfEven_tie z

theorem wrapInt16_of_isInt16 (x : Int) (h : isInt16 x) : wrapInt16 x = x := by
  unfold isInt16 at h
  unfold wrapInt16 toInt16 toUInt16
  split <;> omega

/-! ## DCOC step calibration: the normalized step -/

/-- The value of `calc_dcoc_dac_step` when the difference of the measurements fits in
`int16_t`. -/
theorem calc_dcoc_dac_step_of_fit (meas base : GAIN_CALC_TBL_ENTRY2_T)
    (hd : isInt16 (meas.internal_measurement - base.internal_measurement))
    (hs8 : -128 ≤ meas.step_value ∧ meas.step_value ≤ 127) :
    calc_dcoc_dac_step meas base =
      f32round (|((meas.internal_measurement - base.internal_measurement : Int) : ℚ)| /
        |(meas.step_value : ℚ)|) := by
  unfold calc_dcoc_dac_step
  simp only []
  rw [wrapInt16_of_isInt16 _ hd]
  have h1 : f32_of_int (meas.internal_measurement - base.internal_measurement) =
      ((meas.internal_measurement - base.internal_measurement : Int) : ℚ) := by
    apply f32_of_int_eq
    unfold isInt16 at hd
    rw [abs_le]
    constructor <;> omega
  have h2 : f32_of_int meas.step_value = (meas.step_value : ℚ) := by
    apply f32_of_int_eq
    rw [abs_le]
    constructor <;> omega
  rw [h1, h2]
  unfold f32div
  rw [← abs_div, ← abs_f32round]
  split_ifs with hneg
  · rw [abs_of_neg hneg]
  · rw [abs_of_nonneg (not_lt.1 hneg)]

/-- C9 (amended). For every perturbed measurement `m` and baseline measurement `b` whose
difference `m - b` fits in `int16_t` (as it does for all 12-bit measurements) and every
nonzero perturbation step value `s` (an `int8_t`), `calc_dcoc_dac_step` returns the
`float32_t` nearest to `|m - b| / |s|`, which is never negative; it is exactly
`|m - b| / |s|` when `|s|` is a power of two, as for the steps `-16` and `+16` of the
sweep. -/
theorem calc_dcoc_dac_step_correct (meas base : GAIN_CALC_TBL_ENTRY2_T)
    (hd : isInt16 (meas.internal_measurement - base.internal_measurement))
    (_hs : meas.step_value ≠ 0)
    (hs8 : -128 ≤ meas.step_value ∧ meas.step_value ≤ 127) :
    calc_dcoc_dac_step meas base =
        f32round (|((meas.internal_measurement - base.internal_measurement : Int) : ℚ)| /
          |(meas.step_value : ℚ)|) ∧
      0 ≤ calc_dcoc_dac_step meas base ∧
      (∀ k : ℕ, |meas.step_value| = 2 ^ k →
        calc_dcoc_dac_step meas base =
          |((meas.internal_measurement - base.internal_measurement : Int) : ℚ)| /
            |(meas.step_value : ℚ)|) := by
  have heq := calc_dcoc_dac_step_of_fit meas base hd hs8
  refine ⟨heq, ?_, fun k hk => ?_⟩
  · rw [heq]
    exact f32round_nonneg _ (div_nonneg (abs_nonneg _) (abs_nonneg _))
  · rw [heq]
    have hk7 : k ≤ 7 := by
      by_contra hc
      have h8 : 8 ≤ k := by omega
      have h256 : (2 : ℤ) ^ 8 ≤ 2 ^ k := pow_le_pow_right₀ (by norm_num) h8
      have habs : |meas.step_value| ≤ 128 := by
        rw [abs_le]
        constructor <;> omega
      rw [hk] at habs
      norm_num at h256
      omega
    have hsq : |(meas.step_value : ℚ)| = (2 : ℚ) ^ k := by
      rw [← Int.cast_abs, hk]
      push_cast
      rfl
    rw [hsq]
    have hexact := f32round_exact
      |meas.internal_measurement - base.internal_measurement| (-(k : ℤ))
      (by
        unfold isInt16 at hd
        rw [abs_abs, abs_lt]
        constructor <;> omega)
      (by omega)
    rw [Int.cast_abs, zpow_neg, zpow_natCast, ← div_eq_mul_inv] at hexact
    exact hexact

/-- Witness of C9 (amended): the measurement `-600` at the step `-16`, against the
baseline `1`, gives the step `601 / 16`. -/
theorem calc_dcoc_dac_step_correct_witness :
    calc_dcoc_dac_step ⟨-16, -600⟩ ⟨0, 1⟩ =
        f32round (|(((-600 : Int) - 1 : Int) : ℚ)| / |((-16 : Int) : ℚ)|) ∧
      0 ≤ calc_dcoc_dac_step ⟨-16, -600⟩ ⟨0, 1⟩ ∧
      calc_dcoc_dac_step ⟨-16, -600⟩ ⟨0, 1⟩ =
        |(((-600 : Int) - 1 : Int) : ℚ)| / |((-16 : Int) : ℚ)| :=
  have hw := calc_dcoc_dac_step_correct ⟨-16, -600⟩ ⟨0, 1⟩ (by decide) (by decide)
    (by decide)
  ⟨hw.1, hw.2.1, hw.2.2 4 (by decide)⟩

/-- C9, counterexample. With the measurement `32767` and the baseline `-32768` (both
`int16_t`) at the step `16`, the difference wraps to `-1` in the `int16_t` variable
`norm_dc_code`: the function returns `1 / 16`, not `|m - b| / |s| = 65535 / 16`. And
with the difference `1` at the step `3` the function returns the `float32_t`
`11184811 / 33554432`, not `1 / 3`. -/
theorem calc_dcoc_dac_step_wraps :
    calc_dcoc_dac_step ⟨16, 32767⟩ ⟨0, -32768⟩ = 1 / 16 ∧
      |(((32767 : Int) - (-32768) : Int) : ℚ)| / |((16 : Int) : ℚ)| = 65535 / 16 ∧
      calc_dcoc_dac_step ⟨3, 1⟩ ⟨0, 0⟩ = 11184811 / 33554432 ∧
      |(((1 : Int) - 0 : Int) : ℚ)| / |((3 : Int) : ℚ)| = 1 / 3 := by
  have hw : wrapInt16 ((32767 : Int) - (-32768)) = -1 := by decide
  have h1 : f32_of_int (-1) = ((-1 : Int) : ℚ) := f32_of_int_eq (-1) (by norm_num)
  have h16 : f32_of_int 16 = ((16 : Int) : ℚ) := f32_of_int_eq 16 (by norm_num)
  have hr1 : f32round (-1 / 16) = -1 / 16 := by
    rw [f32round_eval (-1 / 16) (-4) (-8388608) (by norm_num) (by norm_num [abs_of_neg])
      (by norm_num [abs_of_neg]) (by norm_num)]
    norm_num
  have hw2 : wrapInt16 ((1 : Int) - 0) = 1 := by decide
  have h1' : f32_of_int 1 = ((1 : Int) : ℚ) := f32_of_int_eq 1 (by norm_num)
  have h3 : f32_of_int 3 = ((3 : Int) : ℚ) := f32_of_int_eq 3 (by norm_num)
  have hr3 : f32round (1 / 3) = 11184811 / 33554432 := by
    rw [f32round_eval (1 / 3) (-2) 11184811 (by norm_num) (by norm_num [abs_of_pos])
      (by norm_num [abs_of_pos]) (by norm_num [abs_lt])]
    norm_num
  refine ⟨?_, by norm_num, ?_, by norm_num⟩
  · have e : (((-1 : Int) : ℚ) / ((16 : Int) : ℚ)) = -1 / 16 := by norm_num
    unfold calc_dcoc_dac_step
    simp only [hw, h1, h16, f32div]
    rw [e, hr1]
    norm_num
  · have e : (((1 : Int) : ℚ) / ((3 : Int) : ℚ)) = 1 / 3 := by norm_num
    unfold calc_dcoc_dac_step
    simp only [hw2, h1', h3, f32div]
    rw [e, hr3]
    norm_num

theorem roundf_intCast (z : ℤ) : roundf (z : ℚ) = z := by
  unfold roundf
  have h1 : ⌊(z : ℚ) + 1 / 2⌋ = z := by
    rw [Int.floor_eq_iff]
    constructor <;> linarith
  have h2 : ⌊-(z : ℚ) + 1 / 2⌋ = -z := by
    rw [Int.floor_eq_iff]
    push_cast
    constructor <;> linarith
  split_ifs
  · rw [h1]
  · rw [h2]
    push_cast
    ring

theorem truncToInt_intCast (z : ℤ) : truncToInt (z : ℚ) = z := by
  unfold truncToInt
  split_ifs
  · exact Int.floor_intCast z
  · exact Int.ceil_intCast z

theorem quantize_step_fifty : quantize_step 50 = 400 := by
  have h1 : f32mul 50 8 = ((400 : ℤ) : ℚ) := by
    unfold f32mul
    have := f32round_intCast 400 (by norm_num)
    norm_num at this ⊢
    exact this
  unfold quantize_step f32_to_uint32
  rw [h1, roundf_intCast, truncToInt_intCast]
  decide

/-- Witness of C10: the averaged step `50.0` is quantized to 400, which is out of the
band: failure, and no register is written. -/
theorem calc_tza_step_recip_band_witness :
    quantize_step 50 = 400 ∧
      (calc_tza_step_recip exampleTzaConfig 50 (quantize_step 50)).1 = 0 ∧
      (calc_tza_step_recip exampleTzaConfig 50 (quantize_step 50)).2.1 = [] := by
  have hw := calc_tza_step_recip_band exampleTzaConfig 50 400
  rw [quantize_step_fifty]
  exact ⟨rfl, hw.2.1.2 (by decide), hw.2.2.1 (by decide)⟩

/-! ## Sample acquisition: the averages -/

theorem sampleSum_bounds (buf : Nat → Int) (offset : Nat) (ho : offset ≤ 1) (n : Nat)
    (hbuf : ∀ k, k < 2 * n → isInt16 (buf k)) :
    ∀ i, i ≤ n → -32768 * (i : Int) ≤ sampleSum buf offset i ∧
      sampleSum buf offset i ≤ 32767 * (i : Int) := by
  intro i
  induction i with
  | zero =>
    intro _
    simp [sampleSum]
  | succ i ih =>
    intro hi
    have h1 := ih (by omega)
    have h2 := hbuf (2 * i + offset) (by omega)
    unfold isInt16 at h2
    simp only [sampleSum]
    push_cast
    omega

/-- Up to 512 samples the running totals are exact: every partial sum is an integer of
magnitude at most `2 ^ 24`. -/
theorem sample_sums_exact (buf : Nat → Int) (n : Nat) (hn : n ≤ 512)
    (hbuf : ∀ k, k < 2 * n → isInt16 (buf k)) :
    ∀ i, i ≤ n → sample_sums buf i =
      ((sampleSum buf 0 i : ℚ), (sampleSum buf 1 i : ℚ)) := by
  intro i
  induction i with
  | zero =>
    intro _
    simp [sample_sums, sampleSum]
  | succ i ih =>
    intro hi
    have hsum : ∀ offset, offset ≤ 1 →
        f32add (sampleSum buf offset i : ℚ) (f32_of_int (buf (2 * i + offset))) =
          ((sampleSum buf offset (i + 1) : Int) : ℚ) := by
      intro offset ho
      have hb := hbuf (2 * i + offset) (by omega)
      unfold isInt16 at hb
      have h1 : f32_of_int (buf (2 * i + offset)) = ((buf (2 * i + offset) : Int) : ℚ) := by
        apply f32_of_int_eq
        rw [abs_le]
        constructor <;> omega
      have h2 := sampleSum_bounds buf offset ho n hbuf (i + 1) hi
      simp only [sampleSum] at h2 ⊢
      push_cast at h2
      rw [h1]
      unfold f32add
      rw [← Int.cast_add]
      apply f32round_intCast
      rw [abs_le]
      constructor <;> omega
    simp only [sample_sums]
    rw [ih (by omega)]
    have e0 := hsum 0 (by omega)
    have e1 := hsum 1 (by omega)
    simp only [Nat.add_zero] at e0
    simp only [e0, e1]

theorem abs_truncToInt_sub_lt (q : ℚ) : |(truncToInt q : ℚ) - q| < 1 := by
  unfold truncToInt
  rw [abs_lt]
  split_ifs
  · have h1 := Int.floor_le q
    have h2 := Int.lt_floor_add_one q
    constructor <;> linarith
  · have h1 := Int.le_ceil q
    have h2 := Int.ceil_lt_add_one q
    constructor <;> linarith

/-- Dividing an exact sum of at most 512 samples and converting to an integer gives the
exact quotient truncated toward zero: the rounding of the division is too small to
cross an integer. -/
theorem truncToInt_f32div (s : Int) (n : Nat) (hn1 : 1 ≤ n) (hn : n ≤ 512)
    (hlo : -32768 * (n : Int) ≤ s) (hhi : s ≤ 32767 * (n : Int)) :
    truncToInt (f32div (s : ℚ) (f32_of_int (n : Int))) = truncToInt ((s : ℚ) / (n : ℚ)) := by
  have hnq : (0 : ℚ) < (n : ℚ) := by exact_mod_cast hn1
  have hn512 : (n : ℚ) ≤ 512 := by exact_mod_cast hn
  have hfn : f32_of_int (n : Int) = (n : ℚ) := by
    have := f32_of_int_eq (n : Int) (by rw [abs_le]; constructor <;> omega)
    simpa using this
  rw [hfn]
  unfold f32div
  have hqlo : (-32768 : ℚ) ≤ (s : ℚ) / (n : ℚ) := by
    rw [le_div_iff₀ hnq]
    exact_mod_cast hlo
  have hqhi : (s : ℚ) / (n : ℚ) ≤ 32767 := by
    rw [div_le_iff₀ hnq]
    exact_mod_cast hhi
  by_cases hint : ((⌊(s : ℚ) / (n : ℚ)⌋ : Int) : ℚ) = (s : ℚ) / (n : ℚ)
  · have hfl : |⌊(s : ℚ) / (n : ℚ)⌋| ≤ 2 ^ 24 := by
      have h1 : ((⌊(s : ℚ) / (n : ℚ)⌋ : Int) : ℚ) ≤ ((32767 : Int) : ℚ) := by
        rw [hint]
        exact_mod_cast hqhi
      have h2 : ((-32768 : Int) : ℚ) ≤ ((⌊(s : ℚ) / (n : ℚ)⌋ : Int) : ℚ) := by
        rw [hint]
        exact_mod_cast hqlo
      have h3 := Int.cast_le.1 h1
      have h4 := Int.cast_le.1 h2
      rw [abs_le]
      constructor <;> omega
    have := f32round_intCast _ hfl
    rw [hint] at this
    rw [this]
  · have hflt : ((⌊(s : ℚ) / (n : ℚ)⌋ : Int) : ℚ) < (s : ℚ) / (n : ℚ) :=
      lt_of_le_of_ne (Int.floor_le _) hint
    have hlt1 := Int.lt_floor_add_one ((s : ℚ) / (n : ℚ))
    -- the quotient is at least `1 / n` away from the integers around it
    have hgap1 : (1 : ℚ) ≤ (s : ℚ) - ⌊(s : ℚ) / (n : ℚ)⌋ * (n : ℚ) := by
      have h1 : (0 : ℚ) < (s : ℚ) - ⌊(s : ℚ) / (n : ℚ)⌋ * (n : ℚ) := by
        have := (lt_div_iff₀ hnq).1 hflt
        linarith
      have h2 : (0 : ℚ) < ((s - ⌊(s : ℚ) / (n : ℚ)⌋ * (n : Int) : Int) : ℚ) := by
        push_cast
        exact h1
      have h3 : (0 : Int) < s - ⌊(s : ℚ) / (n : ℚ)⌋ * (n : Int) := Int.cast_pos.1 h2
      have h4 : ((1 : Int) : ℚ) ≤ ((s - ⌊(s : ℚ) / (n : ℚ)⌋ * (n : Int) : Int) : ℚ) :=
        Int.cast_le.2 (by omega)
      push_cast at h4
      exact h4
    have hgap2 : (1 : ℚ) ≤ (⌊(s : ℚ) / (n : ℚ)⌋ + 1) * (n : ℚ) - (s : ℚ) := by
      have h1 : (0 : ℚ) < (⌊(s : ℚ) / (n : ℚ)⌋ + 1) * (n : ℚ) - (s : ℚ) := by
        have := (div_lt_iff₀ hnq).1 hlt1
        linarith
      have h2 : (0 : ℚ) < (((⌊(s : ℚ) / (n : ℚ)⌋ + 1) * (n : Int) - s : Int) : ℚ) := by
        push_cast
        exact h1
      have h3 : (0 : Int) < (⌊(s : ℚ) / (n : ℚ)⌋ + 1) * (n : Int) - s := Int.cast_pos.1 h2
      have h4 : ((1 : Int) : ℚ) ≤ (((⌊(s : ℚ) / (n : ℚ)⌋ + 1) * (n : Int) - s : Int) : ℚ) :=
        Int.cast_le.2 (by omega)
      push_cast at h4
      exact h4
    have hd1 : 1 / 512 ≤ (s : ℚ) / (n : ℚ) - ⌊(s : ℚ) / (n : ℚ)⌋ := by
      rw [div_sub' _ _ _ hnq.ne', le_div_iff₀ hnq]
      nlinarith
    have hd2 : 1 / 512 ≤ (⌊(s : ℚ) / (n : ℚ)⌋ : ℚ) + 1 - (s : ℚ) / (n : ℚ) := by
      rw [sub_div' _ _ _ hnq.ne', le_div_iff₀ hnq]
      nlinarith
    -- the quotient is not an integer, hence not zero and of magnitude below `2 ^ 15`
    have hq0 : (s : ℚ) / (n : ℚ) ≠ 0 := by
      intro h0
      apply hint
      rw [h0]
      simp
    have hne : (s : ℚ) / (n : ℚ) ≠ -32768 := by
      intro h0
      apply hint
      rw [h0]
      have : ⌊(-32768 : ℚ)⌋ = -32768 := by
        have := Int.floor_intCast (α := ℚ) (-32768)
        simpa using this
      rw [this]
      norm_num
    have habs : |(s : ℚ) / (n : ℚ)| < (2 : ℚ) ^ ((14 : ℤ) + 1) := by
      rw [abs_lt]
      norm_num
      constructor
      · exact lt_of_le_of_ne hqlo (Ne.symm hne)
      · linarith
    have hulp := f32ulp_le _ 14 (by norm_num) hq0 habs
    have herr := abs_f32round_sub_le ((s : ℚ) / (n : ℚ))
    have hulp2 : f32ulp ((s : ℚ) / (n : ℚ)) / 2 ≤ 1 / 1024 := by
      norm_num at hulp
      linarith
    rw [abs_le] at herr
    have hr1 : ((⌊(s : ℚ) / (n : ℚ)⌋ : Int) : ℚ) < f32round ((s : ℚ) / (n : ℚ)) := by
      linarith [herr.1]
    have hr2 : f32round ((s : ℚ) / (n : ℚ)) < (⌊(s : ℚ) / (n : ℚ)⌋ : ℚ) + 1 := by
      linarith [herr.2]
    unfold truncToInt
    by_cases hpos : 0 ≤ (s : ℚ) / (n : ℚ)
    · have hf0 : (0 : ℚ) ≤ ((⌊(s : ℚ) / (n : ℚ)⌋ : Int) : ℚ) :=
        Int.cast_nonneg.2 (Int.floor_nonneg.2 hpos)
      have hrpos : 0 ≤ f32round ((s : ℚ) / (n : ℚ)) := by linarith
      rw [if_pos hpos, if_pos hrpos, Int.floor_eq_iff]
      exact ⟨hr1.le, hr2⟩
    · have hneg : (s : ℚ) / (n : ℚ) < 0 := not_le.1 hpos
      have hf1 : ⌊(s : ℚ) / (n : ℚ)⌋ + 1 ≤ 0 := by
        have : ((⌊(s : ℚ) / (n : ℚ)⌋ : Int) : ℚ) < ((0 : Int) : ℚ) := by
          push_cast
          linarith
        have := Int.cast_lt.1 this
        omega
      have hf1q : ((⌊(s : ℚ) / (n : ℚ)⌋ : Int) : ℚ) + 1 ≤ 0 := by exact_mod_cast hf1
      have hrneg : ¬ (0 ≤ f32round ((s : ℚ) / (n : ℚ))) := by
        intro hc
        linarith
      have hc1 : ⌈f32round ((s : ℚ) / (n : ℚ))⌉ = ⌊(s : ℚ) / (n : ℚ)⌋ + 1 := by
        rw [Int.ceil_eq_iff]
        push_cast
        constructor <;> linarith
      have hc2 : ⌈(s : ℚ) / (n : ℚ)⌉ = ⌊(s : ℚ) / (n : ℚ)⌋ + 1 := by
        rw [Int.ceil_eq_iff]
        push_cast
        constructor <;> linarith
      rw [if_neg hpos, if_neg hrneg, hc1, hc2]

theorem isInt16_truncToInt (q : ℚ) (hlo : -32768 ≤ q) (hhi : q ≤ 32767) :
    isInt16 (truncToInt q) := by
  unfold truncToInt isInt16
  split_ifs with h0
  · constructor
    · have := Int.floor_nonneg.2 h0
      omega
    · have h1 : ((⌊q⌋ : Int) : ℚ) ≤ ((32767 : Int) : ℚ) := by
        push_cast
        exact le_trans (Int.floor_le q) hhi
      exact Int.cast_le.1 h1
  · constructor
    · have h1 : ((-32768 : Int) : ℚ) ≤ ((⌈q⌉ : Int) : ℚ) := by
        push_cast
        exact le_trans hlo (Int.le_ceil q)
      exact Int.cast_le.1 h1
    · have : ⌈q⌉ ≤ 0 := Int.ceil_le.2 (by push_cast; linarith)
      omega

/-- The value written by `rx_dc_sample_average` for one channel, up to 512 samples. -/
theorem f32_to_int16_mean (s : Int) (n : Nat) (hn1 : 1 ≤ n) (hn : n ≤ 512)
    (hlo : -32768 * (n : Int) ≤ s) (hhi : s ≤ 32767 * (n : Int)) :
    f32_to_int16 (f32div (s : ℚ) (f32_of_int (n : Int))) =
      truncToInt ((s : ℚ) / (n : ℚ)) := by
  have hnq : (0 : ℚ) < (n : ℚ) := by exact_mod_cast hn1
  unfold f32_to_int16
  rw [truncToInt_f32div s n hn1 hn hlo hhi]
  apply wrapInt16_of_isInt16
  apply isInt16_truncToInt
  · rw [le_div_iff₀ hnq]
    exact_mod_cast hlo
  · rw [div_le_iff₀ hnq]
    exact_mod_cast hhi

/-- C2 (amended). For every buffer of `2 * N` interleaved `int16_t` samples with
`1 <= N <= 512` and non-null pointers, `rx_dc_sample_average` returns 1 and writes to
`*i_avg` and `*q_avg` the exact arithmetic means of the `N` I samples (even positions)
and of the `N` Q samples (odd positions), truncated toward zero: each differs by less
than 1 LSB from the exact mean. -/
theorem rx_dc_sample_average_mean (buf : Nat → Int) (n : Nat) (hn1 : 1 ≤ n) (hn : n ≤ 512)
    (hbuf : ∀ k, k < 2 * n → isInt16 (buf k)) :
    rx_dc_sample_average true true (some buf) n =
        (1, some (truncToInt ((sampleSum buf 0 n : ℚ) / (n : ℚ))),
          some (truncToInt ((sampleSum buf 1 n : ℚ) / (n : ℚ)))) ∧
      |(truncToInt ((sampleSum buf 0 n : ℚ) / (n : ℚ)) : ℚ) -
          (sampleSum buf 0 n : ℚ) / (n : ℚ)| < 1 ∧
      |(truncToInt ((sampleSum buf 1 n : ℚ) / (n : ℚ)) : ℚ) -
          (sampleSum buf 1 n : ℚ) / (n : ℚ)| < 1 := by
  refine ⟨?_, abs_truncToInt_sub_lt _, abs_truncToInt_sub_lt _⟩
  have h0 := sampleSum_bounds buf 0 (by omega) n hbuf n (le_refl n)
  have h1 := sampleSum_bounds buf 1 (by omega) n hbuf n (le_refl n)
  unfold rx_dc_sample_average
  simp only [Bool.and_self, if_true]
  rw [sample_sums_exact buf n hn hbuf n (le_refl n)]
  simp only []
  rw [f32_to_int16_mean _ n hn1 hn h0.1 h0.2, f32_to_int16_mean _ n hn1 hn h1.1 h1.2]

/-- Witness of C2 (amended): the four sample pairs of `exampleCapture`. -/
theorem rx_dc_sample_average_mean_witness :
    rx_dc_sample_average true true (some exampleCapture) 4 =
        (1, some (truncToInt ((sampleSum exampleCapture 0 4 : ℚ) / ((4 : Nat) : ℚ))),
          some (truncToInt ((sampleSum exampleCapture 1 4 : ℚ) / ((4 : Nat) : ℚ)))) ∧
      |(truncToInt ((sampleSum exampleCapture 0 4 : ℚ) / ((4 : Nat) : ℚ)) : ℚ) -
          (sampleSum exampleCapture 0 4 : ℚ) / ((4 : Nat) : ℚ)| < 1 ∧
      |(truncToInt ((sampleSum exampleCapture 1 4 : ℚ) / ((4 : Nat) : ℚ)) : ℚ) -
          (sampleSum exampleCapture 1 4 : ℚ) / ((4 : Nat) : ℚ)| < 1 :=
  rx_dc_sample_average_mean exampleCapture 4 (by decide) (by decide) (by decide)

theorem stalledCapture_isInt16 (k : Nat) : isInt16 (stalledCapture k) := by
  unfold stalledCapture isInt16
  split_ifs <;> omega

theorem sampleSum_stalledCapture_I : ∀ i, i ≤ 512 →
    sampleSum stalledCapture 0 i = -32768 * (i : Int) := by
  intro i
  induction i with
  | zero =>
    intro _
    rfl
  | succ i ih =>
    intro hi
    have h1 : stalledCapture (2 * i + 0) = -32768 := by
      unfold stalledCapture
      rw [if_neg (by omega), if_pos (by omega)]
    simp only [sampleSum]
    rw [ih (by omega), h1]
    push_cast
    ring

theorem sampleSum_stalledCapture_Q : ∀ i, sampleSum stalledCapture 1 i = 0 := by
  intro i
  induction i with
  | zero => rfl
  | succ i ih =>
    have h1 : stalledCapture (2 * i + 1) = 0 := by
      unfold stalledCapture
      rw [if_pos (by omega)]
    simp only [sampleSum]
    rw [ih, h1]
    rfl

/-- With 513 sample pairs, the I samples being 512 times `-32768` and then `-449`, the
running total reaches `-2 ^ 24` and the last sample is rounded away in part: the
function writes `-32704` to `*i_avg`, while the exact mean of the I samples is `-32705`,
one full LSB away. -/
theorem stalledCapture_average :
    rx_dc_sample_average true true (some stalledCapture) 513 = (1, some (-32704), some 0) ∧
      (sampleSum stalledCapture 0 513 : ℚ) / ((513 : Nat) : ℚ) = -32705 ∧
      ¬ (|((-32704 : Int) : ℚ) - (sampleSum stalledCapture 0 513 : ℚ) / ((513 : Nat) : ℚ)|
        < 1) := by
  have hsum : sampleSum stalledCapture 0 513 = -16777665 := by
    have h1 : stalledCapture (2 * 512 + 0) = -449 := by decide
    have h2 : sampleSum stalledCapture 0 513 =
        sampleSum stalledCapture 0 512 + stalledCapture (2 * 512 + 0) := rfl
    rw [h2, sampleSum_stalledCapture_I 512 (le_refl 512), h1]
    norm_num
  have h512 := sample_sums_exact stalledCapture 512 (le_refl 512)
    (fun k _ => stalledCapture_isInt16 k) 512 (le_refl 512)
  rw [sampleSum_stalledCapture_I 512 (le_refl 512), sampleSum_stalledCapture_Q 512] at h512
  have hI : stalledCapture (2 * 512) = -449 := by decide
  have hQ : stalledCapture (2 * 512 + 1) = 0 := by decide
  have h449 : f32_of_int (-449) = ((-449 : Int) : ℚ) := f32_of_int_eq (-449) (by norm_num)
  have h0 : f32_of_int 0 = ((0 : Int) : ℚ) := f32_of_int_eq 0 (by norm_num)
  have h513 : f32_of_int ((513 : Nat) : Int) = 513 := by
    have := f32_of_int_eq 513 (by norm_num)
    norm_num at this ⊢
    exact this
  have hr1 : f32round (-16777665) = -16777664 := by
    rw [f32round_eval_tie (-16777665) 24 (-8388833) (by norm_num) (by norm_num [abs_of_neg])
      (by norm_num [abs_of_neg]) (by norm_num)]
    norm_num
  have hr2 : f32round (-16777664 / 513) = -16744959 / 512 := by
    rw [f32round_eval (-16777664 / 513) 14 (-16744959) (by norm_num)
      (by norm_num [abs_of_neg]) (by norm_num [abs_of_neg]) (by norm_num [abs_lt])]
    norm_num
  have hsums : sample_sums stalledCapture 513 = (-16777664, 0) := by
    have : sample_sums stalledCapture 513 =
        (f32add (sample_sums stalledCapture 512).1 (f32_of_int (stalledCapture (2 * 512))),
          f32add (sample_sums stalledCapture 512).2
            (f32_of_int (stalledCapture (2 * 512 + 1)))) := rfl
    rw [this, h512, hI, hQ, h449, h0]
    simp only [f32add]
    norm_num [hr1, f32round_zero]
  have ht : truncToInt (-16744959 / 512) = -32704 := by
    unfold truncToInt
    rw [if_neg (by norm_num), Int.ceil_eq_iff]
    norm_num
  refine ⟨?_, ?_, ?_⟩
  · unfold rx_dc_sample_average
    simp only [Bool.and_self, if_true, hsums, h513, f32div, f32_to_int16]
    rw [hr2, ht]
    norm_num [f32round_zero, truncToInt]
    decide
  · rw [hsum]
    norm_num
  · rw [hsum]
    norm_num [abs_lt]

theorem lossyCapture_isInt16 (k : Nat) : isInt16 (lossyCapture k) := by
  unfold lossyCapture isInt16
  split_ifs <;> omega

theorem sampleSum_lossyCapture_I : ∀ i, i ≤ 512 →
    sampleSum lossyCapture 0 i = -32768 * (i : Int) := by
  intro i
  induction i with
  | zero =>
    intro _
    rfl
  | succ i ih =>
    intro hi
    have h1 : lossyCapture (2 * i + 0) = -32768 := by
      unfold lossyCapture
      rw [if_neg (by omega), if_pos (by omega)]
    simp only [sampleSum]
    rw [ih (by omega), h1]
    push_cast
    ring

theorem sampleSum_lossyCapture_Q : ∀ i, sampleSum lossyCapture 1 i = 0 := by
  intro i
  induction i with
  | zero => rfl
  | succ i ih =>
    have h1 : lossyCapture (2 * i + 1) = 0 := by
      unfold lossyCapture
      rw [if_pos (by omega)]
    simp only [sampleSum]
    rw [ih, h1]
    rfl

/-- With 515 sample pairs, the I samples being 512 times `-32768` and then `-1`, `-1`
and `-453`, the function writes `-32577` to `*i_avg`, while the exact mean of the I
samples is `-16777671 / 515`, below `-32578`: more than one LSB away. -/
theorem lossyCapture_average :
    rx_dc_sample_average true true (some lossyCapture) 515 = (1, some (-32577), some 0) ∧
      (sampleSum lossyCapture 0 515 : ℚ) / ((515 : Nat) : ℚ) = -16777671 / 515 ∧
      1 < |((-32577 : Int) : ℚ) -
        (sampleSum lossyCapture 0 515 : ℚ) / ((515 : Nat) : ℚ)| := by
  have hsum : sampleSum lossyCapture 0 515 = -16777671 := by
    have h1 : lossyCapture (2 * 512 + 0) = -1 := by decide
    have h2 : lossyCapture (2 * 513 + 0) = -1 := by decide
    have h3 : lossyCapture (2 * 514 + 0) = -453 := by decide
    have e : sampleSum lossyCapture 0 515 =
        sampleSum lossyCapture 0 512 + lossyCapture (2 * 512 + 0) +
          lossyCapture (2 * 513 + 0) + lossyCapture (2 * 514 + 0) := rfl
    rw [e, sampleSum_lossyCapture_I 512 (le_refl 512), h1, h2, h3]
    norm_num
  have h512 := sample_sums_exact lossyCapture 512 (le_refl 512)
    (fun k _ => lossyCapture_isInt16 k) 512 (le_refl 512)
  rw [sampleSum_lossyCapture_I 512 (le_refl 512), sampleSum_lossyCapture_Q 512] at h512
  have hI1 : lossyCapture (2 * 512) = -1 := by decide
  have hI2 : lossyCapture (2 * 513) = -1 := by decide
  have hI3 : lossyCapture (2 * 514) = -453 := by decide
  have hQ1 : lossyCapture (2 * 512 + 1) = 0 := by decide
  have hQ2 : lossyCapture (2 * 513 + 1) = 0 := by decide
  have hQ3 : lossyCapture (2 * 514 + 1) = 0 := by decide
  have hm1 : f32_of_int (-1) = ((-1 : Int) : ℚ) := f32_of_int_eq (-1) (by norm_num)
  have hm453 : f32_of_int (-453) = ((-453 : Int) : ℚ) := f32_of_int_eq (-453) (by norm_num)
  have h0 : f32_of_int 0 = ((0 : Int) : ℚ) := f32_of_int_eq 0 (by norm_num)
  have h515 : f32_of_int ((515 : Nat) : Int) = 515 := by
    have := f32_of_int_eq 515 (by norm_num)
    norm_num at this ⊢
    exact this
  have hr1 : f32round (-16777217) = -16777216 := by
    rw [f32round_eval_tie (-16777217) 24 (-8388609) (by norm_num) (by norm_num [abs_of_neg])
      (by norm_num [abs_of_neg]) (by norm_num)]
    norm_num
  have hr2 : f32round (-16777669) = -16777668 := by
    rw [f32round_eval_tie (-16777669) 24 (-8388835) (by norm_num) (by norm_num [abs_of_neg])
      (by norm_num [abs_of_neg]) (by norm_num)]
    norm_num
  have hr3 : f32round (-16777668 / 515) = -16679934 / 512 := by
    rw [f32round_eval (-16777668 / 515) 14 (-16679934) (by norm_num)
      (by norm_num [abs_of_neg]) (by norm_num [abs_of_neg]) (by norm_num [abs_lt])]
    norm_num
  have hs513 : sample_sums lossyCapture 513 = (-16777216, 0) := by
    have : sample_sums lossyCapture 513 =
        (f32add (sample_sums lossyCapture 512).1 (f32_of_int (lossyCapture (2 * 512))),
          f32add (sample_sums lossyCapture 512).2
            (f32_of_int (lossyCapture (2 * 512 + 1)))) := rfl
    rw [this, h512, hI1, hQ1, hm1, h0]
    simp only [f32add]
    norm_num [hr1, f32round_zero]
  have hs514 : sample_sums lossyCapture 514 = (-16777216, 0) := by
    have : sample_sums lossyCapture 514 =
        (f32add (sample_sums lossyCapture 513).1 (f32_of_int (lossyCapture (2 * 513))),
          f32add (sample_sums lossyCapture 513).2
            (f32_of_int (lossyCapture (2 * 513 + 1)))) := rfl
    rw [this, hs513, hI2, hQ2, hm1, h0]
    simp only [f32add]
    norm_num [hr1, f32round_zero]
  have hs515 : sample_sums lossyCapture 515 = (-16777668, 0) := by
    have : sample_sums lossyCapture 515 =
        (f32add (sample_sums lossyCapture 514).1 (f32_of_int (lossyCapture (2 * 514))),
          f32add (sample_sums lossyCapture 514).2
            (f32_of_int (lossyCapture (2 * 514 + 1)))) := rfl
    rw [this, hs514, hI3, hQ3, hm453, h0]
    simp only [f32add]
    norm_num [hr2, f32round_zero]
  have ht : truncToInt (-16679934 / 512) = -32577 := by
    unfold truncToInt
    rw [if_neg (by norm_num), Int.ceil_eq_iff]
    norm_num
  refine ⟨?_, ?_, ?_⟩
  · unfold rx_dc_sample_average
    simp only [Bool.and_self, if_true, hs515, h515, f32div, f32_to_int16]
    rw [hr3, ht]
    norm_num [f32round_zero, truncToInt]
    decide
  · rw [hsum]
    norm_num
  · rw [hsum]
    norm_num [lt_abs]

/-- C2, counterexample. Above 512 sample pairs the running total in `float32_t` loses
low bits. With 513 pairs (`stalledCapture`) the value written to `*i_avg` is `-32704`
while the exact mean is `-32705`: the difference is one full LSB, not less. With 515
pairs (`lossyCapture`) the value written is `-32577` while the exact mean is below
`-32578`: the difference exceeds one LSB. -/
theorem rx_dc_sample_average_off_by_one :
    (rx_dc_sample_average true true (some stalledCapture) 513 = (1, some (-32704), some 0) ∧
      (sampleSum stalledCapture 0 513 : ℚ) / ((513 : Nat) : ℚ) = -32705 ∧
      ¬ (|((-32704 : Int) : ℚ) - (sampleSum stalledCapture 0 513 : ℚ) / ((513 : Nat) : ℚ)|
        < 1)) ∧
    (rx_dc_sample_average true true (some lossyCapture) 515 = (1, some (-32577), some 0) ∧
      (sampleSum lossyCapture 0 515 : ℚ) / ((515 : Nat) : ℚ) = -16777671 / 515 ∧
      1 < |((-32577 : Int) : ℚ) - (sampleSum lossyCapture 0 515 : ℚ) / ((515 : Nat) : ℚ)|) :=
  ⟨stalledCapture_average, lossyCapture_average⟩

/-! ## DCOC step calibration: the two band checks -/

theorem shortIQ_step_recip_status (cfg : Nat → Nat) (temp_step : ℚ) (bbf_dcoc_step : Nat) :
    (shortIQ_step_recip cfg temp_step bbf_dcoc_step).1 = xcvrStatus_t.gXcvrSuccess_c ↔
      (265 < bbf_dcoc_step ∧ bbf_dcoc_step < 305) := by
  unfold shortIQ_step_recip
  by_cases hb : 265 < bbf_dcoc_step ∧ bbf_dcoc_step < 305
  · simp only [if_pos hb, true_iff]
    exact hb
  · rw [if_neg hb]
    constructor
    · intro h
      cases h
    · intro h
      exact absurd h hb

theorem calc_tza_step_recip_status (cfg : Nat → Nat) (temp_step : ℚ) (bbf_dcoc_step : Nat) :
    (calc_tza_step_recip cfg temp_step bbf_dcoc_step).1 = 1 ↔
      (250 < bbf_dcoc_step ∧ bbf_dcoc_step < 305) := by
  unfold calc_tza_step_recip
  by_cases hb : 250 < bbf_dcoc_step ∧ bbf_dcoc_step < 305
  · simp only [if_pos hb, tza_stages_status cfg bbf_dcoc_step temp_step 11 (le_refl 11),
      true_iff]
    exact hb
  · rw [if_neg hb]
    constructor
    · intro h
      cases h
    · intro h
      exact absurd h hb

/-- C11 (amended). The band check of `rx_bba_dcoc_dac_trim_shortIQ`
(`265 < bbf_dcoc_step < 305`) and the band check of `calc_tza_step_recip`
(`250 < bbf_dcoc_step < 305`) give the same accept/reject result for every quantized
step except 251 to 265: they agree at the upper boundary, where both reject 305 and both
accept 304, and just above the lower boundary of the narrower band, where both accept
266. -/
theorem band_checks_agree (cfg : Nat → Nat) (temp_step : ℚ) (bbf_dcoc_step : Nat)
    (h : bbf_dcoc_step ≤ 250 ∨ 265 < bbf_dcoc_step) :
    ((shortIQ_step_recip cfg temp_step bbf_dcoc_step).1 = xcvrStatus_t.gXcvrSuccess_c ↔
        (calc_tza_step_recip cfg temp_step bbf_dcoc_step).1 = 1) ∧
      (shortIQ_step_recip cfg temp_step 305).1 = xcvrStatus_t.gXcvrTrimFailure_c ∧
      (calc_tza_step_recip cfg temp_step 305).1 = 0 ∧
      (shortIQ_step_recip cfg temp_step 304).1 = xcvrStatus_t.gXcvrSuccess_c ∧
      (calc_tza_step_recip cfg temp_step 304).1 = 1 ∧
      (shortIQ_step_recip cfg temp_step 266).1 = xcvrStatus_t.gXcvrSuccess_c ∧
      (calc_tza_step_recip cfg temp_step 266).1 = 1 := by
  refine ⟨?_, ?_, ?_, ?_, ?_, ?_, ?_⟩
  · rw [shortIQ_step_recip_status, calc_tza_step_recip_status]
    omega
  · simp [shortIQ_step_recip]
  · simp [calc_tza_step_recip]
  · exact (shortIQ_step_recip_status cfg temp_step 304).2 (by decide)
  · exact (calc_tza_step_recip_status cfg temp_step 304).2 (by decide)
  · exact (shortIQ_step_recip_status cfg temp_step 266).2 (by decide)
  · exact (calc_tza_step_recip_status cfg temp_step 266).2 (by decide)

/-- Witness of C11 (amended): the averaged step `38.125`, quantized to 305, is rejected
by both checks. -/
theorem band_checks_agree_witness :
    ((shortIQ_step_recip exampleTzaConfig (305 / 8) 305).1 = xcvrStatus_t.gXcvrSuccess_c ↔
        (calc_tza_step_recip exampleTzaConfig (305 / 8) 305).1 = 1) ∧
      (shortIQ_step_recip exampleTzaConfig (305 / 8) 305).1 =
        xcvrStatus_t.gXcvrTrimFailure_c ∧
      (calc_tza_step_recip exampleTzaConfig (305 / 8) 305).1 = 0 :=
  ⟨(band_checks_agree exampleTzaConfig (305 / 8) 305 (Or.inr (by decide))).1,
    (band_checks_agree exampleTzaConfig (305 / 8) 305 (Or.inr (by decide))).2.1,
    (band_checks_agree exampleTzaConfig (305 / 8) 305 (Or.inr (by decide))).2.2.1⟩

/-- Counterexample to C11: at the quantized step 265 (the averaged step `33.125`), the
lower boundary of the band of `rx_bba_dcoc_dac_trim_shortIQ`, the two checks differ:
`rx_bba_dcoc_dac_trim_shortIQ` rejects the step and writes no register,
`calc_tza_step_recip` accepts it and writes the twelve step registers. -/
theorem band_checks_differ_at_265 :
    (shortIQ_step_recip exampleTzaConfig (265 / 8) 265).1 = xcvrStatus_t.gXcvrTrimFailure_c ∧
      (shortIQ_step_recip exampleTzaConfig (265 / 8) 265).2.1 = [] ∧
      (calc_tza_step_recip exampleTzaConfig (265 / 8) 265).1 = 1 ∧
      (calc_tza_step_recip exampleTzaConfig (265 / 8) 265).2.1.length = 12 := by
  refine ⟨by simp [shortIQ_step_recip], by simp [shortIQ_step_recip],
    (calc_tza_step_recip_status exampleTzaConfig (265 / 8) 265).2 (by decide), ?_⟩
  simp [calc_tza_step_recip]

/-! ## DCOC step calibration: the saved registers -/

theorem write_same (regs : RegFile) (r : Reg) (v : Nat) : (regs.write r v) r = v := by
  simp [RegFile.write]

theorem write_other (regs : RegFile) (r r' : Reg) (v : Nat) (h : r' ≠ r) :
    (regs.write r v) r' = regs r' := by
  simp [RegFile.write, h]

/-- C14. For every register layout, every initial register file, every table and every
sequence of measurements, after `rx_bba_dcoc_dac_trim_DCest` and after
`rx_bba_dcoc_dac_trim_shortIQ` each of the saved registers `DCOC_CTRL_0`, `DCOC_CTRL_1`,
`RX_DIG_CTRL`, `DCOC_CAL_GAIN` and `AGC_CTRL_1` holds its value of before the call,
whatever the status returned. -/
theorem trims_restore_saved_registers (hdr : XcvrHeader) (cfg : Nat → Nat)
    (dc_est : Nat → Nat → Nat) (capture : Nat → Nat → Int) (regs : RegFile) (tbl : MeasTbl)
    (r : Reg)
    (hr : r ∈ [Reg.DCOC_CTRL_0, Reg.DCOC_CTRL_1, Reg.RX_DIG_CTRL, Reg.DCOC_CAL_GAIN,
      Reg.AGC_CTRL_1]) :
    (rx_bba_dcoc_dac_trim_DCest hdr cfg dc_est regs tbl).regs r = regs r ∧
      (rx_bba_dcoc_dac_trim_shortIQ hdr cfg capture regs tbl).regs r = regs r := by
  simp only [List.mem_cons, List.mem_singleton, List.not_mem_nil, or_false] at hr
  rcases hr with h | h | h | h | h <;> subst h <;> exact ⟨rfl, rfl⟩

/-- Witness of C14: from the example register file, whose `RX_DIG_CTRL` is `0x3810`, both
trims leave `0x3810` in `RX_DIG_CTRL`, for the estimates that move with the DAC and for
the estimates that do not. -/
theorem trims_restore_saved_registers_witness :
    ((rx_bba_dcoc_dac_trim_DCest exampleHeader exampleTzaConfig exampleDcEst exampleRegs
        zeroTbl).regs Reg.RX_DIG_CTRL = 0x3810 ∧
      (rx_bba_dcoc_dac_trim_shortIQ exampleHeader exampleTzaConfig (fun _ => exampleCapture)
        exampleRegs zeroTbl).regs Reg.RX_DIG_CTRL = 0x3810) ∧
    ((rx_bba_dcoc_dac_trim_DCest exampleHeader exampleTzaConfig flatDcEst exampleRegs
        zeroTbl).regs Reg.RX_DIG_CTRL = 0x3810 ∧
      (rx_bba_dcoc_dac_trim_shortIQ exampleHeader exampleTzaConfig (fun _ => exampleCapture)
        exampleRegs zeroTbl).regs Reg.RX_DIG_CTRL = 0x3810) :=
  ⟨trims_restore_saved_registers exampleHeader exampleTzaConfig exampleDcEst
      (fun _ => exampleCapture) exampleRegs zeroTbl Reg.RX_DIG_CTRL (by decide),
    trims_restore_saved_registers exampleHeader exampleTzaConfig flatDcEst
      (fun _ => exampleCapture) exampleRegs zeroTbl Reg.RX_DIG_CTRL (by decide)⟩

/-! ## DCOC step calibration: the committed step and reciprocal -/

theorem abs_wrapInt16_le (x : Int) : |wrapInt16 x| ≤ 32768 := by
  unfold wrapInt16 toInt16 toUInt16
  rw [abs_le]
  split <;> omega

/-- With a step of `-16` or `+16`, `calc_dcoc_dac_step` is exact: a sixteenth of the
magnitude of the difference stored in `norm_dc_code`. -/
theorem calc_dcoc_dac_step_sixteen (meas base : GAIN_CALC_TBL_ENTRY2_T)
    (hs : meas.step_value = -16 ∨ meas.step_value = 16) :
    calc_dcoc_dac_step meas base =
      (((wrapInt16 (meas.internal_measurement - base.internal_measurement)).natAbs : ℕ) : ℚ) /
        16 := by
  have hb := abs_wrapInt16_le (meas.internal_measurement - base.internal_measurement)
  unfold calc_dcoc_dac_step
  simp only []
  generalize wrapInt16 (meas.internal_measurement - base.internal_measurement) = d at hb
  have hd : f32_of_int d = (d : ℚ) := f32_of_int_eq d (by omega)
  have hcast : ((d.natAbs : ℕ) : ℚ) = |(d : ℚ)| := by
    rw [Nat.cast_natAbs, Int.cast_abs]
  have hlt : |d| < 2 ^ 24 := by omega
  have hlt' : |(-d)| < 2 ^ 24 := by rw [abs_neg]; omega
  rw [hd, hcast]
  rcases hs with hs | hs
  · have h16 : f32_of_int meas.step_value = -16 := by
      rw [hs]
      have := f32_of_int_eq (-16) (by norm_num)
      simpa using this
    have hdiv : f32div (d : ℚ) (-16) = -(d : ℚ) / 16 := by
      unfold f32div
      have := f32round_exact (-d) (-4) hlt' (by norm_num)
      have e : (d : ℚ) / -16 = ((-d : ℤ) : ℚ) * (2 : ℚ) ^ (-4 : ℤ) := by
        push_cast
        norm_num
        ring
      rw [e, this]
      push_cast
      norm_num
      ring
    rw [h16, hdiv]
    split_ifs with hneg
    · rw [abs_of_nonneg (by linarith)]
      ring
    · rw [abs_of_nonpos (by linarith)]
  · have h16 : f32_of_int meas.step_value = 16 := by
      rw [hs]
      have := f32_of_int_eq 16 (by norm_num)
      simpa using this
    have hdiv : f32div (d : ℚ) 16 = (d : ℚ) / 16 := by
      unfold f32div
      have := f32round_exact d (-4) hlt (by norm_num)
      have e : (d : ℚ) / 16 = ((d : ℤ) : ℚ) * (2 : ℚ) ^ (-4 : ℤ) := by
        norm_num
        ring
      rw [e, this]
    rw [h16, hdiv]
    split_ifs with hneg
    · rw [abs_of_nonpos (by linarith)]
      ring
    · rw [abs_of_nonneg (by linarith)]

/-- A multiple of `2 ^ k` with a numerator below `2 ^ 24` is a binary32 number. -/
theorem f32round_natCast_mul (n : ℕ) (k : ℤ) (hn : n < 2 ^ 24) (hk : -149 ≤ k) :
    f32round ((n : ℚ) * (2 : ℚ) ^ k) = (n : ℚ) * (2 : ℚ) ^ k := by
  have := f32round_exact (n : ℤ) k (by rw [abs_of_nonneg (by positivity)]; exact_mod_cast hn) hk
  simpa using this
theorem natAbs_wrapInt16_le (x : Int) : (wrapInt16 x).natAbs ≤ 32768 := by
  have := abs_le.1 (abs_wrapInt16_le x)
  omega

/-- The averaged step is exact: the sum of the four magnitudes over 64. -/
theorem averaged_step_eq (tbl : MeasTbl) (hs : sweepSteps tbl) :
    averaged_step tbl = (normSum tbl : ℚ) / 64 := by
  obtain ⟨h1, h2, h3, h4⟩ := hs
  unfold averaged_step normSum
  simp only []
  rw [calc_dcoc_dac_step_sixteen _ _ (Or.inl h1), calc_dcoc_dac_step_sixteen _ _ (Or.inl h2),
    calc_dcoc_dac_step_sixteen _ _ (Or.inr h3), calc_dcoc_dac_step_sixteen _ _ (Or.inr h4)]
  have ha := natAbs_wrapInt16_le
    ((tbl IQ_t.I_CHANNEL DAC_SWEEP_STEP2_t.BBF_NEG).internal_measurement -
      (tbl IQ_t.I_CHANNEL DAC_SWEEP_STEP2_t.NOMINAL2).internal_measurement)
  have hb := natAbs_wrapInt16_le
    ((tbl IQ_t.I_CHANNEL DAC_SWEEP_STEP2_t.BBF_POS).internal_measurement -
      (tbl IQ_t.I_CHANNEL DAC_SWEEP_STEP2_t.NOMINAL2).internal_measurement)
  have hc := natAbs_wrapInt16_le
    ((tbl IQ_t.Q_CHANNEL DAC_SWEEP_STEP2_t.BBF_NEG).internal_measurement -
      (tbl IQ_t.Q_CHANNEL DAC_SWEEP_STEP2_t.NOMINAL2).internal_measurement)
  have hd := natAbs_wrapInt16_le
    ((tbl IQ_t.Q_CHANNEL DAC_SWEEP_STEP2_t.BBF_POS).internal_measurement -
      (tbl IQ_t.Q_CHANNEL DAC_SWEEP_STEP2_t.NOMINAL2).internal_measurement)
  generalize (wrapInt16 ((tbl IQ_t.I_CHANNEL DAC_SWEEP_STEP2_t.BBF_NEG).internal_measurement -
      (tbl IQ_t.I_CHANNEL DAC_SWEEP_STEP2_t.NOMINAL2).internal_measurement)).natAbs = a at *
  generalize (wrapInt16 ((tbl IQ_t.I_CHANNEL DAC_SWEEP_STEP2_t.BBF_POS).internal_measurement -
      (tbl IQ_t.I_CHANNEL DAC_SWEEP_STEP2_t.NOMINAL2).internal_measurement)).natAbs = b at *
  generalize (wrapInt16 ((tbl IQ_t.Q_CHANNEL DAC_SWEEP_STEP2_t.BBF_NEG).internal_measurement -
      (tbl IQ_t.Q_CHANNEL DAC_SWEEP_STEP2_t.NOMINAL2).internal_measurement)).natAbs = c at *
  generalize (wrapInt16 ((tbl IQ_t.Q_CHANNEL DAC_SWEEP_STEP2_t.BBF_POS).internal_measurement -
      (tbl IQ_t.Q_CHANNEL DAC_SWEEP_STEP2_t.NOMINAL2).internal_measurement)).natAbs = d at *
  have e1 : f32add ((a : ℚ) / 16) ((b : ℚ) / 16) = ((a + b : ℕ) : ℚ) / 16 := by
    unfold f32add
    have := f32round_natCast_mul (a + b) (-4) (by omega) (by norm_num)
    have e : (a : ℚ) / 16 + (b : ℚ) / 16 = ((a + b : ℕ) : ℚ) * (2 : ℚ) ^ (-4 : ℤ) := by
      push_cast
      norm_num
      ring
    rw [e, this]
    norm_num
    ring
  have e2 : f32add (((a + b : ℕ) : ℚ) / 16) ((c : ℚ) / 16) = ((a + b + c : ℕ) : ℚ) / 16 := by
    unfold f32add
    have := f32round_natCast_mul (a + b + c) (-4) (by omega) (by norm_num)
    have e : ((a + b : ℕ) : ℚ) / 16 + (c : ℚ) / 16 =
        ((a + b + c : ℕ) : ℚ) * (2 : ℚ) ^ (-4 : ℤ) := by
      push_cast
      norm_num
      ring
    rw [e, this]
    norm_num
    ring
  have e3 : f32add (((a + b + c : ℕ) : ℚ) / 16) ((d : ℚ) / 16) =
      ((a + b + c + d : ℕ) : ℚ) / 16 := by
    unfold f32add
    have := f32round_natCast_mul (a + b + c + d) (-4) (by omega) (by norm_num)
    have e : ((a + b + c : ℕ) : ℚ) / 16 + (d : ℚ) / 16 =
        ((a + b + c + d : ℕ) : ℚ) * (2 : ℚ) ^ (-4 : ℤ) := by
      push_cast
      norm_num
      ring
    rw [e, this]
    norm_num
    ring
  have e4 : f32div (((a + b + c + d : ℕ) : ℚ) / 16) 4 = ((a + b + c + d : ℕ) : ℚ) / 64 := by
    unfold f32div
    have := f32round_natCast_mul (a + b + c + d) (-6) (by omega) (by norm_num)
    have e : ((a + b + c + d : ℕ) : ℚ) / 16 / 4 =
        ((a + b + c + d : ℕ) : ℚ) * (2 : ℚ) ^ (-6 : ℤ) := by
      norm_num
      ring
    rw [e, this]
    norm_num
    ring
  rw [e1, e2, e3, e4]

theorem normSum_le (tbl : MeasTbl) : normSum tbl ≤ 131072 := by
  unfold normSum
  have ha := natAbs_wrapInt16_le
    ((tbl IQ_t.I_CHANNEL DAC_SWEEP_STEP2_t.BBF_NEG).internal_measurement -
      (tbl IQ_t.I_CHANNEL DAC_SWEEP_STEP2_t.NOMINAL2).internal_measurement)
  have hb := natAbs_wrapInt16_le
    ((tbl IQ_t.I_CHANNEL DAC_SWEEP_STEP2_t.BBF_POS).internal_measurement -
      (tbl IQ_t.I_CHANNEL DAC_SWEEP_STEP2_t.NOMINAL2).internal_measurement)
  have hc := natAbs_wrapInt16_le
    ((tbl IQ_t.Q_CHANNEL DAC_SWEEP_STEP2_t.BBF_NEG).internal_measurement -
      (tbl IQ_t.Q_CHANNEL DAC_SWEEP_STEP2_t.NOMINAL2).internal_measurement)
  have hd := natAbs_wrapInt16_le
    ((tbl IQ_t.Q_CHANNEL DAC_SWEEP_STEP2_t.BBF_POS).internal_measurement -
      (tbl IQ_t.Q_CHANNEL DAC_SWEEP_STEP2_t.NOMINAL2).internal_measurement)
  omega
/-- The value of `roundf` on a nonnegative quotient of natural numbers. -/
theorem roundf_natCast_div (a b : ℕ) (hb : 0 < b) :
    roundf ((a : ℚ) / b) = (((2 * a + b) / (2 * b) : ℕ) : ℚ) := by
  have hbq : (0 : ℚ) < b := by exact_mod_cast hb
  have h0 : (0 : ℚ) ≤ (a : ℚ) / b := by positivity
  unfold roundf
  rw [if_pos h0]
  have hdm := Nat.div_add_mod (2 * a + b) (2 * b)
  have hlt := Nat.mod_lt (2 * a + b) (by omega : 0 < 2 * b)
  generalize (2 * a + b) / (2 * b) = n at hdm
  generalize (2 * a + b) % (2 * b) = r at hdm hlt
  have hq : 2 * (a : ℚ) + b = 2 * b * n + r := by exact_mod_cast hdm.symm
  have hr : (r : ℚ) < 2 * b := by exact_mod_cast hlt
  have hr0 : (0 : ℚ) ≤ (r : ℚ) := by positivity
  have hfl : ⌊(a : ℚ) / b + 1 / 2⌋ = (n : ℤ) := by
    rw [Int.floor_eq_iff]
    have e : (a : ℚ) / b + 1 / 2 = (2 * b * n + r) / (2 * b) := by
      rw [← hq]
      field_simp
      ring
    rw [e]
    have h2b : (0 : ℚ) < 2 * b := by linarith
    constructor
    · rw [le_div_iff₀ h2b]
      push_cast
      nlinarith
    · rw [div_lt_iff₀ h2b]
      push_cast
      nlinarith
  rw [hfl]
  simp

theorem f32_to_uint32_natCast (n : ℕ) (hn : n < 4294967296) :
    f32_to_uint32 ((n : ℚ)) = n := by
  unfold f32_to_uint32
  have : truncToInt ((n : ℚ)) = (n : ℤ) := by
    have := truncToInt_intCast (n : ℤ)
    simpa using this
  rw [this]
  omega

/-- The quantization of a step that is a multiple of `1 / 64`: no rounding error. -/
theorem quantize_step_dyadic (K : ℕ) (hK : K < 2 ^ 24) :
    quantize_step ((K : ℚ) / 64) = (K + 4) / 8 ∧
      (((K + 4) / 8 : ℕ) : ℚ) = roundf ((K : ℚ) / 64 * 8) := by
  have hr : roundf ((K : ℚ) / 8) = (((K + 4) / 8 : ℕ) : ℚ) := by
    have := roundf_natCast_div K 8 (by norm_num)
    have e : (2 * K + 8) / (2 * 8) = (K + 4) / 8 := by omega
    rw [e] at this
    exact_mod_cast this
  have hm : f32mul ((K : ℚ) / 64) 8 = (K : ℚ) / 8 := by
    unfold f32mul
    have := f32round_natCast_mul K (-3) hK (by norm_num)
    have e : (K : ℚ) / 64 * 8 = (K : ℚ) * (2 : ℚ) ^ (-3 : ℤ) := by
      norm_num
      ring
    rw [e, this]
    norm_num
    ring
  constructor
  · unfold quantize_step
    rw [hm, hr]
    apply f32_to_uint32_natCast
    omega
  · have e : (K : ℚ) / 64 * 8 = (K : ℚ) / 8 := by ring
    rw [e, hr]
/-- No quotient `2 ^ 21 / K` with `K` below `2 ^ 13` is halfway between two integers. -/
theorem recip_not_halfway (K n : ℕ) (hK : K < 8192) (h : 4194304 + K = 2 * K * n) : False := by
  have hn : 1 ≤ n := by
    rcases Nat.eq_zero_or_pos n with h0 | h0
    · subst h0
      omega
    · exact h0
  obtain ⟨m, rfl⟩ : ∃ m, n = m + 1 := ⟨n - 1, by omega⟩
  have hm : 2 ^ 22 = (2 * m + 1) * K := by
    have : 2 * K * (m + 1) = (2 * m + 1) * K + K := by ring
    rw [this] at h
    norm_num
    omega
  have hd : (2 * m + 1) ∣ 2 ^ 22 := ⟨K, hm⟩
  have hc : Nat.Coprime (2 * m + 1) (2 ^ 22) :=
    Nat.Coprime.pow_right 22 (Odd.coprime_two_right ⟨m, rfl⟩)
  have h1 := Nat.Coprime.eq_one_of_dvd hc hd
  have hm0 : m = 0 := by omega
  subst hm0
  norm_num at hm
  omega

/-- The reciprocal of a step that is a multiple of `1 / 64`, in the range of the
plausibility band: the rounding of the quotient to binary32 does not change the integer
that `roundf` yields. -/
theorem recip_dyadic (K : ℕ) (hlo : 1024 < K) (hhi : K < 8192) :
    f32_to_uint32 (roundf (f32div 0x8000 ((K : ℚ) / 64))) = (4194304 + K) / (2 * K) ∧
      (((4194304 + K) / (2 * K) : ℕ) : ℚ) = roundf (0x8000 / ((K : ℚ) / 64)) := by
  have hKq : (0 : ℚ) < K := by
    have : 0 < K := by omega
    exact_mod_cast this
  have hKlo : (1024 : ℚ) < K := by exact_mod_cast hlo
  have hKhi : (K : ℚ) < 8192 := by exact_mod_cast hhi
  have eq : (0x8000 : ℚ) / ((K : ℚ) / 64) = ((2097152 : ℕ) : ℚ) / K := by
    field_simp
    norm_num
  have hexact : roundf (((2097152 : ℕ) : ℚ) / K) = (((4194304 + K) / (2 * K) : ℕ) : ℚ) := by
    have := roundf_natCast_div 2097152 K (by omega)
    norm_num at this ⊢
    exact this
  refine ⟨?_, by rw [eq, hexact]⟩
  -- the division and mod facts
  have hdm := Nat.div_add_mod (4194304 + K) (2 * K)
  have hlt := Nat.mod_lt (4194304 + K) (by omega : 0 < 2 * K)
  have hne : (4194304 + K) % (2 * K) ≠ 0 := by
    intro h0
    rw [h0, Nat.add_zero] at hdm
    exact recip_not_halfway K _ hhi hdm.symm
  have hnlt : (4194304 + K) / (2 * K) < 4294967296 := by
    have : (4194304 + K) / (2 * K) ≤ 4194304 + K := Nat.div_le_self _ _
    omega
  generalize (4194304 + K) / (2 * K) = n at hdm hnlt ⊢
  generalize (4194304 + K) % (2 * K) = r at hdm hlt hne
  have hq : (4194304 : ℚ) + K = 2 * K * n + r := by exact_mod_cast hdm.symm
  have hr1 : (1 : ℚ) ≤ r := by
    have : 1 ≤ r := by omega
    exact_mod_cast this
  have hr2 : (r : ℚ) + 1 ≤ 2 * K := by
    have : r + 1 ≤ 2 * K := by omega
    exact_mod_cast this
  -- the rounded quotient
  unfold f32div
  rw [eq]
  set q : ℚ := ((2097152 : ℕ) : ℚ) / K with hqdef
  have hqpos : 0 < q := by positivity
  have hq2 : q * K = 2097152 := by
    rw [hqdef]
    field_simp
  have hqlt : |q| < (2 : ℚ) ^ ((10 : ℤ) + 1) := by
    rw [abs_of_pos hqpos]
    have h2048 : q * K < 2048 * K := by
      rw [hq2]
      linarith
    have := lt_of_mul_lt_mul_right h2048 hKq.le
    norm_num
    exact this
  have hulp := f32ulp_le q 10 (by norm_num) hqpos.ne' hqlt
  have herr := abs_le.1 (abs_f32round_sub_le q)
  have hulp' : f32ulp q / 2 ≤ 1 / 16384 := by
    have : (2 : ℚ) ^ ((10 : ℤ) - 23) = 1 / 8192 := by norm_num
    rw [this] at hulp
    linarith
  have hrn := f32round_nonneg q hqpos.le
  have h2K : (0 : ℚ) < 2 * K := by linarith
  have hb1 : (f32round q - q) * (2 * K) ≤ 1 / 16384 * (2 * K) :=
    mul_le_mul_of_nonneg_right (by linarith) h2K.le
  have hb2 : -(1 / 16384) * (2 * K) ≤ (f32round q - q) * (2 * K) :=
    mul_le_mul_of_nonneg_right (by linarith) h2K.le
  have key1 : (f32round q + 1 / 2 - n) * (2 * K) = r + (f32round q - q) * (2 * K) := by
    linear_combination hq + 2 * hq2
  have key2 : ((n : ℚ) + 1 - (f32round q + 1 / 2)) * (2 * K) =
      2 * K - r - (f32round q - q) * (2 * K) := by
    linear_combination -hq - 2 * hq2
  have hp1 : 0 < (f32round q + 1 / 2 - n) * (2 * K) := by
    rw [key1]
    linarith
  have hp2 : 0 < ((n : ℚ) + 1 - (f32round q + 1 / 2)) * (2 * K) := by
    rw [key2]
    linarith
  have hp1' := (mul_pos_iff_of_pos_right h2K).1 hp1
  have hp2' := (mul_pos_iff_of_pos_right h2K).1 hp2
  have hfl : ⌊f32round q + 1 / 2⌋ = (n : ℤ) := by
    rw [Int.floor_eq_iff]
    push_cast
    constructor <;> linarith
  unfold roundf
  rw [if_pos hrn, hfl]
  have := f32_to_uint32_natCast n hnlt
  simpa using this
theorem isInt16_toInt16 (u : Nat) : isInt16 (toInt16 u) := by
  unfold isInt16 toInt16
  split <;> omega

/-- The running totals of `rx_dc_est_average` over a constant stream of estimates. -/
theorem est_sums_const (v : Nat) :
    ∀ i, i ≤ 64 → est_sums (fun _ => v) i =
      ((((i : Int) * dc_est_sample_i v : Int) : ℚ), (((i : Int) * dc_est_sample_q v : Int) : ℚ)) := by
  have hI : isInt16 (dc_est_sample_i v) := isInt16_toInt16 _
  have hQ : isInt16 (dc_est_sample_q v) := isInt16_toInt16 _
  unfold isInt16 at hI hQ
  intro i
  induction i with
  | zero =>
    intro _
    simp [est_sums]
  | succ i ih =>
    intro hi
    have hstep : ∀ x : Int, -32768 ≤ x → x ≤ 32767 →
        f32add ((((i : Int) * x : Int) : ℚ)) (f32_of_int x) = (((((i + 1 : ℕ) : Int) * x : Int)) : ℚ) := by
      intro x h1 h2
      have hx : f32_of_int x = (x : ℚ) := f32_of_int_eq x (by rw [abs_le]; constructor <;> omega)
      have hm0 : (0 : Int) ≤ ((i + 1 : ℕ) : Int) := by positivity
      have hm64 : ((i + 1 : ℕ) : Int) ≤ 64 := by exact_mod_cast hi
      have hb1 := mul_le_mul_of_nonneg_left h1 hm0
      have hb2 := mul_le_mul_of_nonneg_left h2 hm0
      have hb : |((i + 1 : ℕ) : Int) * x| ≤ 2 ^ 24 := by
        rw [abs_le]
        constructor <;> linarith
      have := f32round_intCast (((i + 1 : ℕ) : Int) * x) hb
      unfold f32add
      rw [hx, ← this]
      congr 1
      push_cast
      ring
    simp only [est_sums]
    rw [ih (by omega), hstep _ hI.1 hI.2, hstep _ hQ.1 hQ.2]

/-- The averages of `rx_dc_est_average` over 64 reads of a constant estimate: the two
12-bit samples of the register value. -/
theorem rx_dc_est_average_const (v : Nat) :
    rx_dc_est_average true true (fun _ => v) 64 =
      (1, some (dc_est_sample_i v), some (dc_est_sample_q v)) := by
  have hI : isInt16 (dc_est_sample_i v) := isInt16_toInt16 _
  have hQ : isInt16 (dc_est_sample_q v) := isInt16_toInt16 _
  unfold isInt16 at hI hQ
  have hmean : ∀ x : Int, -32768 ≤ x → x ≤ 32767 →
      f32_to_int16 (f32div ((((64 : ℕ) : Int) * x : Int) : ℚ) (f32_of_int ((64 : ℕ) : Int))) = x := by
    intro x h1 h2
    rw [f32_to_int16_mean _ 64 (by norm_num) (by norm_num) (by push_cast; omega)
      (by push_cast; omega)]
    have e : ((((64 : ℕ) : Int) * x : Int) : ℚ) / ((64 : ℕ) : ℚ) = ((x : Int) : ℚ) := by
      push_cast
      field_simp
    rw [e, truncToInt_intCast]
  unfold rx_dc_est_average
  simp only [Bool.and_self, if_true]
  rw [est_sums_const v 64 (le_refl 64)]
  simp only []
  rw [hmean _ hI.1 hI.2, hmean _ hQ.1 hQ.2]
/-- A write to `DCOC_BBA_STEP` followed by writes to other step registers leaves the
value of the first write in `DCOC_BBA_STEP`. -/
theorem applyStepWrites_other (hdr : XcvrHeader) (r : Reg) (ws : List StepWrite) :
    ∀ regs : RegFile, (∀ w ∈ ws, w.reg.toReg ≠ r) → (applyStepWrites hdr ws regs) r = regs r := by
  induction ws with
  | nil =>
    intro regs _
    rfl
  | cons w ws ih =>
    intro regs h
    have h1 : w.reg.toReg ≠ r := h w (List.mem_cons_self _ _)
    have h2 : ∀ w' ∈ ws, w'.reg.toReg ≠ r := fun w' hw' => h w' (List.mem_cons_of_mem _ hw')
    show (applyStepWrites hdr ws (regs.write w.reg.toReg (w.value hdr))) r = regs r
    rw [ih _ h2]
    exact write_other regs _ r _ (Ne.symm h1)

/-- In the band, `calc_tza_step_recip` leaves in `DCOC_BBA_STEP` the fields of the
quantized step and of the reciprocal of `temp_step`. -/
theorem calc_tza_step_recip_bba (hdr : XcvrHeader) (cfg : Nat → Nat) (temp_step : ℚ)
    (bbf_dcoc_step : Nat) (regs : RegFile) (hb : 250 < bbf_dcoc_step ∧ bbf_dcoc_step < 305) :
    (applyStepWrites hdr (calc_tza_step_recip cfg temp_step bbf_dcoc_step).2.1 regs)
        Reg.DCOC_BBA_STEP =
      hdr.DCOC_BBA_STEP_BBA_DCOC_STEP.put bbf_dcoc_step |||
        hdr.DCOC_BBA_STEP_BBA_DCOC_STEP_RECIP.put
          (f32_to_uint32 (roundf (f32div 0x8000 temp_step))) := by
  unfold calc_tza_step_recip
  rw [if_pos hb]
  simp only [List.cons_append, List.nil_append]
  show (applyStepWrites hdr _ (regs.write Reg.DCOC_BBA_STEP _)) Reg.DCOC_BBA_STEP = _
  rw [applyStepWrites_other]
  · rw [write_same]
    rfl
  · intro w hw
    simp only [List.mem_cons, List.mem_map, List.mem_range] at hw
    rcases hw with h | ⟨j, _, h⟩
    · subst h
      simp [StepReg.toReg]
    · subst h
      simp [StepReg.toReg]

/-- C12. In `rx_bba_dcoc_dac_trim_DCest`, for every sequence of estimates, the averaged
step `temp_step` is exactly `K / 64`, where `K` is the sum of the magnitudes of the four
measured differences; whenever its quantized value `round(temp_step * 8)` is accepted by
the band check (`250 < . < 305`), the trim returns the status 1 (success) and leaves in
`DCOC_BBA_STEP` the step field of `round(temp_step * 8)` and the reciprocal field of
`round(0x8000 / temp_step)`, both without any error from the `float32_t` arithmetic. -/
theorem DCest_commits_step (hdr : XcvrHeader) (cfg : Nat → Nat) (dc_est : Nat → Nat → Nat)
    (regs : RegFile) (tbl : MeasTbl) (K : ℕ)
    (hK : K = normSum (rx_bba_dcoc_dac_trim_DCest hdr cfg dc_est regs tbl).tbl)
    (hlo : 250 < roundf
      (averaged_step (rx_bba_dcoc_dac_trim_DCest hdr cfg dc_est regs tbl).tbl * 8))
    (hhi : roundf
      (averaged_step (rx_bba_dcoc_dac_trim_DCest hdr cfg dc_est regs tbl).tbl * 8) < 305) :
    averaged_step (rx_bba_dcoc_dac_trim_DCest hdr cfg dc_est regs tbl).tbl = (K : ℚ) / 64 ∧
      (rx_bba_dcoc_dac_trim_DCest hdr cfg dc_est regs tbl).status = 1 ∧
      (rx_bba_dcoc_dac_trim_DCest hdr cfg dc_est regs tbl).regs Reg.DCOC_BBA_STEP =
        hdr.DCOC_BBA_STEP_BBA_DCOC_STEP.put ((K + 4) / 8) |||
          hdr.DCOC_BBA_STEP_BBA_DCOC_STEP_RECIP.put ((4194304 + K) / (2 * K)) ∧
      (((K + 4) / 8 : ℕ) : ℚ) =
        roundf (averaged_step (rx_bba_dcoc_dac_trim_DCest hdr cfg dc_est regs tbl).tbl * 8) ∧
      (((4194304 + K) / (2 * K) : ℕ) : ℚ) =
        roundf (0x8000 / averaged_step (rx_bba_dcoc_dac_trim_DCest hdr cfg dc_est regs tbl).tbl) := by
  have hsteps : sweepSteps (rx_bba_dcoc_dac_trim_DCest hdr cfg dc_est regs tbl).tbl :=
    ⟨rfl, rfl, rfl, rfl⟩
  have ht := averaged_step_eq _ hsteps
  have hle := normSum_le (rx_bba_dcoc_dac_trim_DCest hdr cfg dc_est regs tbl).tbl
  rw [← hK] at ht hle
  rw [ht] at hlo hhi ⊢
  have hq := quantize_step_dyadic K (by omega)
  rw [← hq.2] at hlo hhi
  have hlo' : 250 < (K + 4) / 8 := by exact_mod_cast hlo
  have hhi' : (K + 4) / 8 < 305 := by exact_mod_cast hhi
  have hr := recip_dyadic K (by omega) (by omega)
  have hstatus : (rx_bba_dcoc_dac_trim_DCest hdr cfg dc_est regs tbl).status =
      (calc_tza_step_recip cfg
        (averaged_step (rx_bba_dcoc_dac_trim_DCest hdr cfg dc_est regs tbl).tbl)
        (quantize_step
          (averaged_step (rx_bba_dcoc_dac_trim_DCest hdr cfg dc_est regs tbl).tbl))).1 := rfl
  have hregs : ∃ r9 : RegFile,
      (rx_bba_dcoc_dac_trim_DCest hdr cfg dc_est regs tbl).regs Reg.DCOC_BBA_STEP =
        (applyStepWrites hdr (calc_tza_step_recip cfg
          (averaged_step (rx_bba_dcoc_dac_trim_DCest hdr cfg dc_est regs tbl).tbl)
          (quantize_step
            (averaged_step (rx_bba_dcoc_dac_trim_DCest hdr cfg dc_est regs tbl).tbl))).2.1 r9)
          Reg.DCOC_BBA_STEP := ⟨_, rfl⟩
  obtain ⟨r9, hregs⟩ := hregs
  rw [ht, hq.1] at hstatus hregs
  refine ⟨rfl, ?_, ?_, hq.2, hr.2⟩
  · rw [hstatus]
    exact (calc_tza_step_recip_status cfg _ _).2 ⟨hlo', hhi'⟩
  · rw [hregs, calc_tza_step_recip_bba hdr cfg _ _ r9 ⟨hlo', hhi'⟩, hr.1]
/-- The measurements that `rx_bba_dcoc_dac_trim_DCest` stores in the table: the averages
of its three calls of `rx_dc_est_average`. -/
theorem DCest_tbl (hdr : XcvrHeader) (cfg : Nat → Nat) (dc_est : Nat → Nat → Nat)
    (regs : RegFile) (tbl : MeasTbl) (i0 q0 i1 q1 i2 q2 : Int)
    (h0 : rx_dc_est_average true true (dc_est 0) 64 = (1, some i0, some q0))
    (h1 : rx_dc_est_average true true (dc_est 1) 64 = (1, some i1, some q1))
    (h2 : rx_dc_est_average true true (dc_est 2) 64 = (1, some i2, some q2)) :
    normSum (rx_bba_dcoc_dac_trim_DCest hdr cfg dc_est regs tbl).tbl =
      (wrapInt16 (i1 - i0)).natAbs + (wrapInt16 (i2 - i0)).natAbs +
        (wrapInt16 (q1 - q0)).natAbs + (wrapInt16 (q2 - q0)).natAbs := by
  have e : normSum (rx_bba_dcoc_dac_trim_DCest hdr cfg dc_est regs tbl).tbl =
      (wrapInt16 ((rx_dc_est_average true true (dc_est 1) 64).2.1.getD
          ((rx_dc_est_average true true (dc_est 0) 64).2.1.getD 0) -
        (rx_dc_est_average true true (dc_est 0) 64).2.1.getD 0)).natAbs +
      (wrapInt16 ((rx_dc_est_average true true (dc_est 2) 64).2.1.getD
          ((rx_dc_est_average true true (dc_est 1) 64).2.1.getD
            ((rx_dc_est_average true true (dc_est 0) 64).2.1.getD 0)) -
        (rx_dc_est_average true true (dc_est 0) 64).2.1.getD 0)).natAbs +
      (wrapInt16 ((rx_dc_est_average true true (dc_est 1) 64).2.2.getD
          ((rx_dc_est_average true true (dc_est 0) 64).2.2.getD 0) -
        (rx_dc_est_average true true (dc_est 0) 64).2.2.getD 0)).natAbs +
      (wrapInt16 ((rx_dc_est_average true true (dc_est 2) 64).2.2.getD
          ((rx_dc_est_average true true (dc_est 1) 64).2.2.getD
            ((rx_dc_est_average true true (dc_est 0) 64).2.2.getD 0)) -
        (rx_dc_est_average true true (dc_est 0) 64).2.2.getD 0)).natAbs := rfl
  rw [e, h0, h1, h2]
  rfl

theorem exampleDcEst_normSum :
    normSum (rx_bba_dcoc_dac_trim_DCest exampleHeader exampleTzaConfig exampleDcEst exampleRegs
      zeroTbl).tbl = 2400 := by
  have e0 : exampleDcEst 0 = fun _ => 0 := rfl
  have e1 : exampleDcEst 1 = fun _ => 229114456 := rfl
  have e2 : exampleDcEst 2 = fun _ => 39325096 := rfl
  have a0 := rx_dc_est_average_const 0
  have a1 := rx_dc_est_average_const 229114456
  have a2 := rx_dc_est_average_const 39325096
  rw [← e0] at a0
  rw [← e1] at a1
  rw [← e2] at a2
  rw [DCest_tbl _ _ _ _ _ _ _ _ _ _ _ a0 a1 a2]
  decide

/-- Witness of C12: estimates that move by 600 with each step of 16 codes give the
averaged step `37.5`; the trim succeeds and leaves the step 300 and the reciprocal 874 in
`DCOC_BBA_STEP` (`300 * 2 ^ 16 + 874` in the example layout). -/
theorem DCest_commits_step_witness :
    averaged_step (rx_bba_dcoc_dac_trim_DCest exampleHeader exampleTzaConfig exampleDcEst
        exampleRegs zeroTbl).tbl = 75 / 2 ∧
      (rx_bba_dcoc_dac_trim_DCest exampleHeader exampleTzaConfig exampleDcEst exampleRegs
        zeroTbl).status = 1 ∧
      (rx_bba_dcoc_dac_trim_DCest exampleHeader exampleTzaConfig exampleDcEst exampleRegs
        zeroTbl).regs Reg.DCOC_BBA_STEP = 300 * 65536 + 874 ∧
      (300 : ℚ) = roundf (75 / 2 * 8) ∧ (874 : ℚ) = roundf (0x8000 / (75 / 2)) := by
  have hK := exampleDcEst_normSum
  have ht := averaged_step_eq (rx_bba_dcoc_dac_trim_DCest exampleHeader exampleTzaConfig
    exampleDcEst exampleRegs zeroTbl).tbl ⟨rfl, rfl, rfl, rfl⟩
  rw [hK] at ht
  have hq := (quantize_step_dyadic 2400 (by norm_num)).2
  have h := DCest_commits_step exampleHeader exampleTzaConfig exampleDcEst exampleRegs zeroTbl
    2400 hK.symm
    (by rw [ht]; rw [← hq]; norm_num)
    (by rw [ht]; rw [← hq]; norm_num)
  obtain ⟨h1, h2, h3, h4, h5⟩ := h
  rw [ht] at h4 h5
  have e75 : ((2400 : ℕ) : ℚ) / 64 = 75 / 2 := by norm_num
  rw [e75] at ht h4 h5
  refine ⟨ht, h2, ?_, ?_, ?_⟩
  · rw [h3]
    decide
  · rw [← h4]
    norm_num
  · rw [← h5]
    norm_num

/-! ## DCOC step calibration: the derived step chain -/

theorem tza_stages_length (cfg : Nat → Nat) (bbf_dcoc_step : Nat) (temp_step : ℚ) :
    ∀ n, (tza_stages cfg bbf_dcoc_step temp_step n).2.2.length = n := by
  intro n
  induction n with
  | zero => rfl
  | succ n ih =>
    simp only [tza_stages, List.length_append, List.length_singleton, ih]

/-- The entry `k` of the chain is the one that the pass `k` of the loop computes from the
running `temp_step` left by the passes before it. -/
theorem tza_stages_entry (cfg : Nat → Nat) (bbf_dcoc_step : Nat) (temp_step : ℚ) (k : Nat) :
    ∀ n, k < n → (tza_stages cfg bbf_dcoc_step temp_step n).2.2.getD k default =
      (tza_stage cfg bbf_dcoc_step k (tza_stages cfg bbf_dcoc_step temp_step k).1
        (tza_stages cfg bbf_dcoc_step temp_step k).2.1).2.2 := by
  intro n
  induction n with
  | zero =>
    intro h
    omega
  | succ n ih =>
    intro h
    have hlen := tza_stages_length cfg bbf_dcoc_step temp_step n
    simp only [tza_stages]
    by_cases hk : k < n
    · rw [List.getD_append _ _ _ _ (by rw [hlen]; exact hk)]
      exact ih hk
    · have hkn : k = n := by omega
      subst hkn
      rw [List.getD_append_right _ _ _ _ (by rw [hlen])]
      simp [hlen]

theorem calc_tza_step_recip_chain (cfg : Nat → Nat) (temp_step : ℚ) (bbf_dcoc_step : Nat)
    (hb : 250 < bbf_dcoc_step ∧ bbf_dcoc_step < 305) :
    (calc_tza_step_recip cfg temp_step bbf_dcoc_step).2.2 =
      (tza_stages cfg bbf_dcoc_step temp_step 11).2.2 := by
  unfold calc_tza_step_recip
  rw [if_pos hb]

/-- A pass of the loop for a stage from 1 to 10. -/
theorem tza_stage_mid (cfg : Nat → Nat) (bbf_dcoc_step : Nat) (k : Nat) (status : Nat)
    (temp_step : ℚ) (h1 : 1 ≤ k) (h10 : k ≤ 10) :
    tza_stage cfg bbf_dcoc_step k status temp_step =
      (status,
        f32mul temp_step
          (f32div (f32_of_int (cfg k >>> 16)) (f32_of_int (cfg (k - 1) >>> 16))),
        ⟨f32_to_uint16 (roundf (f32mul (f32mul temp_step
            (f32div (f32_of_int (cfg k >>> 16)) (f32_of_int (cfg (k - 1) >>> 16)))) 8)),
          f32_to_uint16 (roundf (f32div 0x8000 (f32mul temp_step
            (f32div (f32_of_int (cfg k >>> 16)) (f32_of_int (cfg (k - 1) >>> 16))))))⟩) := by
  have h0 : k ≠ 0 := by omega
  simp only [tza_stage, if_neg h0, if_pos h10]

/-- C13 (amended). In the chain derived by `calc_tza_step_recip`, for every stage `k`
from 1 to 10 the entry `tza_dcoc_step[k]` (step and reciprocal) depends only on the
running `float32_t` value `temp_step` left by the stage `k - 1` and on the ratio pair
`(dcoc_tza_step_{k-1} >> 16, dcoc_tza_step_k >> 16)`: two runs that agree on that running
value and on that ratio pair agree on the entry `k`, whatever the other ratios of the
configuration, the quantized steps and the `temp_step` arguments are. -/
theorem chain_entry_local (cfgA cfgB : Nat → Nat) (tA tB : ℚ) (bbfA bbfB : Nat) (k : Nat)
    (hA : 250 < bbfA ∧ bbfA < 305) (hB : 250 < bbfB ∧ bbfB < 305)
    (h1 : 1 ≤ k) (h10 : k ≤ 10)
    (hrun : (tza_stages cfgA bbfA tA k).2.1 = (tza_stages cfgB bbfB tB k).2.1)
    (hthis : cfgA k >>> 16 = cfgB k >>> 16)
    (hlast : cfgA (k - 1) >>> 16 = cfgB (k - 1) >>> 16) :
    (calc_tza_step_recip cfgA tA bbfA).2.2.getD k default =
      (calc_tza_step_recip cfgB tB bbfB).2.2.getD k default := by
  rw [calc_tza_step_recip_chain cfgA tA bbfA hA, calc_tza_step_recip_chain cfgB tB bbfB hB,
    tza_stages_entry cfgA bbfA tA k 11 (by omega), tza_stages_entry cfgB bbfB tB k 11 (by omega),
    tza_stage_mid cfgA bbfA k _ _ h1 h10, tza_stage_mid cfgB bbfB k _ _ h1 h10,
    hrun, hthis, hlast]
theorem f32_to_uint16_natCast (n : ℕ) (hn : n < 65536) : f32_to_uint16 ((n : ℚ)) = n := by
  unfold f32_to_uint16 toUInt16
  have : truncToInt ((n : ℚ)) = (n : ℤ) := by
    have := truncToInt_intCast (n : ℤ)
    simpa using this
  rw [this]
  omega

/-- The running step after the stage 0, for the quantized step 288: exactly `10.0`. -/
theorem tza_stage_zero_288 (cfg : Nat → Nat) (status : Nat) (temp_step : ℚ) :
    (tza_stage cfg 288 0 status temp_step).2.1 = 10 := by
  have ha : f32round (144 / 5) = 7549747 / 262144 := by
    rw [f32round_eval (144 / 5) 4 15099494 (by norm_num) (by norm_num [abs_of_pos])
      (by norm_num [abs_of_pos]) (by norm_num [abs_lt])]
    norm_num
  have hb : f32div 1 (7549747 / 262144) = 2330169 / 67108864 := by
    unfold f32div
    have e : (1 : ℚ) / (7549747 / 262144) = 262144 / 7549747 := by norm_num
    rw [e, f32round_eval (262144 / 7549747) (-5) 9320676 (by norm_num)
      (by norm_num [abs_of_pos]) (by norm_num [abs_of_pos]) (by norm_num [abs_lt])]
    norm_num
  have h288 : f32_of_int ((288 : ℕ) : ℤ) = 288 := by
    have := f32_of_int_eq 288 (by norm_num)
    simpa using this
  have hc : f32mul 288 (2330169 / 67108864) = 10 := by
    unfold f32mul
    have e : (288 : ℚ) * (2330169 / 67108864) = 20971521 / 2097152 := by norm_num
    rw [e, f32round_eval_tie (20971521 / 2097152) 3 10485760 (by norm_num)
      (by norm_num [abs_of_pos]) (by norm_num [abs_of_pos]) (by norm_num)]
    norm_num
  simp only [tza_stage, if_true]
  rw [ha, hb, h288, hc]

theorem chainConfig_ratios :
    chainConfigA 0 >>> 16 = 2047 ∧ chainConfigB 0 >>> 16 = 2048 ∧
      chainConfigA 1 >>> 16 = 16376 ∧ chainConfigB 1 >>> 16 = 16376 ∧
      chainConfigA 2 >>> 16 = 65504 ∧ chainConfigB 2 >>> 16 = 65504 := by
  decide

theorem f32_of_int_natCast (n : ℕ) (hn : n ≤ 16777216) : f32_of_int ((n : ℕ) : ℤ) = (n : ℚ) := by
  have := f32_of_int_eq (n : ℤ) (by rw [abs_of_nonneg (by positivity)]; exact_mod_cast hn)
  simpa using this

/-- The running steps of the two example configurations after the stages 0, 1 and 2. -/
theorem chainConfig_running (t : ℚ) :
    (tza_stages chainConfigA 288 t 1).2.1 = 10 ∧ (tza_stages chainConfigB 288 t 1).2.1 = 10 ∧
      (tza_stages chainConfigA 288 t 2).2.1 = 80 ∧
      (tza_stages chainConfigB 288 t 2).2.1 = 10235 / 128 := by
  have hA1 : (tza_stages chainConfigA 288 t 1).2.1 = 10 := tza_stage_zero_288 _ _ _
  have hB1 : (tza_stages chainConfigB 288 t 1).2.1 = 10 := tza_stage_zero_288 _ _ _
  obtain ⟨a0, b0, a1, b1, _, _⟩ := chainConfig_ratios
  have hA2 : (tza_stages chainConfigA 288 t 2).2.1 =
      (tza_stage chainConfigA 288 1 (tza_stages chainConfigA 288 t 1).1
        (tza_stages chainConfigA 288 t 1).2.1).2.1 := rfl
  have hB2 : (tza_stages chainConfigB 288 t 2).2.1 =
      (tza_stage chainConfigB 288 1 (tza_stages chainConfigB 288 t 1).1
        (tza_stages chainConfigB 288 t 1).2.1).2.1 := rfl
  refine ⟨hA1, hB1, ?_, ?_⟩
  · rw [hA2, tza_stage_mid _ _ 1 _ _ (le_refl 1) (by norm_num), hA1]
    simp only [Nat.sub_self, a0, a1]
    rw [f32_of_int_natCast 16376 (by norm_num), f32_of_int_natCast 2047 (by norm_num)]
    unfold f32div f32mul
    have e1 : ((16376 : ℕ) : ℚ) / ((2047 : ℕ) : ℚ) = ((8 : ℤ) : ℚ) := by norm_num
    rw [e1, f32round_intCast 8 (by norm_num)]
    have e2 : (10 : ℚ) * ((8 : ℤ) : ℚ) = ((80 : ℤ) : ℚ) := by norm_num
    rw [e2, f32round_intCast 80 (by norm_num)]
    norm_num
  · rw [hB2, tza_stage_mid _ _ 1 _ _ (le_refl 1) (by norm_num), hB1]
    simp only [Nat.sub_self, b0, b1]
    rw [f32_of_int_natCast 16376 (by norm_num), f32_of_int_natCast 2048 (by norm_num)]
    unfold f32div f32mul
    have e1 : ((16376 : ℕ) : ℚ) / ((2048 : ℕ) : ℚ) = ((2047 : ℕ) : ℚ) * (2 : ℚ) ^ (-8 : ℤ) := by
      norm_num
    rw [e1, f32round_natCast_mul 2047 (-8) (by norm_num) (by norm_num)]
    have e2 : (10 : ℚ) * (((2047 : ℕ) : ℚ) * (2 : ℚ) ^ (-8 : ℤ)) =
        ((10235 : ℕ) : ℚ) * (2 : ℚ) ^ (-7 : ℤ) := by norm_num
    rw [e2, f32round_natCast_mul 10235 (-7) (by norm_num) (by norm_num)]
    norm_num
/-- The entry `k` of the chain is the quantization of the running `temp_step` after the
pass `k`. -/
theorem tza_stages_entry_running (cfg : Nat → Nat) (bbf_dcoc_step : Nat) (temp_step : ℚ)
    (k : Nat) (hk : k < 11) :
    (tza_stages cfg bbf_dcoc_step temp_step 11).2.2.getD k default =
      ⟨f32_to_uint16 (roundf (f32mul (tza_stages cfg bbf_dcoc_step temp_step (k + 1)).2.1 8)),
        f32_to_uint16
          (roundf (f32div 0x8000 (tza_stages cfg bbf_dcoc_step temp_step (k + 1)).2.1))⟩ := by
  rw [tza_stages_entry cfg bbf_dcoc_step temp_step k 11 hk]
  rfl

/-- The running steps of the two example configurations after the stage 2. -/
theorem chainConfig_running_two (t : ℚ) :
    (tza_stages chainConfigA 288 t 3).2.1 = 320 ∧
      (tza_stages chainConfigB 288 t 3).2.1 = 10235 / 32 := by
  obtain ⟨_, _, a1, b1, a2, b2⟩ := chainConfig_ratios
  obtain ⟨_, _, hA, hB⟩ := chainConfig_running t
  have hA3 : (tza_stages chainConfigA 288 t 3).2.1 =
      (tza_stage chainConfigA 288 2 (tza_stages chainConfigA 288 t 2).1
        (tza_stages chainConfigA 288 t 2).2.1).2.1 := rfl
  have hB3 : (tza_stages chainConfigB 288 t 3).2.1 =
      (tza_stage chainConfigB 288 2 (tza_stages chainConfigB 288 t 2).1
        (tza_stages chainConfigB 288 t 2).2.1).2.1 := rfl
  have e21 : 2 - 1 = 1 := rfl
  have hr : f32div (f32_of_int ((65504 : ℕ) : ℤ)) (f32_of_int ((16376 : ℕ) : ℤ)) = 4 := by
    rw [f32_of_int_natCast 65504 (by norm_num), f32_of_int_natCast 16376 (by norm_num)]
    unfold f32div
    have e1 : ((65504 : ℕ) : ℚ) / ((16376 : ℕ) : ℚ) = ((4 : ℤ) : ℚ) := by norm_num
    rw [e1, f32round_intCast 4 (by norm_num)]
    norm_num
  constructor
  · rw [hA3, tza_stage_mid _ _ 2 _ _ (by norm_num) (by norm_num), hA]
    simp only [e21, a1, a2]
    rw [hr]
    unfold f32mul
    have e2 : (80 : ℚ) * 4 = ((320 : ℤ) : ℚ) := by norm_num
    rw [e2, f32round_intCast 320 (by norm_num)]
    norm_num
  · rw [hB3, tza_stage_mid _ _ 2 _ _ (by norm_num) (by norm_num), hB]
    simp only [e21, b1, b2]
    rw [hr]
    unfold f32mul
    have e2 : (10235 / 128 : ℚ) * 4 = ((10235 : ℕ) : ℚ) * (2 : ℚ) ^ (-5 : ℤ) := by norm_num
    rw [e2, f32round_natCast_mul 10235 (-5) (by norm_num) (by norm_num)]
    norm_num

/-- The quantization of the running steps of the example configurations. -/
theorem chainConfig_quantized :
    f32_to_uint16 (roundf (f32mul 80 8)) = 640 ∧
      f32_to_uint16 (roundf (f32div 0x8000 80)) = 410 ∧
      f32_to_uint16 (roundf (f32mul (10235 / 128) 8)) = 640 ∧
      f32_to_uint16 (roundf (f32div 0x8000 (10235 / 128))) = 410 ∧
      f32_to_uint16 (roundf (f32mul 320 8)) = 2560 ∧
      f32_to_uint16 (roundf (f32mul (10235 / 32) 8)) = 2559 := by
  have q1 : f32mul 80 8 = ((640 : ℕ) : ℚ) / ((1 : ℕ) : ℚ) := by
    unfold f32mul
    have e : (80 : ℚ) * 8 = ((640 : ℤ) : ℚ) := by norm_num
    rw [e, f32round_intCast 640 (by norm_num)]
    norm_num
  have q2 : f32div 0x8000 80 = ((13421773 : ℕ) : ℚ) / ((32768 : ℕ) : ℚ) := by
    unfold f32div
    have e : (0x8000 : ℚ) / 80 = 2048 / 5 := by norm_num
    rw [e, f32round_eval (2048 / 5) 8 13421773 (by norm_num) (by norm_num [abs_of_pos])
      (by norm_num [abs_of_pos]) (by norm_num [abs_lt])]
    norm_num
  have q3 : f32mul (10235 / 128) 8 = ((10235 : ℕ) : ℚ) / ((16 : ℕ) : ℚ) := by
    unfold f32mul
    have e : (10235 / 128 : ℚ) * 8 = ((10235 : ℕ) : ℚ) * (2 : ℚ) ^ (-4 : ℤ) := by norm_num
    rw [e, f32round_natCast_mul 10235 (-4) (by norm_num) (by norm_num)]
    norm_num
  have q4 : f32div 0x8000 (10235 / 128) = ((6714165 : ℕ) : ℚ) / ((16384 : ℕ) : ℚ) := by
    unfold f32div
    have e : (0x8000 : ℚ) / (10235 / 128) = 4194304 / 10235 := by norm_num
    rw [e, f32round_eval (4194304 / 10235) 8 13428330 (by norm_num)
      (by norm_num [abs_of_pos]) (by norm_num [abs_of_pos]) (by norm_num [abs_lt])]
    norm_num
  have q5 : f32mul 320 8 = ((2560 : ℕ) : ℚ) / ((1 : ℕ) : ℚ) := by
    unfold f32mul
    have e : (320 : ℚ) * 8 = ((2560 : ℤ) : ℚ) := by norm_num
    rw [e, f32round_intCast 2560 (by norm_num)]
    norm_num
  have q6 : f32mul (10235 / 32) 8 = ((10235 : ℕ) : ℚ) / ((4 : ℕ) : ℚ) := by
    unfold f32mul
    have e : (10235 / 32 : ℚ) * 8 = ((10235 : ℕ) : ℚ) * (2 : ℚ) ^ (-2 : ℤ) := by norm_num
    rw [e, f32round_natCast_mul 10235 (-2) (by norm_num) (by norm_num)]
    norm_num
  rw [q1, q2, q3, q4, q5, q6]
  simp only [roundf_natCast_div _ _ (by norm_num : 0 < 1),
    roundf_natCast_div _ _ (by norm_num : 0 < 32768),
    roundf_natCast_div _ _ (by norm_num : 0 < 16),
    roundf_natCast_div _ _ (by norm_num : 0 < 16384),
    roundf_natCast_div _ _ (by norm_num : 0 < 4)]
  refine ⟨?_, ?_, ?_, ?_, ?_, ?_⟩ <;>
    (rw [f32_to_uint16_natCast _ (by norm_num)])

/-- Counterexample to C13: the quantized step 288 with two configurations that differ
only in the ratio of the stage 0 (2047 and 2048). The two runs agree on the stored entry
`tza_dcoc_step[1]` (step 640, reciprocal 410) and on the ratio pair of the stages 1 and
2, and differ on the stored step of `tza_dcoc_step[2]` (2560 and 2559): the entry 2 is
derived from the running `float32_t` step (`80.0` and `79.9609375`), of which the stored
entry 1 is only the rounding. -/
theorem chain_entry_not_local :
    (calc_tza_step_recip chainConfigA 36 288).2.2.getD 1 default = ⟨640, 410⟩ ∧
      (calc_tza_step_recip chainConfigB 36 288).2.2.getD 1 default = ⟨640, 410⟩ ∧
      chainConfigA 1 >>> 16 = chainConfigB 1 >>> 16 ∧
      chainConfigA 2 >>> 16 = chainConfigB 2 >>> 16 ∧
      ((calc_tza_step_recip chainConfigA 36 288).2.2.getD 2 default).dcoc_step = 2560 ∧
      ((calc_tza_step_recip chainConfigB 36 288).2.2.getD 2 default).dcoc_step = 2559 := by
  obtain ⟨_, _, hA2, hB2⟩ := chainConfig_running 36
  obtain ⟨hA3, hB3⟩ := chainConfig_running_two 36
  obtain ⟨q1, q2, q3, q4, q5, q6⟩ := chainConfig_quantized
  rw [calc_tza_step_recip_chain chainConfigA 36 288 (by decide),
    calc_tza_step_recip_chain chainConfigB 36 288 (by decide),
    tza_stages_entry_running chainConfigA 288 36 1 (by norm_num),
    tza_stages_entry_running chainConfigB 288 36 1 (by norm_num),
    tza_stages_entry_running chainConfigA 288 36 2 (by norm_num),
    tza_stages_entry_running chainConfigB 288 36 2 (by norm_num),
    hA2, hB2, hA3, hB3, q1, q2, q3, q4, q5, q6]
  exact ⟨rfl, rfl, by decide, by decide, rfl, rfl⟩

/-- Witness of C13 (amended): a second configuration that has the ratios of the first at
the stages 0 and 1 and zero everywhere else, run with another `temp_step` argument. The
running step left by the stage 0 is `10.0` in both runs, and the entries 1 agree. -/
theorem chain_entry_local_witness :
    (tza_stages chainConfigA 288 36 1).2.1 =
        (tza_stages (fun k => if k ≤ 1 then chainConfigA k else 0) 288 37 1).2.1 ∧
      (calc_tza_step_recip chainConfigA 36 288).2.2.getD 1 default =
        (calc_tza_step_recip (fun k => if k ≤ 1 then chainConfigA k else 0) 37 288).2.2.getD 1
          default :=
  ⟨(tza_stage_zero_288 _ _ _).trans (tza_stage_zero_288 _ _ _).symm,
    chain_entry_local chainConfigA (fun k => if k ≤ 1 then chainConfigA k else 0) 36 37 288 288 1
      (by decide) (by decide) (le_refl 1) (by decide)
      ((tza_stage_zero_288 _ _ _).trans (tza_stage_zero_288 _ _ _).symm) (by decide)
      (by decide)⟩

/-! ## I/Q mismatch calibration: the trials -/

theorem RegField.get_le (f : RegField) (reg : Nat) : f.get reg ≤ f.mask >>> f.shift := by
  unfold RegField.get
  rw [Nat.shiftRight_eq_div_pow, Nat.shiftRight_eq_div_pow]
  exact Nat.div_le_div_right Nat.and_le_right

theorem toInt16_bounds (u : Nat) : -32768 ≤ toInt16 u ∧ toInt16 u ≤ 32767 :=
  isInt16_toInt16 u

theorem sum_range_setAt {α : Type} [AddCommMonoid α] (a : Nat → α) (n : Nat) (v : α) :
    ∑ i in Finset.range (n + 1), setAt a n v i = (∑ i in Finset.range n, a i) + v := by
  rw [Finset.sum_range_succ]
  have h1 : setAt a n v n = v := by simp [setAt]
  have h2 : ∑ i in Finset.range n, setAt a n v i = ∑ i in Finset.range n, a i := by
    apply Finset.sum_congr rfl
    intro i hi
    have : i ≠ n := by
      have := Finset.mem_range.1 hi
      omega
    simp [setAt, this]
  rw [h1, h2]

/-- The effect of a pass of the loop of `IQMCRunTrials` (generation 3.5) on the trial
storage: a gain `g` and a phase `p` read from the result register. -/
theorem IQMCRunTrials_pass_gen35_fields (hdr : XcvrHeader) (result cnt : Nat)
    (s : xcvr_iqmc_trials_t × RegFile) :
    ∃ (g : Nat) (p : Int),
      g ≤ hdr.IQMC_CAL_IQMC_GAIN_ADJ.mask >>> hdr.IQMC_CAL_IQMC_GAIN_ADJ.shift ∧
      -32768 ≤ p ∧ p ≤ 32767 ∧
      (IQMCRunTrials_pass_gen35 hdr result cnt s).1.IQMC_gain_cal_trials =
        setAt s.1.IQMC_gain_cal_trials cnt (g % 65536) ∧
      (IQMCRunTrials_pass_gen35 hdr result cnt s).1.IQMC_phase_cal_trials =
        setAt s.1.IQMC_phase_cal_trials cnt p ∧
      (IQMCRunTrials_pass_gen35 hdr result cnt s).1.IQMC_gain_adj_sum =
        (s.1.IQMC_gain_adj_sum + g) % 4294967296 ∧
      (IQMCRunTrials_pass_gen35 hdr result cnt s).1.IQMC_phase_adj_sum =
        wrapInt32 (s.1.IQMC_phase_adj_sum + p) :=
  ⟨_, _, RegField.get_le _ _, (toInt16_bounds _).1, (toInt16_bounds _).2, rfl, rfl, rfl, rfl⟩

/-- The effect of a pass of the loop of `IQMCRunTrials` (generation 4) on the trial
storage: a gain `g` (a `uint16_t`) and a phase `p` read from the result register. -/
theorem IQMCRunTrials_pass_gen4_fields (hdr : XcvrHeader) (result cnt : Nat)
    (s : xcvr_iqmc_trials_t × RegFile) :
    ∃ (g : Nat) (p : Int),
      g ≤ 65535 ∧ -32768 ≤ p ∧ p ≤ 32767 ∧
      (IQMCRunTrials_pass_gen4 hdr result cnt s).1.IQMC_gain_cal_trials =
        setAt s.1.IQMC_gain_cal_trials cnt (g % 65536) ∧
      (IQMCRunTrials_pass_gen4 hdr result cnt s).1.IQMC_phase_cal_trials =
        setAt s.1.IQMC_phase_cal_trials cnt p ∧
      (IQMCRunTrials_pass_gen4 hdr result cnt s).1.IQMC_gain_adj_sum =
        (s.1.IQMC_gain_adj_sum + g) % 4294967296 ∧
      (IQMCRunTrials_pass_gen4 hdr result cnt s).1.IQMC_phase_adj_sum =
        wrapInt32 (s.1.IQMC_phase_adj_sum + p) := by
  refine ⟨hdr.IQMC_CTRL1_IQMC_GAIN_ADJ.get
      ((IQMCRunTrials_pass_gen4 hdr result cnt s).2 Reg.IQMC_CTRL1) % 65536, _, ?_,
    (toInt16_bounds _).1, (toInt16_bounds _).2, ?_, rfl, rfl, rfl⟩
  · have := Nat.mod_lt (hdr.IQMC_CTRL1_IQMC_GAIN_ADJ.get
      ((IQMCRunTrials_pass_gen4 hdr result cnt s).2 Reg.IQMC_CTRL1)) (by norm_num : 0 < 65536)
    omega
  · rw [Nat.mod_mod]
    rfl

/-- One more pass keeps the sums equal to the sums of the entries, as long as they do not
wrap around. -/
theorem trials_sums_step (t t1 : xcvr_iqmc_trials_t) (n g : Nat) (p : Int) (hn : n < 32)
    (hg : g ≤ 65535) (hp1 : -32768 ≤ p) (hp2 : p ≤ 32767)
    (e1 : t1.IQMC_gain_cal_trials = setAt t.IQMC_gain_cal_trials n (g % 65536))
    (e2 : t1.IQMC_phase_cal_trials = setAt t.IQMC_phase_cal_trials n p)
    (e3 : t1.IQMC_gain_adj_sum = (t.IQMC_gain_adj_sum + g) % 4294967296)
    (e4 : t1.IQMC_phase_adj_sum = wrapInt32 (t.IQMC_phase_adj_sum + p))
    (h1 : t.IQMC_gain_adj_sum = ∑ i in Finset.range n, t.IQMC_gain_cal_trials i)
    (h2 : t.IQMC_gain_adj_sum ≤ 65535 * n)
    (h3 : t.IQMC_phase_adj_sum = ∑ i in Finset.range n, t.IQMC_phase_cal_trials i)
    (h4 : -32768 * (n : Int) ≤ t.IQMC_phase_adj_sum)
    (h5 : t.IQMC_phase_adj_sum ≤ 32767 * (n : Int)) :
    t1.IQMC_gain_adj_sum = ∑ i in Finset.range (n + 1), t1.IQMC_gain_cal_trials i ∧
      t1.IQMC_gain_adj_sum ≤ 65535 * (n + 1) ∧
      t1.IQMC_phase_adj_sum = ∑ i in Finset.range (n + 1), t1.IQMC_phase_cal_trials i ∧
      -32768 * ((n + 1 : ℕ) : Int) ≤ t1.IQMC_phase_adj_sum ∧
      t1.IQMC_phase_adj_sum ≤ 32767 * ((n + 1 : ℕ) : Int) := by
  have hgm : g % 65536 = g := Nat.mod_eq_of_lt (by omega)
  have hs1 : (t.IQMC_gain_adj_sum + g) % 4294967296 = t.IQMC_gain_adj_sum + g :=
    Nat.mod_eq_of_lt (by omega)
  have hs2 : wrapInt32 (t.IQMC_phase_adj_sum + p) = t.IQMC_phase_adj_sum + p := by
    unfold wrapInt32
    omega
  rw [e1, e2, e3, e4, sum_range_setAt, sum_range_setAt, hgm, hs1, hs2, ← h1, ← h3]
  push_cast
  refine ⟨rfl, by omega, rfl, by omega, by omega⟩

/-- The invariant of the loop of `IQMCRunTrials` (generation 3.5): the running sums are the
sums of the entries stored so far, without wrap-around. -/
theorem IQMCRunTrials_loop_gen35_sums (hdr : XcvrHeader) (results : Nat → Nat)
    (s : xcvr_iqmc_trials_t × RegFile)
    (hw : hdr.IQMC_CAL_IQMC_GAIN_ADJ.mask >>> hdr.IQMC_CAL_IQMC_GAIN_ADJ.shift < 65536)
    (hg : s.1.IQMC_gain_adj_sum = 0) (hp : s.1.IQMC_phase_adj_sum = 0) :
    ∀ n, n ≤ 32 →
      (IQMCRunTrials_loop_gen35 hdr results s n).1.IQMC_gain_adj_sum =
          ∑ i in Finset.range n,
            (IQMCRunTrials_loop_gen35 hdr results s n).1.IQMC_gain_cal_trials i ∧
        (IQMCRunTrials_loop_gen35 hdr results s n).1.IQMC_gain_adj_sum ≤ 65535 * n ∧
        (IQMCRunTrials_loop_gen35 hdr results s n).1.IQMC_phase_adj_sum =
          ∑ i in Finset.range n,
            (IQMCRunTrials_loop_gen35 hdr results s n).1.IQMC_phase_cal_trials i ∧
        -32768 * (n : Int) ≤ (IQMCRunTrials_loop_gen35 hdr results s n).1.IQMC_phase_adj_sum ∧
        (IQMCRunTrials_loop_gen35 hdr results s n).1.IQMC_phase_adj_sum ≤ 32767 * (n : Int) := by
  intro n
  induction n with
  | zero =>
    intro _
    simp [IQMCRunTrials_loop_gen35, hg, hp]
  | succ n ih =>
    intro hn
    obtain ⟨h1, h2, h3, h4, h5⟩ := ih (by omega)
    obtain ⟨g, p, hg1, hp1, hp2, e1, e2, e3, e4⟩ := IQMCRunTrials_pass_gen35_fields hdr
      (results n) n (IQMCRunTrials_loop_gen35 hdr results s n)
    exact trials_sums_step _ _ n g p (by omega) (by omega) hp1 hp2 e1 e2 e3 e4 h1 h2 h3 h4 h5

/-- The invariant of the loop of `IQMCRunTrials` (generation 4). -/
theorem IQMCRunTrials_loop_gen4_sums (hdr : XcvrHeader) (results : Nat → Nat)
    (s : xcvr_iqmc_trials_t × RegFile)
    (hg : s.1.IQMC_gain_adj_sum = 0) (hp : s.1.IQMC_phase_adj_sum = 0) :
    ∀ n, n ≤ 32 →
      (IQMCRunTrials_loop_gen4 hdr results s n).1.IQMC_gain_adj_sum =
          ∑ i in Finset.range n,
            (IQMCRunTrials_loop_gen4 hdr results s n).1.IQMC_gain_cal_trials i ∧
        (IQMCRunTrials_loop_gen4 hdr results s n).1.IQMC_gain_adj_sum ≤ 65535 * n ∧
        (IQMCRunTrials_loop_gen4 hdr results s n).1.IQMC_phase_adj_sum =
          ∑ i in Finset.range n,
            (IQMCRunTrials_loop_gen4 hdr results s n).1.IQMC_phase_cal_trials i ∧
        -32768 * (n : Int) ≤ (IQMCRunTrials_loop_gen4 hdr results s n).1.IQMC_phase_adj_sum ∧
        (IQMCRunTrials_loop_gen4 hdr results s n).1.IQMC_phase_adj_sum ≤ 32767 * (n : Int) := by
  intro n
  induction n with
  | zero =>
    intro _
    simp [IQMCRunTrials_loop_gen4, hg, hp]
  | succ n ih =>
    intro hn
    obtain ⟨h1, h2, h3, h4, h5⟩ := ih (by omega)
    obtain ⟨g, p, hg1, hp1, hp2, e1, e2, e3, e4⟩ := IQMCRunTrials_pass_gen4_fields hdr
      (results n) n (IQMCRunTrials_loop_gen4 hdr results s n)
    exact trials_sums_step _ _ n g p (by omega) hg1 hp1 hp2 e1 e2 e3 e4 h1 h2 h3 h4 h5
/-- The phase sum of generation 3.5 needs no assumption on the register layout. -/
theorem IQMCRunTrials_loop_gen35_phase (hdr : XcvrHeader) (results : Nat → Nat)
    (s : xcvr_iqmc_trials_t × RegFile) (hp : s.1.IQMC_phase_adj_sum = 0) :
    ∀ n, n ≤ 32 →
      (IQMCRunTrials_loop_gen35 hdr results s n).1.IQMC_phase_adj_sum =
          ∑ i in Finset.range n,
            (IQMCRunTrials_loop_gen35 hdr results s n).1.IQMC_phase_cal_trials i ∧
        -32768 * (n : Int) ≤ (IQMCRunTrials_loop_gen35 hdr results s n).1.IQMC_phase_adj_sum ∧
        (IQMCRunTrials_loop_gen35 hdr results s n).1.IQMC_phase_adj_sum ≤ 32767 * (n : Int) := by
  intro n
  induction n with
  | zero =>
    intro _
    simp [IQMCRunTrials_loop_gen35, hp]
  | succ n ih =>
    intro hn
    obtain ⟨h3, h4, h5⟩ := ih (by omega)
    obtain ⟨g, p, _, hp1, hp2, _, e2, _, e4⟩ := IQMCRunTrials_pass_gen35_fields hdr
      (results n) n (IQMCRunTrials_loop_gen35 hdr results s n)
    have hs2 : wrapInt32 ((IQMCRunTrials_loop_gen35 hdr results s n).1.IQMC_phase_adj_sum + p) =
        (IQMCRunTrials_loop_gen35 hdr results s n).1.IQMC_phase_adj_sum + p := by
      unfold wrapInt32
      omega
    simp only [IQMCRunTrials_loop_gen35]
    rw [e2, e4, sum_range_setAt, hs2, ← h3]
    push_cast
    refine ⟨rfl, by omega, by omega⟩

/-- C15. After `IQMCRunTrials` with `num_trials` trials, `num_trials` at most the buffer
length 32, for every sequence of values read back from the hardware,
`IQMC_gain_adj_sum` is the sum of the first `num_trials` entries of
`IQMC_gain_cal_trials` and `IQMC_phase_adj_sum` is the sum of the first `num_trials`
entries of `IQMC_phase_cal_trials`. In generation 4 this holds for every register layout;
in generation 3.5 the gain sum needs a gain field of at most 16 bits in the layout of
`IQMC_CAL` (the entry stored is the `uint16_t` truncation of the field that is summed). -/
theorem IQMCRunTrials_sums (hdr : XcvrHeader) (results : Nat → Nat)
    (Decimator_OSR_state CH_filt_bypass_state : Nat) (trials_data : xcvr_iqmc_trials_t)
    (num_trials : Nat) (regs : RegFile) (hn : num_trials ≤ IQMCalibrationTrials) :
    (hdr.IQMC_CAL_IQMC_GAIN_ADJ.mask >>> hdr.IQMC_CAL_IQMC_GAIN_ADJ.shift < 65536 →
      (IQMCRunTrials_gen35 hdr results Decimator_OSR_state CH_filt_bypass_state trials_data
          num_trials regs).1.IQMC_gain_adj_sum =
        ∑ i in Finset.range num_trials,
          (IQMCRunTrials_gen35 hdr results Decimator_OSR_state CH_filt_bypass_state trials_data
            num_trials regs).1.IQMC_gain_cal_trials i) ∧
      (IQMCRunTrials_gen35 hdr results Decimator_OSR_state CH_filt_bypass_state trials_data
          num_trials regs).1.IQMC_phase_adj_sum =
        ∑ i in Finset.range num_trials,
          (IQMCRunTrials_gen35 hdr results Decimator_OSR_state CH_filt_bypass_state trials_data
            num_trials regs).1.IQMC_phase_cal_trials i ∧
      (IQMCRunTrials_gen4 hdr results trials_data num_trials regs).1.IQMC_gain_adj_sum =
        ∑ i in Finset.range num_trials,
          (IQMCRunTrials_gen4 hdr results trials_data num_trials regs).1.IQMC_gain_cal_trials i ∧
      (IQMCRunTrials_gen4 hdr results trials_data num_trials regs).1.IQMC_phase_adj_sum =
        ∑ i in Finset.range num_trials,
          (IQMCRunTrials_gen4 hdr results trials_data num_trials regs).1.IQMC_phase_cal_trials
            i := by
  have h4 := IQMCRunTrials_loop_gen4_sums hdr results
    ({ trials_data with IQMC_gain_adj_sum := 0, IQMC_phase_adj_sum := 0 }, regs) rfl rfl
    num_trials hn
  have h3 := IQMCRunTrials_loop_gen35_phase hdr results
    ({ trials_data with IQMC_gain_adj_sum := 0, IQMC_phase_adj_sum := 0 }, regs) rfl
    num_trials hn
  refine ⟨?_, h3.1, h4.1, h4.2.2.1⟩
  intro hw
  exact (IQMCRunTrials_loop_gen35_sums hdr results
    ({ trials_data with IQMC_gain_adj_sum := 0, IQMC_phase_adj_sum := 0 }, regs) hw rfl rfl
    num_trials hn).1

/-- Witness of C15: the four trials of `exampleResults` (gains `1024, 1025, 1023, 1024`,
phases `0, 1, -1, 0`) in the example layout leave the sums 4096 and 0, in both
generations. -/
theorem IQMCRunTrials_sums_witness :
    ((IQMCRunTrials_gen35 exampleHeader exampleResults 1 0 zeroTrials 4
          zeroRegs).1.IQMC_gain_adj_sum = 4096 ∧
      (IQMCRunTrials_gen35 exampleHeader exampleResults 1 0 zeroTrials 4
          zeroRegs).1.IQMC_phase_adj_sum = 0 ∧
      (List.range 4).map (IQMCRunTrials_gen35 exampleHeader exampleResults 1 0 zeroTrials 4
          zeroRegs).1.IQMC_gain_cal_trials = [1024, 1025, 1023, 1024] ∧
      (List.range 4).map (IQMCRunTrials_gen35 exampleHeader exampleResults 1 0 zeroTrials 4
          zeroRegs).1.IQMC_phase_cal_trials = [0, 1, -1, 0]) ∧
    ((IQMCRunTrials_gen35 exampleHeader exampleResults 1 0 zeroTrials 4
          zeroRegs).1.IQMC_gain_adj_sum =
        ∑ i in Finset.range 4,
          (IQMCRunTrials_gen35 exampleHeader exampleResults 1 0 zeroTrials 4
            zeroRegs).1.IQMC_gain_cal_trials i ∧
      (IQMCRunTrials_gen4 exampleHeader exampleResults zeroTrials 4
          zeroRegs).1.IQMC_phase_adj_sum =
        ∑ i in Finset.range 4,
          (IQMCRunTrials_gen4 exampleHeader exampleResults zeroTrials 4
            zeroRegs).1.IQMC_phase_cal_trials i) :=
  ⟨by decide,
    (IQMCRunTrials_sums exampleHeader exampleResults 1 0 zeroTrials 4 zeroRegs (by decide)).1
      (by decide),
    (IQMCRunTrials_sums exampleHeader exampleResults 1 0 zeroTrials 4 zeroRegs
      (by decide)).2.2.2⟩

/-! ## I/Q mismatch calibration: the means and their validation -/

theorem toInt8_of_le (n : Nat) (h : n ≤ 127) : toInt8 n = (n : Int) := by
  unfold toInt8
  split <;> omega

theorem and_fff_eq_mod (x : Nat) : x &&& 0xFFF = x % 4096 := by
  have := Nat.and_pow_two_sub_one_eq_mod x 12
  norm_num at this ⊢
  exact this

/-- C16 (amended). For every trial count `num_trials` from 1 to 127 and every trial data
whose means fit the 16-bit variables that receive them (as they do for sums of
`num_trials` 16-bit entries), `IQMCCalcResult` computes
`gain_mean = gain_sum / num_trials` by integer division and
`phase_mean = phase_sum / num_trials` by signed integer division, truncating toward zero,
and masks the phase to 12 bits: `temp_phase` is the residue of `phase_mean` modulo
`2 ^ 12`. -/
theorem IQMC_means (trials_data : xcvr_iqmc_trials_t) (num_trials : Nat)
    (_h1 : 1 ≤ num_trials) (h127 : num_trials ≤ 127)
    (hg : trials_data.IQMC_gain_adj_sum / num_trials < 65536)
    (hp : isInt16 (Int.tdiv trials_data.IQMC_phase_adj_sum (num_trials : Int))) :
    IQMC_gain_adj_mean trials_data num_trials = trials_data.IQMC_gain_adj_sum / num_trials ∧
      IQMC_phase_adj_mean trials_data num_trials =
        Int.tdiv trials_data.IQMC_phase_adj_sum (num_trials : Int) ∧
      IQMC_temp_phase trials_data num_trials =
        (Int.tdiv trials_data.IQMC_phase_adj_sum (num_trials : Int) % 4096).toNat := by
  have hpm : IQMC_phase_adj_mean trials_data num_trials =
      Int.tdiv trials_data.IQMC_phase_adj_sum (num_trials : Int) := by
    unfold IQMC_phase_adj_mean
    rw [toInt8_of_le num_trials h127]
    exact wrapInt16_of_isInt16 _ hp
  refine ⟨?_, hpm, ?_⟩
  · unfold IQMC_gain_adj_mean
    exact Nat.mod_eq_of_lt hg
  · unfold IQMC_temp_phase
    rw [hpm, and_fff_eq_mod]
    unfold toUInt16
    omega

/-- Witness of C16 (amended): 4 trials with the gains `1024, 1025, 1023, 1024` and the
phases `0, 1, -1, 0` give the mean gain 1024, the mean phase 0 and the masked phase 0. -/
theorem IQMC_means_witness :
    IQMC_gain_adj_mean exampleTrials 4 = 1024 ∧ IQMC_phase_adj_mean exampleTrials 4 = 0 ∧
      IQMC_temp_phase exampleTrials 4 = 0 :=
  IQMC_means exampleTrials 4 (by decide) (by decide) (by decide) (by decide)

/-- Counterexample to C16: with 200 trials whose phases sum to 5600 (mean 28), the divisor
`(int8_t)num_trials` is `-56`: `IQMCCalcResult` computes the mean phase `-100`, masked to
`0xF9C`, while `phase_sum / num_trials` is 28. -/
theorem IQMC_phase_mean_signed_count :
    toInt8 200 = -56 ∧ IQMC_phase_adj_mean longRunTrials 200 = -100 ∧
      IQMC_temp_phase longRunTrials 200 = 0xF9C ∧
      Int.tdiv longRunTrials.IQMC_phase_adj_sum 200 = 28 ∧
      IQMC_gain_adj_mean longRunTrials 200 = 1024 := by
  decide

/-- The status of `IQMCCalcResult` is decided by the validation, in both generations. -/
theorem IQMCCalcResult_status (hdr : XcvrHeader) (trials_data : xcvr_iqmc_trials_t)
    (num_trials : Nat) (regs : RegFile) :
    ((IQMCCalcResult_gen35 hdr trials_data num_trials regs).1 =
        (if IQMC_valid (IQMC_gain_adj_mean trials_data num_trials)
            (IQMC_temp_phase trials_data num_trials) then
          xcvrTrimStatus_t.gXcvrTrimSuccess_c
        else xcvrTrimStatus_t.gXcvrTrimIqmcCalOutOfRange_c)) ∧
      ((IQMCCalcResult_gen4 hdr trials_data num_trials regs).1 =
        (if IQMC_valid (IQMC_gain_adj_mean trials_data num_trials)
            (IQMC_temp_phase trials_data num_trials) then
          xcvrTrimStatus_t.gXcvrTrimSuccess_c
        else xcvrTrimStatus_t.gXcvrTrimIqmcCalOutOfRange_c)) := by
  unfold IQMCCalcResult_gen35 IQMCCalcResult_gen4
  constructor <;> (simp only []; split <;> rfl)

theorem IQMC_valid_iff (g p : Nat) :
    IQMC_valid g p = true ↔ (0x280 ≤ g ∧ g ≤ 0x660) ∧ p < 0xFFF := by
  unfold IQMC_valid IQMC_GAIN_ADJ_MIN IQMC_GAIN_ADJ_MAX IQMC_PHASE_ADJ_MAX
  simp only [Bool.and_eq_true, decide_eq_true_eq, ge_iff_le]

/-- C17 (amended). `IQMCCalcResult` returns Success only when the mean gain lies between
`IQMC_GAIN_ADJ_MIN = 0x280` (640) and `IQMC_GAIN_ADJ_MAX = 0x660` (1632), bounds
included; every mean gain outside that band yields OutOfRange, in both generations. -/
theorem IQMCCalcResult_gain_band (hdr : XcvrHeader) (trials_data : xcvr_iqmc_trials_t)
    (num_trials : Nat) (regs : RegFile) :
    ((IQMCCalcResult_gen35 hdr trials_data num_trials regs).1 =
        xcvrTrimStatus_t.gXcvrTrimSuccess_c →
      640 ≤ IQMC_gain_adj_mean trials_data num_trials ∧
        IQMC_gain_adj_mean trials_data num_trials ≤ 1632) ∧
    ((IQMCCalcResult_gen4 hdr trials_data num_trials regs).1 =
        xcvrTrimStatus_t.gXcvrTrimSuccess_c →
      640 ≤ IQMC_gain_adj_mean trials_data num_trials ∧
        IQMC_gain_adj_mean trials_data num_trials ≤ 1632) ∧
    (¬ (640 ≤ IQMC_gain_adj_mean trials_data num_trials ∧
        IQMC_gain_adj_mean trials_data num_trials ≤ 1632) →
      (IQMCCalcResult_gen35 hdr trials_data num_trials regs).1 =
          xcvrTrimStatus_t.gXcvrTrimIqmcCalOutOfRange_c ∧
        (IQMCCalcResult_gen4 hdr trials_data num_trials regs).1 =
          xcvrTrimStatus_t.gXcvrTrimIqmcCalOutOfRange_c) := by
  obtain ⟨s35, s4⟩ := IQMCCalcResult_status hdr trials_data num_trials regs
  rw [s35, s4]
  by_cases hv : IQMC_valid (IQMC_gain_adj_mean trials_data num_trials)
      (IQMC_temp_phase trials_data num_trials) = true
  · have hb := ((IQMC_valid_iff _ _).1 hv).1
    rw [if_pos hv]
    exact ⟨fun _ => hb, fun _ => hb, fun h => absurd hb h⟩
  · rw [if_neg hv]
    refine ⟨fun h => ?_, fun h => ?_, fun _ => ⟨rfl, rfl⟩⟩
    · cases h
    · cases h

/-- Witness of C17 (amended): the mean gain 1700, above `0x660`, yields OutOfRange in both
generations. -/
theorem IQMCCalcResult_gain_band_witness :
    IQMC_gain_adj_mean highGainTrials 4 = 1700 ∧
      (IQMCCalcResult_gen35 exampleHeader highGainTrials 4 zeroRegs).1 =
        xcvrTrimStatus_t.gXcvrTrimIqmcCalOutOfRange_c ∧
      (IQMCCalcResult_gen4 exampleHeader highGainTrials 4 zeroRegs).1 =
        xcvrTrimStatus_t.gXcvrTrimIqmcCalOutOfRange_c :=
  ⟨by decide,
    (IQMCCalcResult_gain_band exampleHeader highGainTrials 4 zeroRegs).2.2 (by decide)⟩

/-- Counterexample to C17: the mean gain 700, which is below 978 (0.955 times the nominal
gain `0x400`), yields Success in both generations, and so does the mean gain 1600, which
is above 1070 (1.045 times the nominal gain). -/
theorem IQMCCalcResult_accepts_wide_gain :
    IQMC_gain_adj_mean lowGainTrials 4 = 700 ∧
      (IQMCCalcResult_gen35 exampleHeader lowGainTrials 4 zeroRegs).1 =
        xcvrTrimStatus_t.gXcvrTrimSuccess_c ∧
      (IQMCCalcResult_gen4 exampleHeader lowGainTrials 4 zeroRegs).1 =
        xcvrTrimStatus_t.gXcvrTrimSuccess_c ∧
      IQMC_gain_adj_mean ⟨fun _ => 1600, fun _ => 0, 6400, 0⟩ 4 = 1600 ∧
      (IQMCCalcResult_gen35 exampleHeader ⟨fun _ => 1600, fun _ => 0, 6400, 0⟩ 4 zeroRegs).1 =
        xcvrTrimStatus_t.gXcvrTrimSuccess_c := by
  decide

/-- C18. Whenever `IQMCCalcResult` returns OutOfRange, nothing is written through the
output pointer `iqmc_cal_ptr`, while the working correction register (`IQMC_CAL` in
generation 3.5, `IQMC_CTRL1` in generation 4) has been written with the gain field of the
mean gain ORed with the phase field of the mean phase (of its 12-bit masking in
generation 3.5, of the signed mean itself in generation 4); no other register is
written. -/
theorem IQMCCalcResult_out_of_range (hdr : XcvrHeader) (trials_data : xcvr_iqmc_trials_t)
    (num_trials : Nat) (regs : RegFile) :
    ((IQMCCalcResult_gen35 hdr trials_data num_trials regs).1 =
        xcvrTrimStatus_t.gXcvrTrimIqmcCalOutOfRange_c →
      (IQMCCalcResult_gen35 hdr trials_data num_trials regs).2.2 = none ∧
        (IQMCCalcResult_gen35 hdr trials_data num_trials regs).2.1 Reg.IQMC_CAL =
          (hdr.IQMC_CAL_IQMC_GAIN_ADJ.put (IQMC_gain_adj_mean trials_data num_trials) |||
            hdr.IQMC_CAL_IQMC_PHASE_ADJ.put (IQMC_temp_phase trials_data num_trials)) ∧
        ∀ r, r ≠ Reg.IQMC_CAL →
          (IQMCCalcResult_gen35 hdr trials_data num_trials regs).2.1 r = regs r) ∧
    ((IQMCCalcResult_gen4 hdr trials_data num_trials regs).1 =
        xcvrTrimStatus_t.gXcvrTrimIqmcCalOutOfRange_c →
      (IQMCCalcResult_gen4 hdr trials_data num_trials regs).2.2 = none ∧
        (IQMCCalcResult_gen4 hdr trials_data num_trials regs).2.1 Reg.IQMC_CTRL1 =
          (hdr.IQMC_CTRL1_IQMC_GAIN_ADJ.put (IQMC_gain_adj_mean trials_data num_trials) |||
            hdr.IQMC_CTRL1_IQMC_PHASE_ADJ.put
              (toUInt32 (IQMC_phase_adj_mean trials_data num_trials))) ∧
        ∀ r, r ≠ Reg.IQMC_CTRL1 →
          (IQMCCalcResult_gen4 hdr trials_data num_trials regs).2.1 r = regs r) := by
  unfold IQMCCalcResult_gen35 IQMCCalcResult_gen4
  simp only []
  by_cases hv : IQMC_valid (IQMC_gain_adj_mean trials_data num_trials)
      (IQMC_temp_phase trials_data num_trials) = true
  · rw [if_pos hv, if_pos hv]
    constructor <;> (intro h; cases h)
  · rw [if_neg hv, if_neg hv]
    refine ⟨fun _ => ⟨rfl, ?_, fun r hr => ?_⟩, fun _ => ⟨rfl, ?_, fun r hr => ?_⟩⟩
    · dsimp only
      exact write_same _ _ _
    · dsimp only
      exact write_other _ _ r _ hr
    · dsimp only
      exact write_same _ _ _
    · dsimp only
      exact write_other _ _ r _ hr

/-- Witness of C18: the mean gain 1700 is out of range; nothing is written through the
pointer and the working register holds the encoding of the gain 1700 and the phase 0. -/
theorem IQMCCalcResult_out_of_range_witness :
    (IQMCCalcResult_gen35 exampleHeader highGainTrials 4 zeroRegs).1 =
        xcvrTrimStatus_t.gXcvrTrimIqmcCalOutOfRange_c ∧
      (IQMCCalcResult_gen35 exampleHeader highGainTrials 4 zeroRegs).2.2 = none ∧
      (IQMCCalcResult_gen35 exampleHeader highGainTrials 4 zeroRegs).2.1 Reg.IQMC_CAL = 1700 ∧
      (IQMCCalcResult_gen4 exampleHeader highGainTrials 4 zeroRegs).2.2 = none ∧
      (IQMCCalcResult_gen4 exampleHeader highGainTrials 4 zeroRegs).2.1 Reg.IQMC_CTRL1 =
        1700 := by
  have h := IQMCCalcResult_out_of_range exampleHeader highGainTrials 4 zeroRegs
  have h35 := h.1 (by decide)
  have h4 := h.2 (by decide)
  refine ⟨by decide, h35.1, ?_, h4.1, ?_⟩
  · rw [h35.2.1]
    decide
  · rw [h4.2.1]
    decide

/-- A phase field that lies within the 12 bits above its shift takes the same value from
the signed mean and from its 12-bit masking. -/
theorem put_phase_masked (f : RegField) (x : Int) (hf : f.mask < 2 ^ (f.shift + 12)) :
    f.put (toUInt32 x) = f.put (toUInt16 x &&& 0xFFF) := by
  have ha : toUInt16 x &&& 0xFFF = toUInt32 x % 2 ^ 12 := by
    rw [and_fff_eq_mod]
    unfold toUInt16 toUInt32
    omega
  rw [ha]
  unfold RegField.put
  apply Nat.eq_of_testBit_eq
  intro i
  have h32 : (4294967296 : ℕ) = 2 ^ 32 := by norm_num
  rw [h32]
  simp only [Nat.testBit_and, Nat.testBit_mod_two_pow, Nat.testBit_shiftLeft]
  by_cases hm : f.mask.testBit i = true
  · have hi : i < f.shift + 12 := by
      by_contra hcon
      have hle : 2 ^ (f.shift + 12) ≤ 2 ^ i := Nat.pow_le_pow_right (by norm_num) (by omega)
      have := Nat.testBit_eq_false_of_lt (lt_of_lt_of_le hf hle)
      rw [this] at hm
      cases hm
    by_cases hs : f.shift ≤ i
    · have h12 : i - f.shift < 12 := by omega
      have h32' : i - f.shift < 32 := by omega
      simp [hs, h12, h32']
    · simp [hs]
  · have hm' : f.mask.testBit i = false := by
      cases h : f.mask.testBit i
      · rfl
      · exact absurd h hm
    simp [hm']

/-- C19. Whenever `IQMCCalcResult` returns Success, the value stored through
`iqmc_cal_ptr` is the gain field of the mean gain ORed with the phase field of the mean
phase masked to 12 bits, and the correction register holds the same value: in generation
3.5 for every register layout, in generation 4 for every layout whose phase field lies
within the 12 bits above its shift (the register is written with the field of the signed
mean, the pointer with the field of the masked phase). -/
theorem IQMCCalcResult_success (hdr : XcvrHeader) (trials_data : xcvr_iqmc_trials_t)
    (num_trials : Nat) (regs : RegFile) :
    ((IQMCCalcResult_gen35 hdr trials_data num_trials regs).1 =
        xcvrTrimStatus_t.gXcvrTrimSuccess_c →
      (IQMCCalcResult_gen35 hdr trials_data num_trials regs).2.2 =
          some (hdr.IQMC_CAL_IQMC_GAIN_ADJ.put (IQMC_gain_adj_mean trials_data num_trials) |||
            hdr.IQMC_CAL_IQMC_PHASE_ADJ.put (IQMC_temp_phase trials_data num_trials)) ∧
        (IQMCCalcResult_gen35 hdr trials_data num_trials regs).2.2 =
          some ((IQMCCalcResult_gen35 hdr trials_data num_trials regs).2.1 Reg.IQMC_CAL)) ∧
    ((IQMCCalcResult_gen4 hdr trials_data num_trials regs).1 =
        xcvrTrimStatus_t.gXcvrTrimSuccess_c →
      hdr.IQMC_CTRL1_IQMC_PHASE_ADJ.mask < 2 ^ (hdr.IQMC_CTRL1_IQMC_PHASE_ADJ.shift + 12) →
      (IQMCCalcResult_gen4 hdr trials_data num_trials regs).2.2 =
          some (hdr.IQMC_CTRL1_IQMC_GAIN_ADJ.put (IQMC_gain_adj_mean trials_data num_trials) |||
            hdr.IQMC_CTRL1_IQMC_PHASE_ADJ.put (IQMC_temp_phase trials_data num_trials)) ∧
        (IQMCCalcResult_gen4 hdr trials_data num_trials regs).2.2 =
          some ((IQMCCalcResult_gen4 hdr trials_data num_trials regs).2.1 Reg.IQMC_CTRL1)) := by
  unfold IQMCCalcResult_gen35 IQMCCalcResult_gen4
  simp only []
  by_cases hv : IQMC_valid (IQMC_gain_adj_mean trials_data num_trials)
      (IQMC_temp_phase trials_data num_trials) = true
  · rw [if_pos hv, if_pos hv]
    refine ⟨fun _ => ⟨rfl, ?_⟩, fun _ hf => ⟨rfl, ?_⟩⟩
    · dsimp only
      rw [write_same]
    · dsimp only
      rw [write_same, put_phase_masked _ _ hf]
      rfl
  · rw [if_neg hv, if_neg hv]
    constructor
    · intro h
      cases h
    · intro h
      cases h

/-- Witness of C19: for the mean gain 1024 and the mean phase 0, both generations return
Success and commit, to the pointer and to the register, the value `0x400`, whose gain
field is 1024 and whose phase field is 0 in the example layout. -/
theorem IQMCCalcResult_success_witness :
    IQMC_gain_adj_mean exampleTrials 4 = 1024 ∧ IQMC_phase_adj_mean exampleTrials 4 = 0 ∧
      (IQMCCalcResult_gen35 exampleHeader exampleTrials 4 zeroRegs).1 =
        xcvrTrimStatus_t.gXcvrTrimSuccess_c ∧
      (IQMCCalcResult_gen35 exampleHeader exampleTrials 4 zeroRegs).2.2 = some 0x400 ∧
      (IQMCCalcResult_gen35 exampleHeader exampleTrials 4 zeroRegs).2.1 Reg.IQMC_CAL = 0x400 ∧
      (IQMCCalcResult_gen4 exampleHeader exampleTrials 4 zeroRegs).2.2 = some 0x400 ∧
      (IQMCCalcResult_gen4 exampleHeader exampleTrials 4 zeroRegs).2.1 Reg.IQMC_CTRL1 = 0x400 ∧
      exampleHeader.IQMC_CAL_IQMC_GAIN_ADJ.get 0x400 = 1024 ∧
      exampleHeader.IQMC_CAL_IQMC_PHASE_ADJ.get 0x400 = 0 := by
  have h := IQMCCalcResult_success exampleHeader exampleTrials 4 zeroRegs
  have h35 := h.1 (by decide)
  have h4 := h.2 (by decide) (by decide)
  have e35 : (IQMCCalcResult_gen35 exampleHeader exampleTrials 4 zeroRegs).2.2 = some 0x400 := by
    rw [h35.1]
    decide
  have e4 : (IQMCCalcResult_gen4 exampleHeader exampleTrials 4 zeroRegs).2.2 = some 0x400 := by
    rw [h4.1]
    decide
  refine ⟨by decide, by decide, by decide, e35, ?_, e4, ?_, by decide, by decide⟩
  · have := h35.2
    rw [e35] at this
    exact (Option.some.inj this).symm
  · have := h4.2
    rw [e4] at this
    exact (Option.some.inj this).symm

/-! ## I/Q mismatch calibration: the initialization -/

/-- C20 (amended). For every radio mode that is not one of `BLE_MODE`, `BLE_LR`,
`GFSK_BT_0p5_h_0p5`, `GFSK_BT_0p5_h_0p32`, `GFSK_BT_0p5_h_0p7`, `GFSK_BT_0p5_h_1p0` or
`MSK`, `IQMCCalInit` (generation 3.5) returns InvalidMode and calls no routine of the
Radio Control Interface, and every register other than `RX_DIG_CTRL`, `DCOC_CTRL_0`,
`AGC_CTRL_1` and `DCOC_DAC_INIT` is unchanged; these four registers have been written
before the mode is examined (`DCOC_DAC_INIT` holds `dcoc_ctrl_3_val`, `AGC_CTRL_1` the
manual gains). For the recognised modes the first call of the interface requests the
channel 19 (`BLE_MODE`, `BLE_LR`) or the channel 80 (the other five). -/
theorem IQMCCalInit_mode_lookup (hdr : XcvrHeader) (overrideStatus : Nat → xcvrStatus_t)
    (dcoc_ctrl_3_val : Nat) (radio_mode : radio_mode_t) (regs : RegFile) :
    (radio_mode ∉ [radio_mode_t.BLE_MODE, radio_mode_t.BLE_LR, radio_mode_t.GFSK_BT_0p5_h_0p5,
        radio_mode_t.GFSK_BT_0p5_h_0p32, radio_mode_t.GFSK_BT_0p5_h_0p7,
        radio_mode_t.GFSK_BT_0p5_h_1p0, radio_mode_t.MSK] →
      (IQMCCalInit_gen35 hdr overrideStatus dcoc_ctrl_3_val radio_mode regs).trim_status =
          xcvrTrimStatus_t.gXcvrTrimInvalidMode_c ∧
        (IQMCCalInit_gen35 hdr overrideStatus dcoc_ctrl_3_val radio_mode regs).calls = [] ∧
        (∀ r, r ∉ [Reg.RX_DIG_CTRL, Reg.DCOC_CTRL_0, Reg.AGC_CTRL_1, Reg.DCOC_DAC_INIT] →
          (IQMCCalInit_gen35 hdr overrideStatus dcoc_ctrl_3_val radio_mode regs).regs r =
            regs r) ∧
        (IQMCCalInit_gen35 hdr overrideStatus dcoc_ctrl_3_val radio_mode regs).regs
            Reg.DCOC_DAC_INIT = dcoc_ctrl_3_val ∧
        (IQMCCalInit_gen35 hdr overrideStatus dcoc_ctrl_3_val radio_mode regs).regs
            Reg.AGC_CTRL_1 =
          (hdr.AGC_CTRL_1_USER_LNA_GAIN_EN.put 1 ||| hdr.AGC_CTRL_1_LNA_USER_GAIN.put 0x6 |||
            hdr.AGC_CTRL_1_USER_BBA_GAIN_EN.put 1 ||| hdr.AGC_CTRL_1_BBA_USER_GAIN.put 0x7)) ∧
    (radio_mode ∈ [radio_mode_t.BLE_MODE, radio_mode_t.BLE_LR] →
      (IQMCCalInit_gen35 hdr overrideStatus dcoc_ctrl_3_val radio_mode regs).calls.head? =
        some (InterfaceCall.XCVR_OverrideChannel 19)) ∧
    (radio_mode ∈ [radio_mode_t.GFSK_BT_0p5_h_0p5, radio_mode_t.GFSK_BT_0p5_h_0p32,
        radio_mode_t.GFSK_BT_0p5_h_0p7, radio_mode_t.GFSK_BT_0p5_h_1p0, radio_mode_t.MSK] →
      (IQMCCalInit_gen35 hdr overrideStatus dcoc_ctrl_3_val radio_mode regs).calls.head? =
        some (InterfaceCall.XCVR_OverrideChannel 80)) := by
  refine ⟨?_, ?_, ?_⟩
  · intro hm
    cases radio_mode with
    | other n =>
      refine ⟨rfl, rfl, ?_, rfl, rfl⟩
      intro r hr
      simp only [List.mem_cons, List.mem_singleton, List.not_mem_nil, or_false, not_or] at hr
      obtain ⟨h1, h2, h3, h4⟩ := hr
      show (((((regs.write Reg.RX_DIG_CTRL _).orMask Reg.DCOC_CTRL_0 _).write Reg.AGC_CTRL_1
        _).orMask Reg.DCOC_CTRL_0 _).write Reg.DCOC_DAC_INIT _) r = regs r
      unfold RegFile.orMask
      rw [write_other _ _ r _ h4, write_other _ _ r _ h2, write_other _ _ r _ h3,
        write_other _ _ r _ h2, write_other _ _ r _ h1]
    | _ => exact absurd (by decide) hm
  · intro hm
    simp only [List.mem_cons, List.mem_singleton, List.not_mem_nil, or_false] at hm
    rcases hm with h | h <;> subst h <;>
      (simp only [IQMCCalInit_gen35]; split <;> rfl)
  · intro hm
    simp only [List.mem_cons, List.mem_singleton, List.not_mem_nil, or_false] at hm
    rcases hm with h | h | h | h | h <;> subst h <;>
      (simp only [IQMCCalInit_gen35]; split <;> rfl)

/-- Witness of C20 (amended): the mode number 11 is not recognised: InvalidMode, no call,
`DCOC_CTRL_1` unchanged; `BLE_MODE` requests the channel 19 and `MSK` the channel 80. -/
theorem IQMCCalInit_mode_lookup_witness :
    ((IQMCCalInit_gen35 exampleHeader (fun _ => xcvrStatus_t.gXcvrSuccess_c) 0x80802020
          (radio_mode_t.other 11) exampleRegs).trim_status =
        xcvrTrimStatus_t.gXcvrTrimInvalidMode_c ∧
      (IQMCCalInit_gen35 exampleHeader (fun _ => xcvrStatus_t.gXcvrSuccess_c) 0x80802020
          (radio_mode_t.other 11) exampleRegs).calls = [] ∧
      (IQMCCalInit_gen35 exampleHeader (fun _ => xcvrStatus_t.gXcvrSuccess_c) 0x80802020
          (radio_mode_t.other 11) exampleRegs).regs Reg.DCOC_CTRL_1 = 0x1) ∧
    (IQMCCalInit_gen35 exampleHeader (fun _ => xcvrStatus_t.gXcvrSuccess_c) 0x80802020
        radio_mode_t.BLE_MODE exampleRegs).calls =
      [InterfaceCall.XCVR_OverrideChannel 19, InterfaceCall.XCVR_ForceRxWu] ∧
    (IQMCCalInit_gen35 exampleHeader (fun _ => xcvrStatus_t.gXcvrSuccess_c) 0x80802020
        radio_mode_t.MSK exampleRegs).calls.head? =
      some (InterfaceCall.XCVR_OverrideChannel 80) :=
  ⟨⟨((IQMCCalInit_mode_lookup exampleHeader (fun _ => xcvrStatus_t.gXcvrSuccess_c) 0x80802020
        (radio_mode_t.other 11) exampleRegs).1 (by decide)).1,
      ((IQMCCalInit_mode_lookup exampleHeader (fun _ => xcvrStatus_t.gXcvrSuccess_c) 0x80802020
        (radio_mode_t.other 11) exampleRegs).1 (by decide)).2.1,
      ((IQMCCalInit_mode_lookup exampleHeader (fun _ => xcvrStatus_t.gXcvrSuccess_c) 0x80802020
        (radio_mode_t.other 11) exampleRegs).1 (by decide)).2.2.1 Reg.DCOC_CTRL_1 (by decide)⟩,
    by decide,
    (IQMCCalInit_mode_lookup exampleHeader (fun _ => xcvrStatus_t.gXcvrSuccess_c) 0x80802020
      radio_mode_t.MSK exampleRegs).2.2 (by decide)⟩

/-- Counterexample to C20: for the unrecognised mode number 11, from the register file with
every register at zero, `IQMCCalInit` (generation 3.5) returns InvalidMode, yet it has
changed `DCOC_DAC_INIT` to `dcoc_ctrl_3_val`, `RX_DIG_CTRL` to `0x1022` (decimation,
channel filter bypass and DC offset block, in the example layout), `DCOC_CTRL_0` to `0x1A`
and `AGC_CTRL_1` to `0x376000`. -/
theorem IQMCCalInit_mutates_before_lookup :
    (IQMCCalInit_gen35 exampleHeader (fun _ => xcvrStatus_t.gXcvrSuccess_c) 0x80802020
        (radio_mode_t.other 11) zeroRegs).trim_status =
      xcvrTrimStatus_t.gXcvrTrimInvalidMode_c ∧
    zeroRegs Reg.DCOC_DAC_INIT = 0 ∧
    (IQMCCalInit_gen35 exampleHeader (fun _ => xcvrStatus_t.gXcvrSuccess_c) 0x80802020
        (radio_mode_t.other 11) zeroRegs).regs Reg.DCOC_DAC_INIT = 0x80802020 ∧
    (IQMCCalInit_gen35 exampleHeader (fun _ => xcvrStatus_t.gXcvrSuccess_c) 0x80802020
        (radio_mode_t.other 11) zeroRegs).regs Reg.RX_DIG_CTRL = 0x1022 ∧
    (IQMCCalInit_gen35 exampleHeader (fun _ => xcvrStatus_t.gXcvrSuccess_c) 0x80802020
        (radio_mode_t.other 11) zeroRegs).regs Reg.DCOC_CTRL_0 = 0x1A ∧
    (IQMCCalInit_gen35 exampleHeader (fun _ => xcvrStatus_t.gXcvrSuccess_c) 0x80802020
        (radio_mode_t.other 11) zeroRegs).regs Reg.AGC_CTRL_1 = 0x376000 := by
  decide

/-! ## Slope-seek engine: the clipping test -/

/-- C30. For every pair of `int16_t` values, `-32768` included, `dc_is_too_high` returns
true if and only if the magnitude of the I value or of the Q value exceeds 1900; the
initial measurement 2000 set by `init_chan_state` is too high. -/
theorem dc_is_too_high_iff (i_dc q_dc : Int) (hi : isInt16 i_dc) (hq : isInt16 q_dc) :
    (dc_is_too_high i_dc q_dc = true ↔ (1900 < |i_dc| ∨ 1900 < |q_dc|)) ∧
      dc_is_too_high (init_chan_state default).dc_meas (init_chan_state default).dc_meas =
        true ∧
      dc_is_too_high (-32768) 0 = true := by
  refine ⟨?_, by decide, by decide⟩
  unfold dc_is_too_high
  rw [ABS_eq_natAbs hi, ABS_eq_natAbs hq, Int.abs_eq_natAbs, Int.abs_eq_natAbs]
  simp only [Bool.or_eq_true, decide_eq_true_eq, gt_iff_lt]
  constructor
  · intro h
    rcases h with h | h
    · left
      omega
    · right
      omega
  · intro h
    rcases h with h | h
    · left
      omega
    · right
      omega

/-- Witness of C30: the measurements `-32768` and `1900`: the first is too high, the
second alone is not. -/
theorem dc_is_too_high_iff_witness :
    (dc_is_too_high (-32768) 1900 = true ↔ (1900 < |(-32768 : Int)| ∨ 1900 < |(1900 : Int)|)) ∧
      dc_is_too_high 1900 (-1900) = false ∧ dc_is_too_high 1901 0 = true ∧
      dc_is_too_high 0 (-1901) = true :=
  ⟨(dc_is_too_high_iff (-32768) 1900 (by decide) (by decide)).1, by decide, by decide,
    by decide⟩

/-! ## I/Q mismatch calibration: the validation as a whole -/

/-- The masked phase of a mean in `-2048 .. 2047` is `0xFFF` only for the mean `-1`. -/
theorem masked_phase_lt_iff (pm : Int) (h1 : -2048 ≤ pm) (h2 : pm ≤ 2047) :
    toUInt16 pm &&& 0xFFF < 0xFFF ↔ pm ≠ -1 := by
  rw [and_fff_eq_mod]
  unfold toUInt16
  omega

/-- C22. For every trial data and trial count, `IQMCCalcResult` returns Success if and
only if `0x280 <= gain_mean <= 0x660` and the 12-bit masked phase mean is strictly below
`0xFFF`, and returns OutOfRange otherwise, in both generations; with the gain in its band,
a mean phase in `-2048 .. 2047` is rejected only when it is `-1` (encoding `0xFFF`). -/
theorem IQMCCalcResult_success_iff (hdr : XcvrHeader) (trials_data : xcvr_iqmc_trials_t)
    (num_trials : Nat) (regs : RegFile) :
    ((IQMCCalcResult_gen35 hdr trials_data num_trials regs).1 =
        xcvrTrimStatus_t.gXcvrTrimSuccess_c ↔
      (0x280 ≤ IQMC_gain_adj_mean trials_data num_trials ∧
        IQMC_gain_adj_mean trials_data num_trials ≤ 0x660) ∧
        IQMC_temp_phase trials_data num_trials < 0xFFF) ∧
    ((IQMCCalcResult_gen4 hdr trials_data num_trials regs).1 =
        xcvrTrimStatus_t.gXcvrTrimSuccess_c ↔
      (0x280 ≤ IQMC_gain_adj_mean trials_data num_trials ∧
        IQMC_gain_adj_mean trials_data num_trials ≤ 0x660) ∧
        IQMC_temp_phase trials_data num_trials < 0xFFF) ∧
    ((IQMCCalcResult_gen35 hdr trials_data num_trials regs).1 ≠
        xcvrTrimStatus_t.gXcvrTrimSuccess_c →
      (IQMCCalcResult_gen35 hdr trials_data num_trials regs).1 =
        xcvrTrimStatus_t.gXcvrTrimIqmcCalOutOfRange_c) ∧
    ((IQMCCalcResult_gen4 hdr trials_data num_trials regs).1 ≠
        xcvrTrimStatus_t.gXcvrTrimSuccess_c →
      (IQMCCalcResult_gen4 hdr trials_data num_trials regs).1 =
        xcvrTrimStatus_t.gXcvrTrimIqmcCalOutOfRange_c) ∧
    ((0x280 ≤ IQMC_gain_adj_mean trials_data num_trials ∧
        IQMC_gain_adj_mean trials_data num_trials ≤ 0x660) →
      -2048 ≤ IQMC_phase_adj_mean trials_data num_trials →
      IQMC_phase_adj_mean trials_data num_trials ≤ 2047 →
      ((IQMCCalcResult_gen35 hdr trials_data num_trials regs).1 =
          xcvrTrimStatus_t.gXcvrTrimIqmcCalOutOfRange_c ↔
        IQMC_phase_adj_mean trials_data num_trials = -1) ∧
      ((IQMCCalcResult_gen4 hdr trials_data num_trials regs).1 =
          xcvrTrimStatus_t.gXcvrTrimIqmcCalOutOfRange_c ↔
        IQMC_phase_adj_mean trials_data num_trials = -1)) := by
  obtain ⟨s35, s4⟩ := IQMCCalcResult_status hdr trials_data num_trials regs
  rw [s35, s4]
  have hv := IQMC_valid_iff (IQMC_gain_adj_mean trials_data num_trials)
    (IQMC_temp_phase trials_data num_trials)
  by_cases hval : IQMC_valid (IQMC_gain_adj_mean trials_data num_trials)
      (IQMC_temp_phase trials_data num_trials) = true
  · rw [if_pos hval]
    have hb := hv.1 hval
    refine ⟨⟨fun _ => hb, fun _ => rfl⟩, ⟨fun _ => hb, fun _ => rfl⟩,
      fun h => absurd rfl h, fun h => absurd rfl h, ?_⟩
    intro _ h1 h2
    have hne := (masked_phase_lt_iff _ h1 h2).1 hb.2
    constructor
    · constructor
      · intro h
        cases h
      · intro h
        exact absurd h hne
    · constructor
      · intro h
        cases h
      · intro h
        exact absurd h hne
  · rw [if_neg hval]
    have hnb : ¬ ((0x280 ≤ IQMC_gain_adj_mean trials_data num_trials ∧
        IQMC_gain_adj_mean trials_data num_trials ≤ 0x660) ∧
        IQMC_temp_phase trials_data num_trials < 0xFFF) := fun h => hval (hv.2 h)
    refine ⟨⟨fun h => ?_, fun h => absurd h hnb⟩, ⟨fun h => ?_, fun h => absurd h hnb⟩,
      fun _ => rfl, fun _ => rfl, ?_⟩
    · cases h
    · cases h
    · intro hg h1 h2
      have hm : IQMC_phase_adj_mean trials_data num_trials = -1 := by
        by_contra hne
        have := (masked_phase_lt_iff _ h1 h2).2 hne
        exact hnb ⟨hg, this⟩
      exact ⟨⟨fun _ => hm, fun _ => rfl⟩, ⟨fun _ => hm, fun _ => rfl⟩⟩

/-- Witness of C22: four trials of gain 1024 whose phases sum to `-4`: the mean phase is
`-1`, its masking `0xFFF`, and both generations return OutOfRange; with the phases of the
example trials (mean 0) both return Success. -/
theorem IQMCCalcResult_success_iff_witness :
    IQMC_phase_adj_mean ⟨fun _ => 1024, fun _ => -1, 4096, -4⟩ 4 = -1 ∧
      IQMC_temp_phase ⟨fun _ => 1024, fun _ => -1, 4096, -4⟩ 4 = 0xFFF ∧
      (IQMCCalcResult_gen35 exampleHeader ⟨fun _ => 1024, fun _ => -1, 4096, -4⟩ 4 zeroRegs).1 =
        xcvrTrimStatus_t.gXcvrTrimIqmcCalOutOfRange_c ∧
      (IQMCCalcResult_gen4 exampleHeader ⟨fun _ => 1024, fun _ => -1, 4096, -4⟩ 4 zeroRegs).1 =
        xcvrTrimStatus_t.gXcvrTrimIqmcCalOutOfRange_c ∧
      (IQMCCalcResult_gen35 exampleHeader exampleTrials 4 zeroRegs).1 =
        xcvrTrimStatus_t.gXcvrTrimSuccess_c := by
  have h := (IQMCCalcResult_success_iff exampleHeader ⟨fun _ => 1024, fun _ => -1, 4096, -4⟩ 4
    zeroRegs).2.2.2.2 (by decide) (by decide) (by decide)
  exact ⟨by decide, by decide, h.1.2 (by decide), h.2.2 (by decide),
    (IQMCCalcResult_success_iff exampleHeader exampleTrials 4 zeroRegs).1.2 (by decide)⟩

/-! ## I/Q mismatch calibration: a rejected test channel -/

/-- C21 (amended). Whenever `XCVR_OverrideChannel` returns a status other than success for
the requested test channel, `IQMCCalInit` does not force the receive warm-up; the
generation 4 implementation returns InvalidChannel, and the generation 3.5 implementation
returns InvalidMode (the initial value of its status, which only a success replaces), for
each of its recognised modes. -/
theorem IQMCCalInit_rejected_channel (hdr : XcvrHeader) (pllBand : XCVR_BAND_SEL_T)
    (overrideStatus : Nat → xcvrStatus_t) (generic_channel_num dcoc_ctrl_3_val : Nat)
    (radio_mode : radio_mode_t) (regs : RegFile) :
    (overrideStatus generic_channel_num ≠ xcvrStatus_t.gXcvrSuccess_c →
      (IQMCCalInit_gen4 hdr pllBand overrideStatus generic_channel_num regs).trim_status =
          xcvrTrimStatus_t.gXcvrTrimInvalidChannel_c ∧
        InterfaceCall.XCVR_ForceRxWu ∉
          (IQMCCalInit_gen4 hdr pllBand overrideStatus generic_channel_num regs).calls) ∧
    (radio_mode ∈ [radio_mode_t.BLE_MODE, radio_mode_t.BLE_LR] →
      overrideStatus 19 ≠ xcvrStatus_t.gXcvrSuccess_c →
      (IQMCCalInit_gen35 hdr overrideStatus dcoc_ctrl_3_val radio_mode regs).trim_status =
          xcvrTrimStatus_t.gXcvrTrimInvalidMode_c ∧
        (IQMCCalInit_gen35 hdr overrideStatus dcoc_ctrl_3_val radio_mode regs).calls =
          [InterfaceCall.XCVR_OverrideChannel 19]) ∧
    (radio_mode ∈ [radio_mode_t.GFSK_BT_0p5_h_0p5, radio_mode_t.GFSK_BT_0p5_h_0p32,
        radio_mode_t.GFSK_BT_0p5_h_0p7, radio_mode_t.GFSK_BT_0p5_h_1p0, radio_mode_t.MSK] →
      overrideStatus 80 ≠ xcvrStatus_t.gXcvrSuccess_c →
      (IQMCCalInit_gen35 hdr overrideStatus dcoc_ctrl_3_val radio_mode regs).trim_status =
          xcvrTrimStatus_t.gXcvrTrimInvalidMode_c ∧
        (IQMCCalInit_gen35 hdr overrideStatus dcoc_ctrl_3_val radio_mode regs).calls =
          [InterfaceCall.XCVR_OverrideChannel 80]) := by
  refine ⟨?_, ?_, ?_⟩
  · intro h
    unfold IQMCCalInit_gen4
    simp only []
    rw [if_neg h]
    refine ⟨rfl, ?_⟩
    dsimp only
    simp
  · intro hm h
    simp only [List.mem_cons, List.mem_singleton, List.not_mem_nil, or_false] at hm
    rcases hm with hm | hm <;> subst hm <;>
      (simp only [IQMCCalInit_gen35]; rw [if_neg h]; exact ⟨rfl, rfl⟩)
  · intro hm h
    simp only [List.mem_cons, List.mem_singleton, List.not_mem_nil, or_false] at hm
    rcases hm with hm | hm | hm | hm | hm <;> subst hm <;>
      (simp only [IQMCCalInit_gen35]; rw [if_neg h]; exact ⟨rfl, rfl⟩)

/-- Witness of C21 (amended): an interface that rejects every channel with the status
number 3: generation 4 returns InvalidChannel for the channel 40, generation 3.5 returns
InvalidMode for `MSK`, and neither forces the warm-up. -/
theorem IQMCCalInit_rejected_channel_witness :
    ((IQMCCalInit_gen4 exampleHeader XCVR_BAND_SEL_T.XCVR_BAND_SEL_BTLE
          (fun _ => xcvrStatus_t.other 3) 40 zeroRegs).trim_status =
        xcvrTrimStatus_t.gXcvrTrimInvalidChannel_c ∧
      InterfaceCall.XCVR_ForceRxWu ∉
        (IQMCCalInit_gen4 exampleHeader XCVR_BAND_SEL_T.XCVR_BAND_SEL_BTLE
          (fun _ => xcvrStatus_t.other 3) 40 zeroRegs).calls) ∧
    ((IQMCCalInit_gen35 exampleHeader (fun _ => xcvrStatus_t.other 3) 0x80802020
          radio_mode_t.MSK zeroRegs).trim_status = xcvrTrimStatus_t.gXcvrTrimInvalidMode_c ∧
      (IQMCCalInit_gen35 exampleHeader (fun _ => xcvrStatus_t.other 3) 0x80802020
          radio_mode_t.MSK zeroRegs).calls = [InterfaceCall.XCVR_OverrideChannel 80]) :=
  ⟨(IQMCCalInit_rejected_channel exampleHeader XCVR_BAND_SEL_T.XCVR_BAND_SEL_BTLE
      (fun _ => xcvrStatus_t.other 3) 40 0x80802020 radio_mode_t.MSK zeroRegs).1 (by decide),
    (IQMCCalInit_rejected_channel exampleHeader XCVR_BAND_SEL_T.XCVR_BAND_SEL_BTLE
      (fun _ => xcvrStatus_t.other 3) 40 0x80802020 radio_mode_t.MSK zeroRegs).2.2 (by decide)
      (by decide)⟩

/-- Counterexample to C21: in generation 3.5, with the recognised mode `BLE_MODE` and an
interface that rejects the channel 19, `IQMCCalInit` returns InvalidMode, not
InvalidChannel. -/
theorem IQMCCalInit_gen35_rejected_is_invalid_mode :
    (IQMCCalInit_gen35 exampleHeader (fun _ => xcvrStatus_t.other 3) 0x80802020
        radio_mode_t.BLE_MODE zeroRegs).trim_status =
      xcvrTrimStatus_t.gXcvrTrimInvalidMode_c ∧
    (IQMCCalInit_gen35 exampleHeader (fun _ => xcvrStatus_t.other 3) 0x80802020
        radio_mode_t.BLE_MODE zeroRegs).trim_status ≠
      xcvrTrimStatus_t.gXcvrTrimInvalidChannel_c ∧
    (IQMCCalInit_gen35 exampleHeader (fun _ => xcvrStatus_t.other 3) 0x80802020
        radio_mode_t.BLE_MODE zeroRegs).calls = [InterfaceCall.XCVR_OverrideChannel 19] := by
  decide

/-! ## Slope-seek engine: invariants of the sweep under arbitrary measurements -/

/-- The distance of the trims from their nominal values, for each choice between the
current and the prior value of a trim, is at most `k`. -/
theorem chan_step_sweep_distance (c : xcvr_channel_state_t) (step_num k : Nat) (hk : k ≤ 30)
    (h1 : ((c.curr_tza_dac : Int) - 0x80).natAbs + ((c.curr_bba_dac : Int) - 0x20).natAbs ≤ k)
    (h2 : ((c.p_tza_dac : Int) - 0x80).natAbs + ((c.curr_bba_dac : Int) - 0x20).natAbs ≤ k)
    (h3 : ((c.curr_tza_dac : Int) - 0x80).natAbs + ((c.p_bba_dac : Int) - 0x20).natAbs ≤ k)
    (h4 : ((c.p_tza_dac : Int) - 0x80).natAbs + ((c.p_bba_dac : Int) - 0x20).natAbs ≤ k) :
    (((chan_step_sweep c step_num).curr_tza_dac : Int) - 0x80).natAbs +
        (((chan_step_sweep c step_num).curr_bba_dac : Int) - 0x20).natAbs ≤ k + 1 ∧
      (((chan_step_sweep c step_num).p_tza_dac : Int) - 0x80).natAbs +
        (((chan_step_sweep c step_num).curr_bba_dac : Int) - 0x20).natAbs ≤ k + 1 ∧
      (((chan_step_sweep c step_num).curr_tza_dac : Int) - 0x80).natAbs +
        (((chan_step_sweep c step_num).p_bba_dac : Int) - 0x20).natAbs ≤ k + 1 ∧
      (((chan_step_sweep c step_num).p_tza_dac : Int) - 0x80).natAbs +
        (((chan_step_sweep c step_num).p_bba_dac : Int) - 0x20).natAbs ≤ k + 1 := by
  simp only [chan_step_sweep, tza_chan_sweep, bba_chan_sweep, uint8_dec, uint8_inc]
  split_ifs <;> (try simp only []) <;> omega

/-- The distance invariant along the calls of `chan_step_sweep`. -/
theorem sweep_calls_distance (inputs : Nat → Int × Int × Nat) :
    ∀ k, k ≤ 31 →
      (((sweep_calls inputs k).curr_tza_dac : Int) - 0x80).natAbs +
          (((sweep_calls inputs k).curr_bba_dac : Int) - 0x20).natAbs ≤ k ∧
        (((sweep_calls inputs k).p_tza_dac : Int) - 0x80).natAbs +
          (((sweep_calls inputs k).curr_bba_dac : Int) - 0x20).natAbs ≤ k ∧
        (((sweep_calls inputs k).curr_tza_dac : Int) - 0x80).natAbs +
          (((sweep_calls inputs k).p_bba_dac : Int) - 0x20).natAbs ≤ k ∧
        (((sweep_calls inputs k).p_tza_dac : Int) - 0x80).natAbs +
          (((sweep_calls inputs k).p_bba_dac : Int) - 0x20).natAbs ≤ k := by
  intro k
  induction k with
  | zero =>
    intro _
    simp [sweep_calls, init_chan_state]
  | succ k ih =>
    intro hk
    obtain ⟨h1, h2, h3, h4⟩ := ih (by omega)
    exact chan_step_sweep_distance
      { sweep_calls inputs k with dc_meas := (inputs k).1, dc_meas_p := (inputs k).2.1 }
      (inputs k).2.2 k (by omega) h1 h2 h3 h4

/-- The distance invariant along the loop of `DCOC_DAC_INIT_Cal`: after at most `n` more
iterations the distance has grown by at most `n`, in both channels. -/
theorem slope_seek_loop_distance (meas_i meas_q : Nat → Nat → Int) :
    ∀ (n i k : Nat) (i_chan q_chan : xcvr_channel_state_t), k + n ≤ 31 →
      (((i_chan.curr_tza_dac : Int) - 0x80).natAbs + ((i_chan.curr_bba_dac : Int) - 0x20).natAbs ≤ k ∧
        ((i_chan.p_tza_dac : Int) - 0x80).natAbs + ((i_chan.curr_bba_dac : Int) - 0x20).natAbs ≤ k ∧
        ((i_chan.curr_tza_dac : Int) - 0x80).natAbs + ((i_chan.p_bba_dac : Int) - 0x20).natAbs ≤ k ∧
        ((i_chan.p_tza_dac : Int) - 0x80).natAbs + ((i_chan.p_bba_dac : Int) - 0x20).natAbs ≤ k) →
      (((q_chan.curr_tza_dac : Int) - 0x80).natAbs + ((q_chan.curr_bba_dac : Int) - 0x20).natAbs ≤ k ∧
        ((q_chan.p_tza_dac : Int) - 0x80).natAbs + ((q_chan.curr_bba_dac : Int) - 0x20).natAbs ≤ k ∧
        ((q_chan.curr_tza_dac : Int) - 0x80).natAbs + ((q_chan.p_bba_dac : Int) - 0x20).natAbs ≤ k ∧
        ((q_chan.p_tza_dac : Int) - 0x80).natAbs + ((q_chan.p_bba_dac : Int) - 0x20).natAbs ≤ k) →
      ((((slope_seek_loop meas_i meas_q n i (i_chan, q_chan)).1.curr_tza_dac : Int) - 0x80).natAbs +
          (((slope_seek_loop meas_i meas_q n i (i_chan, q_chan)).1.curr_bba_dac : Int) -
            0x20).natAbs ≤ k + n) ∧
        ((((slope_seek_loop meas_i meas_q n i (i_chan, q_chan)).2.curr_tza_dac : Int) -
            0x80).natAbs +
          (((slope_seek_loop meas_i meas_q n i (i_chan, q_chan)).2.curr_bba_dac : Int) -
            0x20).natAbs ≤ k + n) := by
  intro n
  induction n with
  | zero =>
    intro i k i_chan q_chan _ hi hq
    exact ⟨hi.1, hq.1⟩
  | succ n ih =>
    intro i k i_chan q_chan hk hi hq
    have hi1 := chan_step_sweep_distance i_chan i k (by omega) hi.1 hi.2.1 hi.2.2.1 hi.2.2.2
    have hq1 := chan_step_sweep_distance q_chan i k (by omega) hq.1 hq.2.1 hq.2.2.1 hq.2.2.2
    simp only [slope_seek_loop]
    split_ifs
    · exact ⟨le_trans hi1.1 (by omega), le_trans hq1.1 (by omega)⟩
    · have := ih (i + 1) (k + 1) (store_and_measure meas_i (chan_step_sweep i_chan i))
        (store_and_measure meas_q (chan_step_sweep q_chan i)) (by omega) hi1 hq1
      have e : k + 1 + n = k + (n + 1) := by omega
      rw [e] at this
      exact this

/-- C24. Starting from `init_chan_state`, after any `k <= 15` calls of `chan_step_sweep`,
whatever the measurements and the step numbers of the calls are,
`|curr_tza_dac - 0x80| + |curr_bba_dac - 0x20| <= k`: `curr_tza_dac` stays in
`0x71 .. 0x8F` and `curr_bba_dac` in `0x11 .. 0x2F`, neither 8-bit trim wraps around; and
so do the trims of both channels at the end of the loop of `DCOC_DAC_INIT_Cal`, whose
budget is 15 iterations, for every pair of measurement functions. -/
theorem sweep_trims_bounded (inputs : Nat → Int × Int × Nat) (k : Nat) (hk : k ≤ 15)
    (meas_i meas_q : Nat → Nat → Int) (i0 q0 : xcvr_channel_state_t) :
    (|((sweep_calls inputs k).curr_tza_dac : Int) - 0x80| +
        |((sweep_calls inputs k).curr_bba_dac : Int) - 0x20| ≤ k ∧
      0x71 ≤ (sweep_calls inputs k).curr_tza_dac ∧ (sweep_calls inputs k).curr_tza_dac ≤ 0x8F ∧
      0x11 ≤ (sweep_calls inputs k).curr_bba_dac ∧ (sweep_calls inputs k).curr_bba_dac ≤ 0x2F) ∧
    (0x71 ≤ (DCOC_DAC_INIT_Cal_seek meas_i meas_q i0 q0).1.curr_tza_dac ∧
      (DCOC_DAC_INIT_Cal_seek meas_i meas_q i0 q0).1.curr_tza_dac ≤ 0x8F ∧
      0x11 ≤ (DCOC_DAC_INIT_Cal_seek meas_i meas_q i0 q0).1.curr_bba_dac ∧
      (DCOC_DAC_INIT_Cal_seek meas_i meas_q i0 q0).1.curr_bba_dac ≤ 0x2F ∧
      0x71 ≤ (DCOC_DAC_INIT_Cal_seek meas_i meas_q i0 q0).2.curr_tza_dac ∧
      (DCOC_DAC_INIT_Cal_seek meas_i meas_q i0 q0).2.curr_tza_dac ≤ 0x8F ∧
      0x11 ≤ (DCOC_DAC_INIT_Cal_seek meas_i meas_q i0 q0).2.curr_bba_dac ∧
      (DCOC_DAC_INIT_Cal_seek meas_i meas_q i0 q0).2.curr_bba_dac ≤ 0x2F) := by
  have h := (sweep_calls_distance inputs k (by omega)).1
  have hl := slope_seek_loop_distance meas_i meas_q 0x0F 0 0
    { init_chan_state i0 with dc_meas := meas_i 0x80 0x20 }
    { init_chan_state q0 with dc_meas := meas_q 0x80 0x20 } (by norm_num)
    (by simp [init_chan_state]) (by simp [init_chan_state])
  have e : DCOC_DAC_INIT_Cal_seek meas_i meas_q i0 q0 =
      slope_seek_loop meas_i meas_q 0x0F 0
        ({ init_chan_state i0 with dc_meas := meas_i 0x80 0x20 },
          { init_chan_state q0 with dc_meas := meas_q 0x80 0x20 }) := rfl
  rw [e]
  rw [Int.abs_eq_natAbs, Int.abs_eq_natAbs]
  refine ⟨⟨by exact_mod_cast h, ?_, ?_, ?_, ?_⟩, ?_, ?_, ?_, ?_, ?_, ?_, ?_, ?_⟩ <;> omega

/-- Witness of C24: 15 calls with a measurement that stays positive step the coarse trim
down to `0x71`, the lower end of the range, and leave the fine trim at `0x20`. -/
theorem sweep_trims_bounded_witness :
    (sweep_calls (fun _ => (5, 5, 1)) 15).curr_tza_dac = 0x71 ∧
      (sweep_calls (fun _ => (5, 5, 1)) 15).curr_bba_dac = 0x20 ∧
      |((sweep_calls (fun _ => (5, 5, 1)) 15).curr_tza_dac : Int) - 0x80| +
        |((sweep_calls (fun _ => (5, 5, 1)) 15).curr_bba_dac : Int) - 0x20| ≤ (15 : Nat) :=
  ⟨by decide, by decide,
    (sweep_trims_bounded (fun _ => (5, 5, 1)) 15 (by decide) fallingCrossing fallingCrossing
      default default).1.1⟩

/-- A call of `chan_step_sweep` keeps the ordering of the two phases: the fine sweep is
complete only after the coarse one, and the fine trim is at its nominal value until the
coarse sweep is complete. -/
theorem chan_step_sweep_phases (c : xcvr_channel_state_t) (step_num : Nat)
    (h1 : c.BBA_OK = true → c.TZA_OK = true)
    (h2 : c.TZA_OK = false → c.curr_bba_dac = 0x20 ∧ c.p_bba_dac = 0x20) :
    ((chan_step_sweep c step_num).BBA_OK = true → (chan_step_sweep c step_num).TZA_OK = true) ∧
      ((chan_step_sweep c step_num).TZA_OK = false →
        (chan_step_sweep c step_num).curr_bba_dac = 0x20 ∧
          (chan_step_sweep c step_num).p_bba_dac = 0x20) := by
  simp only [chan_step_sweep, tza_chan_sweep, bba_chan_sweep]
  cases hT : c.TZA_OK <;> cases hB : c.BBA_OK <;> simp only [hT, hB] at h1 h2 ⊢
  · split_ifs <;> simp_all
  · simp at h1
  · split_ifs <;> simp_all
  · simp [hT, hB]

/-- A call of `chan_step_sweep` changes at most one of the two trims. -/
theorem chan_step_sweep_one_trim (c : xcvr_channel_state_t) (step_num : Nat) :
    (chan_step_sweep c step_num).curr_tza_dac = c.curr_tza_dac ∨
      (chan_step_sweep c step_num).curr_bba_dac = c.curr_bba_dac := by
  simp only [chan_step_sweep, tza_chan_sweep, bba_chan_sweep]
  split_ifs <;> simp

/-- C25. In every channel state reached from `init_chan_state` by calls of
`chan_step_sweep`, whatever the measurements and the step numbers of the calls are,
`BBA_OK` implies `TZA_OK`, and as long as `TZA_OK` is false `curr_bba_dac` and `p_bba_dac`
both equal the nominal `0x20`; and a call changes at most one of the two trims. -/
theorem sweep_phase_order (inputs : Nat → Int × Int × Nat) (k : Nat) :
    ((sweep_calls inputs k).BBA_OK = true → (sweep_calls inputs k).TZA_OK = true) ∧
      ((sweep_calls inputs k).TZA_OK = false →
        (sweep_calls inputs k).curr_bba_dac = 0x20 ∧ (sweep_calls inputs k).p_bba_dac = 0x20) ∧
      ((sweep_calls inputs (k + 1)).curr_tza_dac = (sweep_calls inputs k).curr_tza_dac ∨
        (sweep_calls inputs (k + 1)).curr_bba_dac = (sweep_calls inputs k).curr_bba_dac) := by
  have hinv : ∀ j, ((sweep_calls inputs j).BBA_OK = true → (sweep_calls inputs j).TZA_OK = true) ∧
      ((sweep_calls inputs j).TZA_OK = false →
        (sweep_calls inputs j).curr_bba_dac = 0x20 ∧ (sweep_calls inputs j).p_bba_dac = 0x20) := by
    intro j
    induction j with
    | zero => simp [sweep_calls, init_chan_state]
    | succ j ih =>
      exact chan_step_sweep_phases
        { sweep_calls inputs j with dc_meas := (inputs j).1, dc_meas_p := (inputs j).2.1 }
        (inputs j).2.2 ih.1 ih.2
  exact ⟨(hinv k).1, (hinv k).2,
    chan_step_sweep_one_trim
      { sweep_calls inputs k with dc_meas := (inputs k).1, dc_meas_p := (inputs k).2.1 }
      (inputs k).2.2⟩

/-- Witness of C25: a positive measurement at the call 0, then a negative one at the call 1
(a sign flip): after one call the coarse sweep is not complete and the fine trim is at
`0x20`; after two calls the coarse sweep is complete. -/
theorem sweep_phase_order_witness :
    (sweep_calls (fun k => if k = 0 then (5, 5, 0) else (-5, 5, 1)) 1).TZA_OK = false ∧
      (sweep_calls (fun k => if k = 0 then (5, 5, 0) else (-5, 5, 1)) 1).curr_bba_dac = 0x20 ∧
      (sweep_calls (fun k => if k = 0 then (5, 5, 0) else (-5, 5, 1)) 1).p_bba_dac = 0x20 ∧
      (sweep_calls (fun k => if k = 0 then (5, 5, 0) else (-5, 5, 1)) 2).TZA_OK = true :=
  ⟨by decide,
    ((sweep_phase_order (fun k => if k = 0 then (5, 5, 0) else (-5, 5, 1)) 1).2.1 (by decide)).1,
    ((sweep_phase_order (fun k => if k = 0 then (5, 5, 0) else (-5, 5, 1)) 1).2.1 (by decide)).2,
    by decide⟩

/-! ## DCOC step calibration: the chain under exact arithmetic -/

/-- The loop body with the rounding `f32round` is the loop body of the model. -/
theorem tza_stage_rnd_f32round (cfg : Nat → Nat) (bbf_dcoc_step k status : Nat) (temp_step : ℚ) :
    tza_stage_rnd f32round cfg bbf_dcoc_step k status temp_step =
      tza_stage cfg bbf_dcoc_step k status temp_step := rfl

/-- The loop with the rounding `f32round` is the loop of the model. -/
theorem tza_stages_rnd_f32round (cfg : Nat → Nat) (bbf_dcoc_step : Nat) (temp_step : ℚ) :
    ∀ n, tza_stages_rnd f32round cfg bbf_dcoc_step temp_step n =
      tza_stages cfg bbf_dcoc_step temp_step n := by
  intro n
  induction n with
  | zero => rfl
  | succ n ih =>
    simp only [tza_stages_rnd, tza_stages, ih, tza_stage_rnd_f32round]

/-- The stage 0 does not read the running step: in the `float32_t` model, the state of the
loop after at least one pass does not depend on the `temp_step` argument. -/
theorem tza_stages_temp_step_irrelevant (cfg : Nat → Nat) (bbf_dcoc_step : Nat) (t1 t2 : ℚ) :
    ∀ n, 1 ≤ n → tza_stages cfg bbf_dcoc_step t1 n = tza_stages cfg bbf_dcoc_step t2 n := by
  intro n
  induction n with
  | zero =>
    intro h
    omega
  | succ n ih =>
    intro _
    rcases Nat.eq_zero_or_pos n with h0 | h0
    · subst h0
      rfl
    · simp only [tza_stages]
      rw [ih h0]

/-- The running step under exact arithmetic. -/
theorem tza_stages_exact_running (cfg : Nat → Nat) (bbf_dcoc_step : Nat) (temp_step : ℚ) :
    (tza_stages_rnd id cfg bbf_dcoc_step temp_step 1).2.1 = (bbf_dcoc_step : ℚ) / (144 / 5) ∧
      ∀ k, 1 ≤ k → k ≤ 10 → (∀ j, j < k → cfg j >>> 16 ≠ 0) →
        (tza_stages_rnd id cfg bbf_dcoc_step temp_step (k + 1)).2.1 =
          (bbf_dcoc_step : ℚ) / (144 / 5) * ((cfg k >>> 16 : Nat) : ℚ) /
            ((cfg 0 >>> 16 : Nat) : ℚ) := by
  have h0 : (tza_stages_rnd id cfg bbf_dcoc_step temp_step 1).2.1 =
      (bbf_dcoc_step : ℚ) / (144 / 5) := by
    simp [tza_stages_rnd, tza_stage_rnd]
    ring
  refine ⟨h0, ?_⟩
  intro k
  induction k with
  | zero =>
    intro h
    omega
  | succ k ih =>
    intro _ h10 hnz
    have hk10 : k + 1 ≤ 10 := h10
    have hkne : k + 1 ≠ 0 := by omega
    have hstep : (tza_stages_rnd id cfg bbf_dcoc_step temp_step (k + 1 + 1)).2.1 =
        (tza_stages_rnd id cfg bbf_dcoc_step temp_step (k + 1)).2.1 *
          (((cfg (k + 1) >>> 16 : Nat) : ℚ) / ((cfg k >>> 16 : Nat) : ℚ)) := by
      simp [tza_stages_rnd, tza_stage_rnd, hk10]
    rw [hstep]
    rcases Nat.eq_zero_or_pos k with hk0 | hk0
    · subst hk0
      rw [h0]
      ring
    · rw [ih hk0 (by omega) (fun j hj => hnz j (by omega))]
      have hr : ((cfg k >>> 16 : Nat) : ℚ) ≠ 0 := by
        exact_mod_cast hnz k (by omega)
      have hr0 : ((cfg 0 >>> 16 : Nat) : ℚ) ≠ 0 := by
        exact_mod_cast hnz 0 (by omega)
      field_simp
      ring

/-- C26. Under exact arithmetic (the loop of `calc_tza_step_recip` with the identity for
the rounding) the running step after the stage 0 is `bbf_dcoc_step / 28.8`, and after the
stage `k` (`1 <= k <= 10`), when the ratios `r_j = dcoc_tza_step_j >> 16` of the stages
below `k` are not zero, it is `(bbf_dcoc_step / 28.8) * r_k / r_0`. In the `float32_t`
model as well the chain does not depend on the `temp_step` argument: two calls with the
same quantized step and different `temp_step` derive the same chain and make the same
writes to the registers `DCOC_TZA_STEP_k`; `temp_step` only determines the reciprocal
written to `DCOC_BBA_STEP`. -/
theorem chain_exact_and_independent (cfg : Nat → Nat) (bbf_dcoc_step : Nat) (t1 t2 : ℚ) :
    (tza_stages_rnd id cfg bbf_dcoc_step t1 1).2.1 = (bbf_dcoc_step : ℚ) / (144 / 5) ∧
      (∀ k, 1 ≤ k → k ≤ 10 → (∀ j, j < k → cfg j >>> 16 ≠ 0) →
        (tza_stages_rnd id cfg bbf_dcoc_step t1 (k + 1)).2.1 =
          (bbf_dcoc_step : ℚ) / (144 / 5) * ((cfg k >>> 16 : Nat) : ℚ) /
            ((cfg 0 >>> 16 : Nat) : ℚ)) ∧
      (∀ n, tza_stages_rnd f32round cfg bbf_dcoc_step t1 n =
        tza_stages cfg bbf_dcoc_step t1 n) ∧
      (calc_tza_step_recip cfg t1 bbf_dcoc_step).2.2 =
        (calc_tza_step_recip cfg t2 bbf_dcoc_step).2.2 ∧
      (calc_tza_step_recip cfg t1 bbf_dcoc_step).2.1.tail =
        (calc_tza_step_recip cfg t2 bbf_dcoc_step).2.1.tail ∧
      ((250 < bbf_dcoc_step ∧ bbf_dcoc_step < 305) →
        (calc_tza_step_recip cfg t1 bbf_dcoc_step).2.1.head? =
          some ⟨StepReg.DCOC_BBA_STEP, bbf_dcoc_step,
            f32_to_uint32 (roundf (f32div 0x8000 t1))⟩) := by
  have hx := tza_stages_exact_running cfg bbf_dcoc_step t1
  have hi := tza_stages_temp_step_irrelevant cfg bbf_dcoc_step t1 t2 11 (by norm_num)
  refine ⟨hx.1, hx.2, tza_stages_rnd_f32round cfg bbf_dcoc_step t1, ?_, ?_, ?_⟩
  · unfold calc_tza_step_recip
    split_ifs
    · simp only [hi]
    · rfl
  · unfold calc_tza_step_recip
    split_ifs
    · simp only [hi, List.cons_append, List.nil_append, List.tail_cons]
    · rfl
  · intro hb
    unfold calc_tza_step_recip
    rw [if_pos hb]
    rfl

/-- Witness of C26: the quantized step 288 with the example ratios. Under exact arithmetic
the running step after the stage 0 is 10 and after the stage 1 it is `10 * 0x3D2 / 0x2B8`;
the calls with `temp_step` 36 and 37 derive the same chain. -/
theorem chain_exact_and_independent_witness :
    (tza_stages_rnd id exampleTzaConfig 288 36 1).2.1 = 10 ∧
      (tza_stages_rnd id exampleTzaConfig 288 36 2).2.1 = 10 * 978 / 696 ∧
      (calc_tza_step_recip exampleTzaConfig 36 288).2.2 =
        (calc_tza_step_recip exampleTzaConfig 37 288).2.2 := by
  have h := chain_exact_and_independent exampleTzaConfig 288 36 37
  have h1 := h.2.1 1 (le_refl 1) (by norm_num) (by
    intro j hj
    have : j = 0 := by omega
    subst this
    decide)
  have e0 : exampleTzaConfig 0 >>> 16 = 696 := by decide
  have e1 : exampleTzaConfig 1 >>> 16 = 978 := by decide
  rw [e0, e1] at h1
  refine ⟨?_, ?_, h.2.2.2.1⟩
  · rw [h.1]
    norm_num
  · rw [h1]
    norm_num

/-! ## DCOC step calibration: the registers of the chain -/

/-- The value that `calc_tza_step_recip` leaves in `DCOC_TZA_STEP_0`. -/
theorem calc_tza_step_recip_stage_zero_reg (hdr : XcvrHeader) (cfg : Nat → Nat) (temp_step : ℚ)
    (bbf_dcoc_step : Nat) (regs : RegFile)
    (hb : 250 < bbf_dcoc_step ∧ bbf_dcoc_step < 305) :
    (applyStepWrites hdr (calc_tza_step_recip cfg temp_step bbf_dcoc_step).2.1 regs)
        (Reg.DCOC_TZA_STEP 0) =
      (hdr.DCOC_TZA_STEP_GAIN 0).put
          (((calc_tza_step_recip cfg temp_step bbf_dcoc_step).2.2.getD 0 default).dcoc_step *
            10) |||
        (hdr.DCOC_TZA_STEP_RCP 0).put
          (((calc_tza_step_recip cfg temp_step bbf_dcoc_step).2.2.getD 0 default).dcoc_step_rcp /
            10) := by
  have hr : List.range 10 = [0, 1, 2, 3, 4, 5, 6, 7, 8, 9] := by decide
  unfold calc_tza_step_recip
  rw [if_pos hb]
  generalize tza_stages cfg bbf_dcoc_step temp_step 11 = loop
  simp only [hr, List.map, List.cons_append, List.nil_append, applyStepWrites, List.foldl,
    StepReg.toReg, StepWrite.value]
  simp [RegFile.write]

/-- The entries 0 and 1 of the chain of the first example configuration, for the quantized
step 288. -/
theorem chainConfigA_entries (t : ℚ) :
    (calc_tza_step_recip chainConfigA t 288).2.2.getD 0 default = ⟨80, 3277⟩ ∧
      (calc_tza_step_recip chainConfigA t 288).2.2.getD 1 default = ⟨640, 410⟩ := by
  obtain ⟨h1, _, h2, _⟩ := chainConfig_running t
  obtain ⟨q1, q2, _, _, _, _⟩ := chainConfig_quantized
  have p1 : f32mul 10 8 = ((80 : ℕ) : ℚ) / ((1 : ℕ) : ℚ) := by
    unfold f32mul
    have e : (10 : ℚ) * 8 = ((80 : ℤ) : ℚ) := by norm_num
    rw [e, f32round_intCast 80 (by norm_num)]
    norm_num
  have p2 : f32div 0x8000 10 = ((13421773 : ℕ) : ℚ) / ((4096 : ℕ) : ℚ) := by
    unfold f32div
    have e : (0x8000 : ℚ) / 10 = 16384 / 5 := by norm_num
    rw [e, f32round_eval (16384 / 5) 11 13421773 (by norm_num) (by norm_num [abs_of_pos])
      (by norm_num [abs_of_pos]) (by norm_num [abs_lt])]
    norm_num
  rw [calc_tza_step_recip_chain chainConfigA t 288 (by decide),
    tza_stages_entry_running chainConfigA 288 t 0 (by norm_num),
    tza_stages_entry_running chainConfigA 288 t 1 (by norm_num), h1, h2, q1, q2, p1, p2,
    roundf_natCast_div _ _ (by norm_num : 0 < 1),
    roundf_natCast_div _ _ (by norm_num : 0 < 4096),
    f32_to_uint16_natCast _ (by norm_num), f32_to_uint16_natCast _ (by norm_num)]
  exact ⟨rfl, rfl⟩

/-- C23 (amended). On success (`250 < bbf_dcoc_step < 305`), `calc_tza_step_recip` commits
the chain to the registers `DCOC_TZA_STEP_k`: for every stage `k` from 1 to 10 the gain
field receives `tza_dcoc_step[k].dcoc_step` and the reciprocal field receives
`tza_dcoc_step[k].dcoc_step_rcp`; for the stage 0 the gain field receives
`tza_dcoc_step[0].dcoc_step * 10` and the reciprocal field receives
`tza_dcoc_step[0].dcoc_step_rcp / 10` (integer division). -/
theorem calc_tza_step_recip_commits (hdr : XcvrHeader) (cfg : Nat → Nat) (temp_step : ℚ)
    (bbf_dcoc_step : Nat) (regs : RegFile)
    (hb : 250 < bbf_dcoc_step ∧ bbf_dcoc_step < 305) :
    (∀ k, 1 ≤ k → k ≤ 10 →
      (applyStepWrites hdr (calc_tza_step_recip cfg temp_step bbf_dcoc_step).2.1 regs)
          (Reg.DCOC_TZA_STEP k) =
        (hdr.DCOC_TZA_STEP_GAIN k).put
            ((calc_tza_step_recip cfg temp_step bbf_dcoc_step).2.2.getD k default).dcoc_step |||
          (hdr.DCOC_TZA_STEP_RCP k).put
            ((calc_tza_step_recip cfg temp_step bbf_dcoc_step).2.2.getD k default).dcoc_step_rcp) ∧
      (applyStepWrites hdr (calc_tza_step_recip cfg temp_step bbf_dcoc_step).2.1 regs)
          (Reg.DCOC_TZA_STEP 0) =
        (hdr.DCOC_TZA_STEP_GAIN 0).put
            (((calc_tza_step_recip cfg temp_step bbf_dcoc_step).2.2.getD 0 default).dcoc_step *
              10) |||
          (hdr.DCOC_TZA_STEP_RCP 0).put
            (((calc_tza_step_recip cfg temp_step bbf_dcoc_step).2.2.getD 0 default).dcoc_step_rcp /
              10) := by
  refine ⟨?_, calc_tza_step_recip_stage_zero_reg hdr cfg temp_step bbf_dcoc_step regs hb⟩
  have hr : List.range 10 = [0, 1, 2, 3, 4, 5, 6, 7, 8, 9] := by decide
  unfold calc_tza_step_recip
  rw [if_pos hb]
  generalize tza_stages cfg bbf_dcoc_step temp_step 11 = loop
  simp only [hr, List.map, List.cons_append, List.nil_append, applyStepWrites, List.foldl,
    StepReg.toReg, StepWrite.value]
  intro k h1 h10
  interval_cases k <;> simp [RegFile.write]

/-- Witness of C23 (amended): the quantized step 288 with the first example configuration,
in the example layout: the chain entries 0 and 1 are `(80, 3277)` and `(640, 410)`;
`DCOC_TZA_STEP_1` holds the gain 640 and the reciprocal 410, `DCOC_TZA_STEP_0` holds the
gain 800 and the reciprocal 327. -/
theorem calc_tza_step_recip_commits_witness :
    (applyStepWrites exampleHeader (calc_tza_step_recip chainConfigA 36 288).2.1 zeroRegs)
        (Reg.DCOC_TZA_STEP 1) = 640 * 65536 + 410 ∧
      (applyStepWrites exampleHeader (calc_tza_step_recip chainConfigA 36 288).2.1 zeroRegs)
        (Reg.DCOC_TZA_STEP 0) = 800 * 65536 + 327 := by
  have h := calc_tza_step_recip_commits exampleHeader chainConfigA 36 288 zeroRegs (by decide)
  obtain ⟨e0, e1⟩ := chainConfigA_entries 36
  have h1 := h.1 1 (le_refl 1) (by norm_num)
  have h0 := h.2
  rw [e1] at h1
  rw [e0] at h0
  rw [h1, h0]
  exact ⟨by decide, by decide⟩

/-- Counterexample to C23: for the quantized step 288 the chain entry 0 is the step 80 with
the reciprocal 3277, but `DCOC_TZA_STEP_0` receives the gain 800 and the reciprocal 327
(in the example layout the register value `800 * 2 ^ 16 + 327`), not the fields of the
entry (`80 * 2 ^ 16 + 3277`). -/
theorem calc_tza_step_recip_scales_stage_zero :
    (calc_tza_step_recip chainConfigA 36 288).2.2.getD 0 default = ⟨80, 3277⟩ ∧
      (applyStepWrites exampleHeader (calc_tza_step_recip chainConfigA 36 288).2.1 zeroRegs)
        (Reg.DCOC_TZA_STEP 0) = 800 * 65536 + 327 ∧
      (exampleHeader.DCOC_TZA_STEP_GAIN 0).get (800 * 65536 + 327) = 800 ∧
      (exampleHeader.DCOC_TZA_STEP_RCP 0).get (800 * 65536 + 327) = 327 ∧
      (exampleHeader.DCOC_TZA_STEP_GAIN 0).put 80 ||| (exampleHeader.DCOC_TZA_STEP_RCP 0).put 3277 =
        80 * 65536 + 3277 := by
  obtain ⟨e0, _⟩ := chainConfigA_entries 36
  have h0 := calc_tza_step_recip_stage_zero_reg exampleHeader chainConfigA 36 288 zeroRegs
    (by decide)
  rw [e0] at h0
  refine ⟨e0, ?_, by decide, by decide, by decide⟩
  rw [h0]
  decide

/-! ## DCOC step calibration: the inline chain against `calc_tza_step_recip` -/

theorem shortIQ_stages_length (cfg : Nat → Nat) (bbf_dcoc_step : Nat) (temp_step : ℚ) :
    ∀ n, (shortIQ_stages cfg bbf_dcoc_step temp_step n).2.length = n := by
  intro n
  induction n with
  | zero => rfl
  | succ n ih =>
    simp only [shortIQ_stages, List.length_append, List.length_singleton, ih]

/-- The entry `k` of the inline chain is the one that the pass `k` of the loop computes
from the running `temp_step` left by the passes before it. -/
theorem shortIQ_stages_entry (cfg : Nat → Nat) (bbf_dcoc_step : Nat) (temp_step : ℚ) (k : Nat) :
    ∀ n, k < n → (shortIQ_stages cfg bbf_dcoc_step temp_step n).2.getD k default =
      (shortIQ_stage cfg bbf_dcoc_step k
        (shortIQ_stages cfg bbf_dcoc_step temp_step k).1).2 := by
  intro n
  induction n with
  | zero =>
    intro h
    omega
  | succ n ih =>
    intro h
    have hlen := shortIQ_stages_length cfg bbf_dcoc_step temp_step n
    simp only [shortIQ_stages]
    by_cases hk : k < n
    · rw [List.getD_append _ _ _ _ (by rw [hlen]; exact hk)]
      exact ih hk
    · have hkn : k = n := by omega
      subst hkn
      rw [List.getD_append_right _ _ _ _ (by rw [hlen])]
      simp [hlen]

/-- The stage 0 of the inline chain of `rx_bba_dcoc_dac_trim_shortIQ`, for the averaged
step `36.0` and its quantized step 288: the running step becomes `360.0`. -/
theorem shortIQ_stage_zero_288 (cfg : Nat → Nat) :
    shortIQ_stage cfg 288 0 36 = (360, ⟨2880, 91⟩) := by
  have h288 : f32_of_int ((288 : ℕ) : ℤ) = 288 := by
    have := f32_of_int_eq 288 (by norm_num)
    simpa using this
  have h1 : f32div 288 8 = 36 := by
    unfold f32div
    have e : (288 : ℚ) / 8 = ((36 : ℤ) : ℚ) := by norm_num
    rw [e, f32round_intCast 36 (by norm_num)]
    norm_num
  have h2 : f32round (18 / 5) = 7549747 / 2097152 := by
    rw [f32round_eval (18 / 5) 1 15099494 (by norm_num) (by norm_num [abs_of_pos])
      (by norm_num [abs_of_pos]) (by norm_num [abs_lt])]
    norm_num
  have h3 : f32div 36 (7549747 / 2097152) = 10 := by
    unfold f32div
    have e : (36 : ℚ) / (7549747 / 2097152) = 75497472 / 7549747 := by norm_num
    rw [e, f32round_eval (75497472 / 7549747) 3 10485760 (by norm_num)
      (by norm_num [abs_of_pos]) (by norm_num [abs_of_pos]) (by norm_num [abs_lt])]
    norm_num
  have h4 : f32mul 36 10 = 360 := by
    unfold f32mul
    have e : (36 : ℚ) * 10 = ((360 : ℤ) : ℚ) := by norm_num
    rw [e, f32round_intCast 360 (by norm_num)]
    norm_num
  have h5 : f32mul 360 8 = ((2880 : ℕ) : ℚ) / ((1 : ℕ) : ℚ) := by
    unfold f32mul
    have e : (360 : ℚ) * 8 = ((2880 : ℤ) : ℚ) := by norm_num
    rw [e, f32round_intCast 2880 (by norm_num)]
    norm_num
  have h6 : f32div 0x8000 360 = ((11930465 : ℕ) : ℚ) / ((131072 : ℕ) : ℚ) := by
    unfold f32div
    have e : (0x8000 : ℚ) / 360 = 4096 / 45 := by norm_num
    rw [e, f32round_eval (4096 / 45) 6 11930465 (by norm_num) (by norm_num [abs_of_pos])
      (by norm_num [abs_of_pos]) (by norm_num [abs_lt])]
    norm_num
  simp only [shortIQ_stage]
  rw [if_neg (by omega), h288, h1, h2, h3, h4, h5, h6,
    roundf_natCast_div _ _ (by norm_num : 0 < 1),
    roundf_natCast_div _ _ (by norm_num : 0 < 131072),
    f32_to_uint16_natCast _ (by norm_num), f32_to_uint16_natCast _ (by norm_num)]

/-- C27, divergence. For the averaged step `36.0`, whose quantized step 288 is inside both
bands, and the same stage ratios, the entry 0 of the chain derived inline by
`rx_bba_dcoc_dac_trim_shortIQ` is the step 2880 with the reciprocal 91, while the entry 0
of the chain derived by `calc_tza_step_recip` is the step 80 with the reciprocal 3277: the
inline loop multiplies the averaged step by `(bbf_dcoc_step / 8) / 3.6` at the stage 0,
`calc_tza_step_recip` restarts from `bbf_dcoc_step / 28.8`. -/
theorem shortIQ_chain_differs :
    quantize_step 36 = 288 ∧
      (shortIQ_step_recip chainConfigA 36 288).1 = xcvrStatus_t.gXcvrSuccess_c ∧
      (calc_tza_step_recip chainConfigA 36 288).1 = 1 ∧
      (shortIQ_step_recip chainConfigA 36 288).2.2.getD 0 default = ⟨2880, 91⟩ ∧
      (calc_tza_step_recip chainConfigA 36 288).2.2.getD 0 default = ⟨80, 3277⟩ := by
  have hq : quantize_step 36 = 288 := by
    have := (quantize_step_dyadic 2304 (by norm_num)).1
    have e : ((2304 : ℕ) : ℚ) / 64 = 36 := by norm_num
    rw [e] at this
    exact this
  refine ⟨hq, (shortIQ_step_recip_status chainConfigA 36 288).2 (by decide),
    (calc_tza_step_recip_status chainConfigA 36 288).2 (by decide), ?_,
    (chainConfigA_entries 36).1⟩
  have e : (shortIQ_step_recip chainConfigA 36 288).2.2 =
      (shortIQ_stages chainConfigA 288 36 11).2 := by
    unfold shortIQ_step_recip
    rw [if_pos (by decide)]
  rw [e, shortIQ_stages_entry chainConfigA 288 36 0 11 (by norm_num)]
  show (shortIQ_stage chainConfigA 288 0 36).2 = _
  rw [shortIQ_stage_zero_288]

/-! ## I/Q mismatch calibration: the masked phase keeps the mean -/

/-- The sign extension of a 12-bit value, read as an `int16_t`. -/
theorem signExtendPhase_value (v : Nat) (hv : v < 4096) :
    toInt16 (signExtendPhase v) = if v < 2048 then (v : Int) else (v : Int) - 4096 := by
  have h := (signExtend_chunks ⟨v / 64, by omega⟩ ⟨v % 64, Nat.mod_lt _ (by norm_num)⟩).2
  have e : 64 * (v / 64) + v % 64 = v := Nat.div_add_mod v 64
  simp only [e] at h
  exact h

theorem sum_range_bounds (f : Nat → Int) (lo hi : Int) :
    ∀ n, (∀ i, i < n → lo ≤ f i ∧ f i ≤ hi) →
      lo * (n : Int) ≤ ∑ i in Finset.range n, f i ∧ ∑ i in Finset.range n, f i ≤ hi * (n : Int) := by
  intro n
  induction n with
  | zero =>
    intro _
    simp
  | succ n ih =>
    intro h
    have h1 := ih (fun i hi => h i (by omega))
    have h2 := h n (by omega)
    rw [Finset.sum_range_succ]
    push_cast
    constructor <;> nlinarith

/-- The truncating quotient of a sum of `n` values of `lo .. hi` (with `lo <= 0 <= hi`)
by `n` lies in `lo .. hi`. -/
theorem tdiv_bounds (s : Int) (n : Nat) (lo hi : Int) (hn : 1 ≤ n) (hlo : lo ≤ 0) (hhi : 0 ≤ hi)
    (h1 : lo * (n : Int) ≤ s) (h2 : s ≤ hi * (n : Int)) :
    lo ≤ Int.tdiv s (n : Int) ∧ Int.tdiv s (n : Int) ≤ hi := by
  have hnpos : (0 : Int) < (n : Int) := by exact_mod_cast hn
  rcases le_or_lt 0 s with hs | hs
  · rw [Int.tdiv_eq_ediv hs hnpos.le]
    constructor
    · exact le_trans hlo (Int.ediv_nonneg hs hnpos.le)
    · exact Int.ediv_le_of_le_mul hnpos h2
  · have hneg : Int.tdiv s (n : Int) = -((-s) / (n : Int)) := by
      have := Int.neg_tdiv (-s) (n : Int)
      rw [neg_neg] at this
      rw [this, Int.tdiv_eq_ediv (by omega) hnpos.le]
    rw [hneg]
    have h3 : (-s) / (n : Int) ≤ -lo := Int.ediv_le_of_le_mul hnpos (by linarith)
    have h4 : 0 ≤ (-s) / (n : Int) := Int.ediv_nonneg (by omega) hnpos.le
    constructor <;> omega

/-- C28. For every trial buffer whose phase samples are sign-extended 12-bit values
(`-2048 .. 2047`) and whose phase sum is the sum of the first `num_trials` samples, and
every trial count from 1 to 127, the signed phase mean computed by `IQMCCalcResult` lies
in `-2048 .. 2047`, and sign-extending the 12-bit masked phase that is committed recovers
the mean exactly. -/
theorem phase_mean_recoverable (trials_data : xcvr_iqmc_trials_t) (num_trials : Nat)
    (h1 : 1 ≤ num_trials) (h127 : num_trials ≤ 127)
    (hs : ∀ i, i < num_trials → -2048 ≤ trials_data.IQMC_phase_cal_trials i ∧
      trials_data.IQMC_phase_cal_trials i ≤ 2047)
    (hsum : trials_data.IQMC_phase_adj_sum =
      ∑ i in Finset.range num_trials, trials_data.IQMC_phase_cal_trials i) :
    -2048 ≤ IQMC_phase_adj_mean trials_data num_trials ∧
      IQMC_phase_adj_mean trials_data num_trials ≤ 2047 ∧
      toInt16 (signExtendPhase (IQMC_temp_phase trials_data num_trials)) =
        IQMC_phase_adj_mean trials_data num_trials := by
  have hb := sum_range_bounds trials_data.IQMC_phase_cal_trials (-2048) 2047 num_trials hs
  rw [← hsum] at hb
  have ht := tdiv_bounds trials_data.IQMC_phase_adj_sum num_trials (-2048) 2047 h1 (by norm_num)
    (by norm_num) hb.1 hb.2
  have hpm : IQMC_phase_adj_mean trials_data num_trials =
      Int.tdiv trials_data.IQMC_phase_adj_sum (num_trials : Int) := by
    unfold IQMC_phase_adj_mean
    rw [toInt8_of_le num_trials h127]
    apply wrapInt16_of_isInt16
    unfold isInt16
    omega
  have htp : IQMC_temp_phase trials_data num_trials =
      (IQMC_phase_adj_mean trials_data num_trials % 4096).toNat := by
    unfold IQMC_temp_phase
    rw [and_fff_eq_mod]
    unfold toUInt16
    omega
  rw [← hpm] at ht
  refine ⟨ht.1, ht.2, ?_⟩
  rw [htp, signExtendPhase_value _ (by omega)]
  split_ifs <;> omega

/-- Witness of C28: four phase samples `-2048, -2048, -2047, -2048`, whose sum is `-8191`:
the mean is `-2047` (truncation toward zero), its masking `0x801`, and the sign extension
of `0x801` is `-2047`. -/
theorem phase_mean_recoverable_witness :
    IQMC_phase_adj_mean ⟨fun _ => 0, fun k => if k = 2 then -2047 else -2048, 0, -8191⟩ 4 =
        -2047 ∧
      IQMC_temp_phase ⟨fun _ => 0, fun k => if k = 2 then -2047 else -2048, 0, -8191⟩ 4 =
        0x801 ∧
      toInt16 (signExtendPhase
          (IQMC_temp_phase ⟨fun _ => 0, fun k => if k = 2 then -2047 else -2048, 0, -8191⟩ 4)) =
        IQMC_phase_adj_mean ⟨fun _ => 0, fun k => if k = 2 then -2047 else -2048, 0, -8191⟩ 4 :=
  ⟨by decide, by decide,
    (phase_mean_recoverable ⟨fun _ => 0, fun k => if k = 2 then -2047 else -2048, 0, -8191⟩ 4
      (by decide) (by decide) (by decide) (by decide)).2.2⟩

/-! ## Slope-seek engine: the gain back-off loop -/

/-- A pass of the gain back-off loop over a constant estimate. -/
theorem backoff_pass_const (hdr : XcvrHeader) (v : Nat) (s : BackoffState) :
    backoff_pass hdr (fun _ => v) s =
      ⟨uint8_dec s.bba_gain, dc_est_sample_i v, dc_est_sample_q v,
        s.regs.write Reg.AGC_CTRL_1
          (hdr.AGC_CTRL_1_USER_LNA_GAIN_EN.put 1 ||| hdr.AGC_CTRL_1_LNA_USER_GAIN.put 0 |||
            hdr.AGC_CTRL_1_USER_BBA_GAIN_EN.put 1 |||
            hdr.AGC_CTRL_1_BBA_USER_GAIN.put (uint8_dec s.bba_gain))⟩ := by
  unfold backoff_pass
  rw [rx_dc_est_average_const]
  rfl

/-- The local `bba_gain` after `j` passes: `11 - j` modulo 256. -/
theorem backoff_passes_bba_gain (hdr : XcvrHeader) (dc_est : Nat → Nat → Nat) (regs : RegFile)
    (j : Nat) : (backoff_passes hdr dc_est regs j).bba_gain = (11 + 255 * j) % 256 := by
  induction j with
  | zero => rfl
  | succ j ih =>
    simp only [backoff_passes, backoff_pass, uint8_dec, ih]
    omega

/-- The value of `AGC_CTRL_1` after a pass holds the gain of that pass. -/
theorem backoff_passes_reg (hdr : XcvrHeader) (dc_est : Nat → Nat → Nat) (regs : RegFile)
    (j : Nat) :
    (backoff_passes hdr dc_est regs (j + 1)).regs Reg.AGC_CTRL_1 =
      (hdr.AGC_CTRL_1_USER_LNA_GAIN_EN.put 1 ||| hdr.AGC_CTRL_1_LNA_USER_GAIN.put 0 |||
        hdr.AGC_CTRL_1_USER_BBA_GAIN_EN.put 1 |||
        hdr.AGC_CTRL_1_BBA_USER_GAIN.put (backoff_passes hdr dc_est regs (j + 1)).bba_gain) := by
  simp only [backoff_passes, backoff_pass]
  exact write_same _ _ _

/-- The loop is left at the first pass whose measurement is not too high, when the fuel
reaches it. -/
theorem backoff_loop_passes (hdr : XcvrHeader) (dc_est : Nat → Nat → Nat) (regs : RegFile)
    (j0 : Nat)
    (hclip : ∀ j, j < j0 →
      dc_is_too_high (backoff_passes hdr dc_est regs (j + 1)).i_dc_meas
        (backoff_passes hdr dc_est regs (j + 1)).q_dc_meas = true)
    (hok : dc_is_too_high (backoff_passes hdr dc_est regs (j0 + 1)).i_dc_meas
        (backoff_passes hdr dc_est regs (j0 + 1)).q_dc_meas = false) :
    ∀ fuel j, j ≤ j0 → j0 < j + fuel →
      backoff_loop hdr dc_est fuel j (backoff_passes hdr dc_est regs j) =
        some (j0 + 1, backoff_passes hdr dc_est regs (j0 + 1)) := by
  intro fuel
  induction fuel with
  | zero =>
    intro j h1 h2
    omega
  | succ fuel ih =>
    intro j h1 h2
    rcases Nat.lt_or_ge j j0 with hlt | hge
    · have hc := hclip j hlt
      simp only [backoff_passes] at hc
      simp only [backoff_loop, hc, if_true]
      exact ih (j + 1) hlt (by omega)
    · have hj : j = j0 := by omega
      subst hj
      have hc := hok
      simp only [backoff_passes] at hc
      simp only [backoff_loop, hc]
      rfl

/-- The loop is not left while every measurement is too high, whatever the fuel. -/
theorem backoff_loop_never (hdr : XcvrHeader) (dc_est : Nat → Nat → Nat) (regs : RegFile)
    (hclip : ∀ j,
      dc_is_too_high (backoff_passes hdr dc_est regs (j + 1)).i_dc_meas
        (backoff_passes hdr dc_est regs (j + 1)).q_dc_meas = true) :
    ∀ fuel j, backoff_loop hdr dc_est fuel j (backoff_passes hdr dc_est regs j) = none := by
  intro fuel
  induction fuel with
  | zero =>
    intro j
    rfl
  | succ fuel ih =>
    intro j
    have hc := hclip j
    simp only [backoff_passes] at hc
    simp only [backoff_loop, hc, if_true]
    exact ih (j + 1)

theorem dc_est_sample_2000 : dc_est_sample_i 2000 = 2000 ∧ dc_est_sample_q 2000 = 0 := by
  decide

theorem dc_est_sample_100 : dc_est_sample_i 100 = 100 ∧ dc_est_sample_q 100 = 0 := by
  decide

/-- The measurements of the passes over `clippingDcEst` are all too high. -/
theorem clipping_too_high (hdr : XcvrHeader) (regs : RegFile) (j : Nat) :
    dc_is_too_high (backoff_passes hdr clippingDcEst regs (j + 1)).i_dc_meas
      (backoff_passes hdr clippingDcEst regs (j + 1)).q_dc_meas = true := by
  have e : clippingDcEst j = fun _ => 2000 := rfl
  simp only [backoff_passes, e, backoff_pass_const, dc_est_sample_2000.1, dc_est_sample_2000.2]
  decide

/-- The measurements of the passes over `settlingDcEst`: too high in the passes 1 and 2,
not too high from the pass 3 on. -/
theorem settling_too_high (hdr : XcvrHeader) (regs : RegFile) (j : Nat) :
    dc_is_too_high (backoff_passes hdr settlingDcEst regs (j + 1)).i_dc_meas
      (backoff_passes hdr settlingDcEst regs (j + 1)).q_dc_meas = decide (j < 2) := by
  have e : settlingDcEst j = fun _ => (if j < 2 then 2000 else 100) := rfl
  simp only [backoff_passes, e, backoff_pass_const]
  by_cases h : j < 2
  · simp only [h, if_true, dc_est_sample_2000.1, dc_est_sample_2000.2]
    decide
  · simp only [h, if_false, dc_est_sample_100.1, dc_est_sample_100.2]
    decide

/-- C29 (amended). The gain back-off loop of `DCOC_DAC_INIT_Cal` has no bound of its own:
it is left at the first pass whose measurement is not too high. If the measurements of the
passes `1 .. j0` are too high and the measurement of the pass `j0 + 1` is not, the loop
returns after exactly `j0 + 1` measurements (given fuel for them); the gain written to
`AGC_CTRL_1` at the pass `j + 1` is `10 - j` modulo 256, so every gain written lies in
`0 .. 10` when `j0 <= 10`, that is when the loop is left within 11 measurements. -/
theorem backoff_loop_exits (hdr : XcvrHeader) (dc_est : Nat → Nat → Nat) (regs : RegFile)
    (j0 fuel : Nat)
    (hclip : ∀ j, j < j0 →
      dc_is_too_high (backoff_passes hdr dc_est regs (j + 1)).i_dc_meas
        (backoff_passes hdr dc_est regs (j + 1)).q_dc_meas = true)
    (hok : dc_is_too_high (backoff_passes hdr dc_est regs (j0 + 1)).i_dc_meas
        (backoff_passes hdr dc_est regs (j0 + 1)).q_dc_meas = false)
    (hfuel : j0 < fuel) :
    backoff_loop hdr dc_est fuel 0 (backoff_entry regs) =
        some (j0 + 1, backoff_passes hdr dc_est regs (j0 + 1)) ∧
      (∀ j, j ≤ j0 →
        (backoff_passes hdr dc_est regs (j + 1)).bba_gain = (10 + 255 * j) % 256 ∧
        (backoff_passes hdr dc_est regs (j + 1)).regs Reg.AGC_CTRL_1 =
          (hdr.AGC_CTRL_1_USER_LNA_GAIN_EN.put 1 ||| hdr.AGC_CTRL_1_LNA_USER_GAIN.put 0 |||
            hdr.AGC_CTRL_1_USER_BBA_GAIN_EN.put 1 |||
            hdr.AGC_CTRL_1_BBA_USER_GAIN.put ((10 + 255 * j) % 256))) ∧
      (j0 ≤ 10 → ∀ j, j ≤ j0 →
        (backoff_passes hdr dc_est regs (j + 1)).bba_gain = 10 - j ∧
        (backoff_passes hdr dc_est regs (j + 1)).bba_gain ≤ 10) := by
  have hg : ∀ j, (backoff_passes hdr dc_est regs (j + 1)).bba_gain = (10 + 255 * j) % 256 := by
    intro j
    rw [backoff_passes_bba_gain]
    omega
  refine ⟨?_, ?_, ?_⟩
  · exact backoff_loop_passes hdr dc_est regs j0 hclip hok fuel 0 (Nat.zero_le _) (by omega)
  · intro j _
    refine ⟨hg j, ?_⟩
    rw [backoff_passes_reg, hg j]
  · intro h10 j hj
    rw [hg j]
    have hj10 : j ≤ 10 := le_trans hj h10
    interval_cases j <;> simp

/-- Witness of C29: over `settlingDcEst` (estimate 2000 in two passes, then 100) the
loop is left after 3 measurements with `bba_gain = 8`. -/
theorem backoff_loop_exits_witness :
    backoff_loop exampleHeader settlingDcEst 11 0 (backoff_entry zeroRegs) =
        some (3, backoff_passes exampleHeader settlingDcEst zeroRegs 3) ∧
      (backoff_passes exampleHeader settlingDcEst zeroRegs 3).bba_gain = 8 :=
  ⟨(backoff_loop_exits exampleHeader settlingDcEst zeroRegs 2 11
      (fun j hj => by rw [settling_too_high]; exact decide_eq_true hj)
      (by rw [settling_too_high]; decide) (by decide)).1,
    ((backoff_loop_exits exampleHeader settlingDcEst zeroRegs 2 11
      (fun j hj => by rw [settling_too_high]; exact decide_eq_true hj)
      (by rw [settling_too_high]; decide) (by decide)).2.2 (by decide) 2 (le_refl 2)).1⟩

/-- Counterexample for C29: over `clippingDcEst` (an estimate that stays at 2000, above
the threshold 1900) the loop is not left within 11 measurements, nor within 1000; the
twelfth pass decrements `bba_gain` from 0 to 255 (`uint8_t`) and writes that gain to
`AGC_CTRL_1`, whose 4-bit field keeps 15. -/
theorem backoff_loop_unbounded :
    backoff_loop exampleHeader clippingDcEst 11 0 (backoff_entry zeroRegs) = none ∧
      backoff_loop exampleHeader clippingDcEst 1000 0 (backoff_entry zeroRegs) = none ∧
      (backoff_passes exampleHeader clippingDcEst zeroRegs 11).bba_gain = 0 ∧
      (backoff_passes exampleHeader clippingDcEst zeroRegs 12).bba_gain = 255 ∧
      exampleHeader.AGC_CTRL_1_BBA_USER_GAIN.get
        ((backoff_passes exampleHeader clippingDcEst zeroRegs 12).regs Reg.AGC_CTRL_1) = 15 := by
  refine ⟨?_, ?_, ?_, ?_, ?_⟩
  · exact backoff_loop_never exampleHeader clippingDcEst zeroRegs
      (clipping_too_high exampleHeader zeroRegs) 11 0
  · exact backoff_loop_never exampleHeader clippingDcEst zeroRegs
      (clipping_too_high exampleHeader zeroRegs) 1000 0
  · rw [backoff_passes_bba_gain]
  · rw [backoff_passes_bba_gain]
  · rw [backoff_passes_reg, backoff_passes_bba_gain]
    decide

end XcvrTrim
